import Mathlib

/-!
# MinesweeperBSD: leaderboard, admission queue and session engine

A shallow embedding of `leaderboard.c`, `minesweeper.c` and the session part of
`server.c`, followed by the properties proved about them.

Modelling conventions.

* A singly linked list reachable from a head pointer is a Lean `List` of the node
  payloads, head first.  A node obtained from `malloc` whose `next` field the code
  never assigns is taken to end the chain (`next == NULL`).
* `char*` user names are compared with `strcmp` only, so they are modelled as `String`
  values (the callers keep the pointed-to text alive and unchanged).
* C `int` and `time_t` values are unbounded integers; the counters of the leaderboard only
  ever grow by one per completed game.
* A statement that dereferences a `NULL` pointer has no result: the embedding of the
  enclosing function returns `none`.
* The code between `pthread_mutex_lock` and `pthread_mutex_unlock` of the queue mutex, and
  between `leaderboard_write_lock` and `leaderboard_write_unlock`, is one step on the
  protected data.
* What the session receives from outside (`receive_message`, `send_message`, `time`,
  `rand`) is an argument of the embedded function; the text sent to the client is left out.
* `FIELD_WIDTH`, `FIELD_HEIGHT`, `NUM_MINES`, `Tile` and `MinesweeperState` come from
  `minesweeper.h`, which is not among the sources: the field is 9×9 as the spec and
  `draw_minesweeper_field` say, and `NUM_MINES` is a parameter.
-/

namespace MinesweeperBSD

/-! ## leaderboard.c -/

/-- Node of the user list (`struct user`), without its `next` pointer. -/
structure user where
  username : String
  games_played : Int
  games_won : Int
deriving DecidableEq, Repr

/-- Node of the list of won games (`struct game`), without its `next` pointer. -/
structure game where
  username : String
  time_taken : Int
deriving DecidableEq, Repr

/-- The globals of `leaderboard.c`: the two counters and the two chains that start at
`head_userinfo` and `head_gameinfo`.  The tail pointers always designate the last node of
their chain and are not stored. -/
structure Leaderboard where
  userinfo_size : Int
  gameinfo_size : Int
  userinfo : List user
  gameinfo : List game
deriving DecidableEq, Repr

/-- The initial values of the globals. -/
def Leaderboard.empty : Leaderboard :=
  { userinfo_size := 0, gameinfo_size := 0, userinfo := [], gameinfo := [] }

/-- The `while(userinfo != NULL)` loop of `username_exists` over the chain. -/
def username_exists_loop (username : String) : List user → Int
  | [] => 0
  | userinfo :: rest =>
    if username = userinfo.username then 1 else username_exists_loop username rest

/-- Embedding of `username_exists`. -/
def username_exists (s : Leaderboard) (username : String) : Int :=
  username_exists_loop username s.userinfo

/-- The `while(userinfo != NULL)` loop of `get_userinfo`; the pair is
`(*games_played, *games_won)`, which holds `(-1, -1)` when the loop finds nothing. -/
def get_userinfo_loop (username : String) : List user → Int × Int
  | [] => (-1, -1)
  | userinfo :: rest =>
    if username = userinfo.username then (userinfo.games_played, userinfo.games_won)
    else get_userinfo_loop username rest

/-- Embedding of `get_userinfo`; the result is `(*games_played, *games_won)`. -/
def get_userinfo (s : Leaderboard) (username : String) : Int × Int :=
  if username_exists s username ≠ 0 then get_userinfo_loop username s.userinfo
  else (-1, -1)

/-- Embedding of `leaderboard_add_user`.  With a non-zero `userinfo_size` the new node is
linked through `tail_userinfo->next`, which needs a last node. -/
def leaderboard_add_user (s : Leaderboard) (username : String) (game_won : Int) :
    Option Leaderboard :=
  let userinfo : user := { username := username, games_played := 1, games_won := game_won }
  if s.userinfo_size = 0 then
    some { s with userinfo := [userinfo], userinfo_size := s.userinfo_size + 1 }
  else
    match s.userinfo with
    | [] => none
    | _ :: _ =>
      some { s with userinfo := s.userinfo ++ [userinfo], userinfo_size := s.userinfo_size + 1 }

/-- The `while(userinfo != NULL)` loop of `leaderboard_update_user_games`. -/
def update_user_games_loop (username : String) (game_won : Int) : List user → List user
  | [] => []
  | userinfo :: rest =>
    if username = userinfo.username then
      { userinfo with
        games_played := userinfo.games_played + 1
        games_won := if game_won ≠ 0 then userinfo.games_won + 1 else userinfo.games_won } :: rest
    else userinfo :: update_user_games_loop username game_won rest

/-- Embedding of `leaderboard_update_user_games`. -/
def leaderboard_update_user_games (s : Leaderboard) (username : String) (game_won : Int) :
    Option Leaderboard :=
  if username_exists s username ≠ 0 then
    some { s with userinfo := update_user_games_loop username game_won s.userinfo }
  else leaderboard_add_user s username game_won

/-- The `while(game_iterator != NULL)` loop of `leaderboard_add_score`.  The list is the
chain starting at `game_iterator`; the result is that chain with the new node linked in, or
`none` when the loop reaches `NULL` without linking it. -/
def add_score_loop (s : Leaderboard) (gameinfo : game) : List game → Option (List game)
  | [] => none
  | game_iterator :: rest =>
    if gameinfo.time_taken ≤ game_iterator.time_taken then
      if gameinfo.time_taken = game_iterator.time_taken ∧
          (get_userinfo s gameinfo.username).2 ≥ (get_userinfo s game_iterator.username).2 then
        some (game_iterator :: gameinfo :: rest)
      else
        match rest with
        | [] => some [game_iterator, gameinfo]
        | next :: _ =>
          if gameinfo.time_taken > next.time_taken then
            some (game_iterator :: gameinfo :: rest)
          else if gameinfo.time_taken = next.time_taken ∧
              (get_userinfo s gameinfo.username).2 < (get_userinfo s next.username).2 then
            some (game_iterator :: gameinfo :: rest)
          else (add_score_loop s gameinfo rest).map (fun l => game_iterator :: l)
    else (add_score_loop s gameinfo rest).map (fun l => game_iterator :: l)

/-- Embedding of `leaderboard_add_score`.  When the loop leaves without linking the node
the function returns with the globals untouched. -/
def leaderboard_add_score (s : Leaderboard) (username : String) (time_taken : Int) :
    Option Leaderboard :=
  let gameinfo : game := { username := username, time_taken := time_taken }
  if s.gameinfo_size = 0 then
    some { s with gameinfo := [gameinfo], gameinfo_size := s.gameinfo_size + 1 }
  else
    match s.gameinfo with
    | [] => none
    | head_gameinfo :: rest =>
      if gameinfo.time_taken > head_gameinfo.time_taken then
        some { s with gameinfo := gameinfo :: head_gameinfo :: rest,
                      gameinfo_size := s.gameinfo_size + 1 }
      else if gameinfo.time_taken = head_gameinfo.time_taken ∧
          (get_userinfo s gameinfo.username).2 < (get_userinfo s head_gameinfo.username).2 then
        some { s with gameinfo := gameinfo :: head_gameinfo :: rest,
                      gameinfo_size := s.gameinfo_size + 1 }
      else
        match add_score_loop s gameinfo (head_gameinfo :: rest) with
        | some l => some { s with gameinfo := l, gameinfo_size := s.gameinfo_size + 1 }
        | none => some s

/-- Embedding of `get_gameinfo_head`: the ranked sequence, head first. -/
def get_gameinfo_head (s : Leaderboard) : List game := s.gameinfo

/-- Embedding of `get_gameinfo_size`. -/
def get_gameinfo_size (s : Leaderboard) : Int := s.gameinfo_size

/-- Embedding of `get_userinfolist_size`. -/
def get_userinfolist_size (s : Leaderboard) : Int := s.userinfo_size

/-! ## Calls into the leaderboard and the states they lead to -/

/-- One call into the leaderboard that changes it. -/
inductive LeaderboardCall where
  | add_score (username : String) (time_taken : Int)
  | update_user_games (username : String) (game_won : Int)
deriving DecidableEq, Repr

/-- Performs one call. -/
def LeaderboardCall.run (s : Leaderboard) : LeaderboardCall → Option Leaderboard
  | .add_score username time_taken => leaderboard_add_score s username time_taken
  | .update_user_games username game_won => leaderboard_update_user_games s username game_won

/-- Performs the calls of a list in order, starting from `s`. -/
def run_calls (s : Leaderboard) : List LeaderboardCall → Option Leaderboard
  | [] => some s
  | c :: cs => (c.run s).bind (fun s1 => run_calls s1 cs)

/-- The ranking by time: every entry has a time at least that of every later entry. -/
def sorted_by_time (l : List game) : Prop :=
  l.Pairwise (fun a b => a.time_taken ≥ b.time_taken)

/-- The counters agree with the chains. -/
def Leaderboard.wf (s : Leaderboard) : Prop :=
  s.userinfo_size = s.userinfo.length ∧ s.gameinfo_size = s.gameinfo.length

/-- The user chain holds one record per user name, each with at least one game played. -/
def users_ok (l : List user) : Prop :=
  (l.map user.username).Nodup ∧ ∀ r ∈ l, r.games_played ≥ 1

/-- The calls `leaderboard_update_user_games(username, won)` for a list of pairs
`(username, won)`. -/
def update_calls (calls : List (String × Int)) : List LeaderboardCall :=
  calls.map fun c => LeaderboardCall.update_user_games c.1 c.2

/-- The leaderboards the server can hold: those obtained from the empty one by calls of
`leaderboard_add_score` and `leaderboard_update_user_games`. -/
def board_reachable (board : Leaderboard) : Prop :=
  ∃ calls, run_calls Leaderboard.empty calls = some board

/-- The games played and won that the leaderboard has recorded for a user: the counts of the
user's record, or `(0, 0)` when the user has no record. -/
def recorded_games (board : Leaderboard) (username : String) : Int × Int :=
  if username_exists board username ≠ 0 then get_userinfo board username else (0, 0)

/-! ## minesweeper.c -/

/-- Modelled from the spec: `minesweeper.h` is not among the sources.  The spec fixes a
9×9 field (columns `1`-`9`, rows `A`-`I`), as `draw_minesweeper_field` also prints it. -/
def FIELD_WIDTH : Int := 9

/-- Modelled from the spec: `minesweeper.h` is not among the sources; see `FIELD_WIDTH`. -/
def FIELD_HEIGHT : Int := 9

/-- Modelled from the spec: the `Tile` type of the missing `minesweeper.h`, with the four
fields the sources read and write, each a C integer holding `0` or a non-zero value. -/
structure Tile where
  has_mine : Int
  has_flag : Int
  revealed : Int
  adjacent_mines : Int
deriving DecidableEq, Repr

/-- Modelled from the spec: the `MinesweeperState` type of the missing `minesweeper.h`, with
the fields the sources use.  `field x y` stands for `field[x][y]`. -/
structure MinesweeperState where
  field : Int → Int → Tile
  mines_remaining : Int
  game_won : Int
  game_start_time : Int
  game_time_taken : Int
  username : String

/-- Embedding of `in_bounds`. -/
def in_bounds (x y : Int) : Int :=
  if x ≥ 0 ∧ x < FIELD_WIDTH ∧ y ≥ 0 ∧ y < FIELD_HEIGHT then 1 else 0

/-- The C library test `isdigit` on a character. -/
def isdigit (c : Char) : Bool := decide (48 ≤ c.toNat ∧ c.toNat ≤ 57)

/-- Body of the `for` loop of `convert_coordinate` for one character; the argument and the
result are the current `(*x, *y)`, and `none` stands for `return 0`. -/
def convert_coordinate_body (c : Char) (xy : Int × Int) : Option (Int × Int) :=
  if isdigit c then
    let x_coord : Int := (c.toNat : Int) - 48
    if in_bounds (x_coord - 1) 0 ≠ 0 then some (x_coord - 1, xy.2) else none
  else if 65 ≤ c.toNat ∧ c.toNat ≤ 90 then some (xy.1, (c.toNat : Int) - 65)
  else if 97 ≤ c.toNat ∧ c.toNat ≤ 122 then some (xy.1, (c.toNat : Int) - 97)
  else none

/-- Embedding of `convert_coordinate` on `coord[0]`, `coord[1]`; the result is
`(return value, *x, *y)`. -/
def convert_coordinate (coord0 coord1 : Char) : Int × Int × Int :=
  match convert_coordinate_body coord0 (-1, -1) with
  | none => (0, -1, -1)
  | some xy0 =>
    match convert_coordinate_body coord1 xy0 with
    | none => (0, xy0.1, xy0.2)
    | some xy => if in_bounds xy.1 xy.2 = 0 then (0, xy.1, xy.2) else (1, xy.1, xy.2)

/-- The character is one of the column digits `1` to `9`. -/
def is_column_digit (c : Char) : Prop := 49 ≤ c.toNat ∧ c.toNat ≤ 57

/-- The character is one of the row letters `A` to `I` or `a` to `i`. -/
def is_row_letter (c : Char) : Prop :=
  (65 ≤ c.toNat ∧ c.toNat ≤ 73) ∨ (97 ≤ c.toNat ∧ c.toNat ≤ 105)

/-- The column a digit stands for: the digit minus 1. -/
def column_of (c : Char) : Int := (c.toNat : Int) - 49

/-- The row a letter stands for: its index counted from `A` (or from `a`). -/
def row_of (c : Char) : Int :=
  if c.toNat ≤ 90 then (c.toNat : Int) - 65 else (c.toNat : Int) - 97

/-- Assignment `field[x][y] = t`. -/
def set_tile (field : Int → Int → Tile) (x y : Int) (t : Tile) : Int → Int → Tile :=
  fun i j => if i = x ∧ j = y then t else field i j

/-- Embedding of `reveal_tile`, the recursion depth bounded by the first argument; `none`
when the bound is reached. -/
def reveal_tile_fuel : Nat → Int → Int → MinesweeperState → Option MinesweeperState
  | 0, _, _, _ => none
  | fuel + 1, x, y, state =>
    if in_bounds x y ≠ 0 ∧ (state.field x y).revealed = 0 then
      let state1 : MinesweeperState :=
        { state with field := set_tile state.field x y { state.field x y with revealed := 1 } }
      if (state1.field x y).adjacent_mines = 0 then
        (reveal_tile_fuel fuel (x - 1) y state1).bind fun s1 =>
        (reveal_tile_fuel fuel (x + 1) y s1).bind fun s2 =>
        (reveal_tile_fuel fuel (x - 1) (y - 1) s2).bind fun s3 =>
        (reveal_tile_fuel fuel (x + 1) (y - 1) s3).bind fun s4 =>
        (reveal_tile_fuel fuel (x - 1) (y + 1) s4).bind fun s5 =>
        (reveal_tile_fuel fuel (x + 1) (y + 1) s5).bind fun s6 =>
        (reveal_tile_fuel fuel x (y - 1) s6).bind fun s7 =>
        reveal_tile_fuel fuel x (y + 1) s7
      else some state1
    else some state

/-- Embedding of `reveal_tile`: the recursion is given one level more than there are
tiles. -/
def reveal_tile (x y : Int) (state : MinesweeperState) : Option MinesweeperState :=
  reveal_tile_fuel (FIELD_WIDTH * FIELD_HEIGHT + 1).toNat x y state

/-- Embedding of `flag_tile`; the result is `(return value, *state)`. -/
def flag_tile (x y : Int) (state : MinesweeperState) : Int × MinesweeperState :=
  if in_bounds x y ≠ 0 ∧ (state.field x y).revealed = 0 then
    if (state.field x y).has_mine ≠ 0 then
      let field1 := set_tile state.field x y { state.field x y with has_flag := 1 }
      let field2 := set_tile field1 x y { field1 x y with revealed := 1 }
      (1, { state with field := field2, mines_remaining := state.mines_remaining - 1 })
    else (0, state)
  else (0, state)

/-- The loop nest `for(x = 0; x < FIELD_WIDTH; x++) for(y = 0; y < FIELD_HEIGHT; y++)`
around a body that updates the field. -/
def for_each_tile (body : Int → Int → (Int → Int → Tile) → (Int → Int → Tile))
    (field : Int → Int → Tile) : Int → Int → Tile :=
  (List.range FIELD_WIDTH.toNat).foldl
    (fun f (x : Nat) =>
      (List.range FIELD_HEIGHT.toNat).foldl
        (fun g (y : Nat) => body (Int.ofNat x) (Int.ofNat y) g) f)
    field

/-- Embedding of `show_mines`. -/
def show_mines (state : MinesweeperState) (show_flags : Int) : MinesweeperState :=
  { state with
    field := for_each_tile
      (fun x y f =>
        if (f x y).has_mine ≠ 0 then
          let f1 := set_tile f x y { f x y with revealed := 1 }
          set_tile f1 x y { f1 x y with has_flag := show_flags }
        else set_tile f x y { f x y with revealed := 0 })
      state.field }

/-- Embedding of `reset_field`. -/
def reset_field (field : Int → Int → Tile) : Int → Int → Tile :=
  for_each_tile
    (fun x y f =>
      set_tile f x y { adjacent_mines := 0, has_mine := 0, revealed := 0, has_flag := 0 })
    field

/-- Embedding of `tile_contains_mine`. -/
def tile_contains_mine (x y : Int) (field : Int → Int → Tile) : Int := (field x y).has_mine

/-- Embedding of `num_mines_adjacent`: the two loops run over `x-1..x+1` and `y-1..y+1`. -/
def num_mines_adjacent (x y : Int) (field : Int → Int → Tile) : Int :=
  [x - 1, x, x + 1].foldl
    (fun num_mines i =>
      [y - 1, y, y + 1].foldl
        (fun num_mines j =>
          if in_bounds i j ≠ 0 then
            if (field i j).has_mine ≠ 0 then num_mines + 1 else num_mines
          else num_mines)
        num_mines)
    0

/-- The `for` loop of `place_mines` with its inner `do ... while`: the first argument counts
the mines still to place and the list holds the values `rand()` is going to return.  The
result is `none` when the list is used up before the loop ends. -/
def place_mines_loop : Nat → List Nat → (Int → Int → Tile) → Option (Int → Int → Tile)
  | 0, _, field => some field
  | _ + 1, [], _ => none
  | _ + 1, [_], _ => none
  | n + 1, r1 :: r2 :: rand, field =>
    let x : Int := (r1 : Int) % FIELD_WIDTH
    let y : Int := (r2 : Int) % FIELD_HEIGHT
    if tile_contains_mine x y field ≠ 0 then place_mines_loop (n + 1) rand field
    else place_mines_loop n rand (set_tile field x y { field x y with has_mine := 1 })

/-- Embedding of `place_mines`.  `NUM_MINES` is a constant of the missing `minesweeper.h`
and is a parameter here; `rand` lists the values returned by `rand()`. -/
def place_mines (NUM_MINES : Nat) (rand : List Nat) (state : MinesweeperState) :
    Option MinesweeperState :=
  (place_mines_loop NUM_MINES rand state.field).map fun field =>
    { state with mines_remaining := NUM_MINES, field := field }

/-- Embedding of `minesweeper_init`; `now` is the value of `time(NULL)`. -/
def minesweeper_init (NUM_MINES : Nat) (rand : List Nat) (now : Int)
    (state : MinesweeperState) : Option MinesweeperState :=
  (place_mines NUM_MINES rand { state with field := reset_field state.field }).map fun s1 =>
    { s1 with
      game_won := 0
      game_start_time := now
      field := for_each_tile
        (fun x y f => set_tile f x y { f x y with adjacent_mines := num_mines_adjacent x y f })
        s1.field }

/-! ## server.c: the admission queue -/

/-- The queue globals of `server.c`: the counter `client_queue_size` and the
`request_sockfd` values of the chain that starts at `head_client_queue`.  The tail pointer
always designates the last node and is not stored. -/
structure ClientQueue where
  client_queue_size : Int
  requests : List Int
deriving DecidableEq, Repr

/-- The initial values of the queue globals. -/
def ClientQueue.empty : ClientQueue := { client_queue_size := 0, requests := [] }

/-- Embedding of `client_queue_add`; the result is `(*queue, return value)`.  With a
non-zero counter the new node is linked through `tail_client_queue->next`. -/
def client_queue_add (q : ClientQueue) (client_sockfd : Int) : Option (ClientQueue × Int) :=
  if q.client_queue_size = 0 then
    some ({ requests := [client_sockfd], client_queue_size := q.client_queue_size + 1 },
      q.client_queue_size + 1)
  else
    match q.requests with
    | [] => none
    | _ :: _ =>
      some ({ requests := q.requests ++ [client_sockfd],
              client_queue_size := q.client_queue_size + 1 },
        q.client_queue_size + 1)

/-- Embedding of `client_queue_pop`; the result is `(*queue, return value)`.  The statement
`client_request->request_sockfd` after the critical section needs a non-`NULL`
`client_request`. -/
def client_queue_pop (q : ClientQueue) : Option (ClientQueue × Int) :=
  if q.client_queue_size > 0 then
    match q.requests with
    | [] => none
    | client_request :: rest =>
      some ({ requests := rest, client_queue_size := q.client_queue_size - 1 }, client_request)
  else none

/-- Calls `client_queue_add` for each socket of the list in order. -/
def client_queue_add_all (q : ClientQueue) : List Int → Option ClientQueue
  | [] => some q
  | client_sockfd :: rest =>
    (client_queue_add q client_sockfd).bind fun r => client_queue_add_all r.1 rest

/-- Calls `client_queue_pop` the given number of times and collects the return values. -/
def client_queue_pop_n (q : ClientQueue) : Nat → Option (ClientQueue × List Int)
  | 0 => some (q, [])
  | n + 1 =>
    (client_queue_pop q).bind fun r =>
      (client_queue_pop_n r.1 n).map fun r1 => (r1.1, r.2 :: r1.2)

/-- One call that changes the queue. -/
inductive QueueCall where
  | add (client_sockfd : Int)
  | pop
deriving DecidableEq, Repr

/-- Performs one call on the queue and drops the return value. -/
def QueueCall.run (q : ClientQueue) : QueueCall → Option ClientQueue
  | .add client_sockfd => (client_queue_add q client_sockfd).map Prod.fst
  | .pop => (client_queue_pop q).map Prod.fst

/-- Performs the calls of a list in order, starting from `q`. -/
def run_queue_calls (q : ClientQueue) : List QueueCall → Option ClientQueue
  | [] => some q
  | c :: cs => (c.run q).bind fun q1 => run_queue_calls q1 cs

/-- Whether a call is a `client_queue_add`. -/
def QueueCall.is_add : QueueCall → Bool
  | .add _ => true
  | .pop => false

/-- Whether a call is a `client_queue_pop`. -/
def QueueCall.is_pop : QueueCall → Bool
  | .add _ => false
  | .pop => true

/-! ## server.c: the session state machine -/

/-- The states of a session (`enum game_state`). -/
inductive game_state where
  | MAIN_MENU
  | PLAYING
  | GAMEOVER
  | HIGHSCORE
  | EXIT
deriving DecidableEq, Repr

/-- The locals of `game_loop`. -/
structure Session where
  state : game_state
  sweeper_state : MinesweeperState

/-- What one iteration of `game_loop` obtains from outside: the buffers and return values
of `receive_message`, the clock, the random numbers and the result of sending. -/
structure Inputs where
  /-- Return value of the `send_message` call that `draw` checks. -/
  send_size : Int
  /-- Buffer filled by `receive_message` in `update`. -/
  buffer : Nat → Char
  /-- Return value of `receive_message` in a coordinate prompt. -/
  coord_size : Int
  /-- Buffer filled by `receive_message` in a coordinate prompt. -/
  coord_buffer : Nat → Char
  /-- Value of `time(NULL)` while the command is carried out. -/
  time_command : Int
  /-- Value of `time(NULL)` in the final check of `update_playing_screen`. -/
  time_check : Int
  /-- Values returned by `rand()`. -/
  rand : List Nat

/-- Modelled from the spec: `message.c` is not among the sources.  A received message is a
control-code character followed by the text the client typed; the bytes after the text are
NUL.  `update` reads the command from position 1 and a coordinate from positions 1 and 2. -/
def message_buffer (code : Char) (text : String) : Nat → Char :=
  fun i => (code :: text.toList).getD i (Char.ofNat 0)

/-- Embedding of `minesweeper_game_end`; `now` is the value of `time(NULL)`.  The
leaderboard is changed under the write lock, so the two calls are not interleaved with
calls of other sessions. -/
def minesweeper_game_end (now : Int) (board : Leaderboard) (s : Session) (game_won : Int) :
    Option (Session × Leaderboard) :=
  let sweeper_state : MinesweeperState :=
    { s.sweeper_state with
      game_won := game_won
      game_time_taken := now - s.sweeper_state.game_start_time }
  let s1 : Session := { state := game_state.GAMEOVER, sweeper_state := sweeper_state }
  (if game_won ≠ 0 then
      leaderboard_add_score board sweeper_state.username sweeper_state.game_time_taken
    else some board).bind fun board1 =>
  (leaderboard_update_user_games board1 sweeper_state.username game_won).map fun board2 =>
    (s1, board2)

/-- Embedding of `tile_reveal_prompt`. -/
def tile_reveal_prompt (inp : Inputs) (board : Leaderboard) (s : Session) :
    Option (Session × Leaderboard) :=
  if inp.coord_size ≠ 4 then some (s, board)
  else
    let r := convert_coordinate (inp.coord_buffer 1) (inp.coord_buffer 2)
    let x := r.2.1
    let y := r.2.2
    if r.1 = 0 then some (s, board)
    else if (s.sweeper_state.field x y).revealed ≠ 0 then some (s, board)
    else
      (reveal_tile x y s.sweeper_state).bind fun sweeper_state =>
        if (sweeper_state.field x y).has_mine ≠ 0 then
          minesweeper_game_end inp.time_command board { s with sweeper_state := sweeper_state } 0
        else some ({ s with sweeper_state := sweeper_state }, board)

/-- Embedding of `tile_flag_prompt`. -/
def tile_flag_prompt (inp : Inputs) (s : Session) : Session :=
  if inp.coord_size ≠ 4 then s
  else
    let r := convert_coordinate (inp.coord_buffer 1) (inp.coord_buffer 2)
    let x := r.2.1
    let y := r.2.2
    if r.1 = 0 then s
    else { s with sweeper_state := (flag_tile x y s.sweeper_state).2 }

/-- Embedding of `update_playing_screen`. -/
def update_playing_screen (inp : Inputs) (board : Leaderboard) (s : Session) :
    Option (Session × Leaderboard) :=
  let input := inp.buffer 1
  (if input = 'r' ∨ input = 'R' then tile_reveal_prompt inp board s
    else if input = 'p' ∨ input = 'P' then some (tile_flag_prompt inp s, board)
    else if input = 'q' ∨ input = 'Q' then
      (minesweeper_game_end inp.time_command board s 0).map fun r =>
        ({ r.1 with state := game_state.MAIN_MENU }, r.2)
    else some (s, board)).bind fun r =>
  if r.1.sweeper_state.mines_remaining = 0 then
    minesweeper_game_end inp.time_check r.2 r.1 1
  else some r

/-- Embedding of `update_main_menu`. -/
def update_main_menu (NUM_MINES : Nat) (inp : Inputs) (s : Session) : Option Session :=
  let input := inp.buffer 1
  if isdigit input then
    let selection : Int := (input.toNat : Int) - 48
    if selection = 1 then
      (minesweeper_init NUM_MINES inp.rand inp.time_command s.sweeper_state).map
        fun sweeper_state => { state := game_state.PLAYING, sweeper_state := sweeper_state }
    else if selection = 2 then some { s with state := game_state.HIGHSCORE }
    else if selection = 3 then some { s with state := game_state.EXIT }
    else some s
  else some s

/-- Embedding of `update`. -/
def update (NUM_MINES : Nat) (inp : Inputs) (board : Leaderboard) (s : Session) :
    Option (Session × Leaderboard) :=
  match s.state with
  | game_state.MAIN_MENU => (update_main_menu NUM_MINES inp s).map fun s1 => (s1, board)
  | game_state.PLAYING => update_playing_screen inp board s
  | game_state.HIGHSCORE => some ({ s with state := game_state.MAIN_MENU }, board)
  | game_state.GAMEOVER => some ({ s with state := game_state.MAIN_MENU }, board)
  | game_state.EXIT => some (s, board)

/-- Embedding of `draw`, reduced to what it does to the locals of `game_loop`: a failed
send ends the session and the game-over screen calls `show_mines`. -/
def draw (inp : Inputs) (s : Session) : Session :=
  let s1 : Session := if inp.send_size < 0 then { s with state := game_state.EXIT } else s
  match s1.state with
  | game_state.GAMEOVER =>
    { s1 with sweeper_state := show_mines s1.sweeper_state s1.sweeper_state.game_won }
  | _ => s1

/-! ## Counting tiles, reachable sessions and their invariant -/

/-- The coordinates `(x, y)` of the tiles of the field. -/
def all_tiles : List (Int × Int) :=
  (List.range FIELD_WIDTH.toNat).flatMap fun (x : Nat) =>
    (List.range FIELD_HEIGHT.toNat).map fun (y : Nat) => (Int.ofNat x, Int.ofNat y)

/-- The number of tiles of the field that satisfy a test. -/
def count_tiles (test : Tile → Bool) (field : Int → Int → Tile) : Nat :=
  all_tiles.countP fun p => test (field p.1 p.2)

/-- The number of tiles of the field that have a mine and no flag. -/
def unflagged_mines (field : Int → Int → Tile) : Nat :=
  count_tiles (fun t => decide (t.has_mine ≠ 0 ∧ t.has_flag = 0)) field

/-- The number of tiles of the field that are not revealed. -/
def unrevealed_tiles (field : Int → Int → Tile) : Nat :=
  count_tiles (fun t => decide (t.revealed = 0)) field

/-- Whether `(i, j)` is a tile of the field that has a mine, as 1 or 0. -/
def mine_at (field : Int → Int → Tile) (i j : Int) : Int :=
  if in_bounds i j ≠ 0 then (if (field i j).has_mine ≠ 0 then 1 else 0) else 0

/-- The number of tiles with a mine among the up to 8 tiles of the field around `(x, y)`,
the tile `(x, y)` itself not counted. -/
def mined_neighbours (field : Int → Int → Tile) (x y : Int) : Int :=
  mine_at field (x - 1) (y - 1) + mine_at field (x - 1) y + mine_at field (x - 1) (y + 1) +
  mine_at field x (y - 1) + mine_at field x (y + 1) +
  mine_at field (x + 1) (y - 1) + mine_at field (x + 1) y + mine_at field (x + 1) (y + 1)

/-- Tile `(i, j)` is a tile with count 0 or lies next to one. -/
def near_zero (field : Int → Int → Tile) (i j : Int) : Prop :=
  ∃ p q, in_bounds p q ≠ 0 ∧ (field p q).adjacent_mines = 0 ∧
    p - 1 ≤ i ∧ i ≤ p + 1 ∧ q - 1 ≤ j ∧ j ≤ q + 1

/-- The state `s1` comes from `s` by revealing unrevealed tiles of the field, all of them
among the `allowed` ones, and nothing else differs. -/
structure reveals (allowed : Int → Int → Prop) (s s1 : MinesweeperState) : Prop where
  mines_remaining : s1.mines_remaining = s.mines_remaining
  game_won : s1.game_won = s.game_won
  game_start_time : s1.game_start_time = s.game_start_time
  game_time_taken : s1.game_time_taken = s.game_time_taken
  username : s1.username = s.username
  tiles : ∀ i j, s1.field i j = s.field i j ∨
    (in_bounds i j ≠ 0 ∧ (s.field i j).revealed = 0 ∧
      s1.field i j = { s.field i j with revealed := 1 } ∧ allowed i j)

/-- The sessions `game_loop` can be in: it starts in `MAIN_MENU` with a `sweeper_state` of
which only the user name is set, and then alternates `draw` and `update`, whatever the
inputs are and whatever the other sessions have made of the leaderboard. -/
inductive Reachable (NUM_MINES : Nat) : Session → Prop where
  | start (sweeper_state : MinesweeperState) :
      Reachable NUM_MINES { state := game_state.MAIN_MENU, sweeper_state := sweeper_state }
  | draw (inp : Inputs) (s : Session) :
      Reachable NUM_MINES s → Reachable NUM_MINES (draw inp s)
  | update (inp : Inputs) (board board1 : Leaderboard) (s s1 : Session) :
      Reachable NUM_MINES s → update NUM_MINES inp board s = some (s1, board1) →
      Reachable NUM_MINES s1

/-- What holds of the `MinesweeperState` of a session in `PLAYING`. -/
structure playing_inv (state : MinesweeperState) : Prop where
  /-- The counter is the number of mined tiles without a flag. -/
  remaining : state.mines_remaining = unflagged_mines state.field
  /-- A revealed tile with a mine has a flag. -/
  mine_revealed : ∀ x y, in_bounds x y ≠ 0 → (state.field x y).has_mine ≠ 0 →
    (state.field x y).revealed ≠ 0 → (state.field x y).has_flag ≠ 0
  /-- A tile with a flag is revealed. -/
  flag_revealed : ∀ x y, in_bounds x y ≠ 0 → (state.field x y).has_flag ≠ 0 →
    (state.field x y).revealed ≠ 0
  /-- The stored counts are those `num_mines_adjacent` computes. -/
  adjacent : ∀ x y, in_bounds x y ≠ 0 →
    (state.field x y).adjacent_mines = num_mines_adjacent x y state.field

/-! ## The states of one game and the flood-fill region -/

/-- The states a `MinesweeperState` goes through in one game: the state `minesweeper_init`
returns, and from there the states `reveal_tile` and `flag_tile` lead to, called on any
coordinates in any order. -/
inductive GameReachable (NUM_MINES : Nat) : MinesweeperState → Prop where
  | init (rand : List Nat) (now : Int) (state s1 : MinesweeperState) :
      minesweeper_init NUM_MINES rand now state = some s1 → GameReachable NUM_MINES s1
  | reveal (x y : Int) (s s1 : MinesweeperState) :
      GameReachable NUM_MINES s → reveal_tile x y s = some s1 → GameReachable NUM_MINES s1
  | flag (x y : Int) (s : MinesweeperState) :
      GameReachable NUM_MINES s → GameReachable NUM_MINES (flag_tile x y s).2

/-- Tile `(i, j)` is one of the 8 tiles around `(p, q)`. -/
def is_neighbour (p q i j : Int) : Prop :=
  p - 1 ≤ i ∧ i ≤ p + 1 ∧ q - 1 ≤ j ∧ j ≤ q + 1 ∧ ¬ (i = p ∧ j = q)

/-- The two conditions on a set `R` of tiles in the description of the flood-fill region of
`reveal_tile(x, y)`: `(x, y)` is in `R` when it is on the field and unrevealed, and for every
`(p, q)` in `R` with `adjacent_mines = 0` every neighbour on the field that is unrevealed is
in `R`.  "Unrevealed" refers to the state before the call. -/
def flood_closed (state : MinesweeperState) (x y : Int) (R : Int → Int → Prop) : Prop :=
  ((in_bounds x y ≠ 0 ∧ (state.field x y).revealed = 0) → R x y) ∧
  ∀ p q i j, R p q → (state.field p q).adjacent_mines = 0 → is_neighbour p q i j →
    in_bounds i j ≠ 0 → (state.field i j).revealed = 0 → R i j

/-- The flood-fill region of `reveal_tile(x, y)` in a state, as the spec describes it: the
least set of tiles that satisfies `flood_closed`. -/
inductive flood_fill_region (state : MinesweeperState) (x y : Int) : Int → Int → Prop where
  | root : in_bounds x y ≠ 0 → (state.field x y).revealed = 0 →
      flood_fill_region state x y x y
  | cascade (p q i j : Int) : flood_fill_region state x y p q →
      (state.field p q).adjacent_mines = 0 → is_neighbour p q i j →
      in_bounds i j ≠ 0 → (state.field i j).revealed = 0 → flood_fill_region state x y i j

/-- Between the states `s` and `s1`, every tile with `adjacent_mines = 0` that went from
unrevealed to revealed has all its neighbours on the field revealed in `s1`. -/
def cascade_complete (s s1 : MinesweeperState) : Prop :=
  ∀ p q, (s.field p q).revealed = 0 → (s1.field p q).revealed ≠ 0 →
    (s.field p q).adjacent_mines = 0 →
    ∀ i j, is_neighbour p q i j → in_bounds i j ≠ 0 → (s1.field i j).revealed ≠ 0

/-! ## Sample inputs -/

/-- A field without mines, flags or revealed tiles. -/
def sample_sweeper_state : MinesweeperState :=
  { field := fun _ _ => { has_mine := 0, has_flag := 0, revealed := 0, adjacent_mines := 0 }
    mines_remaining := 0, game_won := 0, game_start_time := 0, game_time_taken := 0
    username := "ann" }

/-- Inputs of an iteration in which the client sends the command `c` and then the
coordinate `A1`, while `rand()` returns 0 twice. -/
def sample_inputs (c : Char) : Inputs :=
  { send_size := 1
    buffer := fun i => if i = 1 then c else ' '
    coord_size := 4
    coord_buffer := fun i => if i = 1 then 'A' else '1'
    time_command := 100
    time_check := 100
    rand := [0, 0] }

/-- The session after `ann` has chosen `1` in the main menu of a server with one mine per
field, the mine being placed on tile `A1`. -/
def sample_playing : Session :=
  match update 1 (sample_inputs '1') Leaderboard.empty
      { state := game_state.MAIN_MENU, sweeper_state := sample_sweeper_state } with
  | some r => r.1
  | none => { state := game_state.MAIN_MENU, sweeper_state := sample_sweeper_state }

/-! ## Properties of the leaderboard -/

theorem username_exists_loop_ne_zero (u : String) (l : List user) :
    username_exists_loop u l ≠ 0 ↔ ∃ r ∈ l, r.username = u := by
  induction l with
  | nil => simp [username_exists_loop]
  | cons a l ih =>
    unfold username_exists_loop
    by_cases h : u = a.username
    · simp [h]
    · have h2 : ¬ a.username = u := fun e => h e.symm
      simp [h, h2, ih]

theorem username_exists_loop_zero_or_one (u : String) (l : List user) :
    username_exists_loop u l = 0 ∨ username_exists_loop u l = 1 := by
  induction l with
  | nil => simp [username_exists_loop]
  | cons a l ih =>
    unfold username_exists_loop
    by_cases h : u = a.username
    · simp [h]
    · simpa [h] using ih

theorem username_exists_loop_eq_zero (u : String) (l : List user) :
    username_exists_loop u l = 0 ↔ ∀ r ∈ l, r.username ≠ u := by
  have h := username_exists_loop_ne_zero u l
  constructor
  · intro h0 r hr e
    exact (h.mpr ⟨r, hr, e⟩) h0
  · intro h0
    by_contra hne
    obtain ⟨r, hr, e⟩ := h.mp hne
    exact h0 r hr e

theorem sorted_by_time_insert (g : game) (l1 l2 : List game)
    (h : sorted_by_time (l1 ++ l2))
    (h1 : ∀ a ∈ l1, a.time_taken ≥ g.time_taken)
    (h2 : ∀ b ∈ l2, g.time_taken ≥ b.time_taken) :
    sorted_by_time (l1 ++ g :: l2) := by
  unfold sorted_by_time at *
  rw [List.pairwise_append] at h ⊢
  obtain ⟨p1, p2, p12⟩ := h
  refine ⟨p1, List.pairwise_cons.mpr ⟨h2, p2⟩, ?_⟩
  intro a ha b hb
  rcases List.mem_cons.mp hb with rfl | hb
  · exact h1 a ha
  · exact p12 a ha b hb

theorem add_score_loop_spec (s : Leaderboard) (g : game) :
    ∀ (rest : List game) (it : game), sorted_by_time (it :: rest) →
      g.time_taken ≤ it.time_taken →
      ∃ l1 l2, it :: rest = l1 ++ l2 ∧ add_score_loop s g (it :: rest) = some (l1 ++ g :: l2) ∧
        (∀ a ∈ l1, a.time_taken ≥ g.time_taken) ∧ (∀ b ∈ l2, g.time_taken ≥ b.time_taken) := by
  intro rest
  induction rest with
  | nil =>
    intro it _ hle
    refine ⟨[it], [], rfl, ?_, ?_, ?_⟩
    · unfold add_score_loop
      simp only [hle, if_true]
      split <;> rfl
    · intro a ha; simp at ha; subst ha; exact hle
    · intro b hb; simp at hb
  | cons nxt rest ih =>
    intro it hs hle
    have hs1 : ∀ b ∈ nxt :: rest, it.time_taken ≥ b.time_taken := (List.pairwise_cons.mp hs).1
    have hs2 : sorted_by_time (nxt :: rest) := (List.pairwise_cons.mp hs).2
    have hs3 : ∀ b ∈ rest, nxt.time_taken ≥ b.time_taken := (List.pairwise_cons.mp hs2).1
    have hit : ∀ a ∈ [it], a.time_taken ≥ g.time_taken := by
      intro a ha; simp at ha; subst ha; exact hle
    unfold add_score_loop
    simp only [hle, if_true]
    by_cases c1 : g.time_taken = it.time_taken ∧
        (get_userinfo s g.username).2 ≥ (get_userinfo s it.username).2
    · refine ⟨[it], nxt :: rest, rfl, ?_, hit, ?_⟩
      · rw [if_pos c1]; rfl
      · intro b hb; rw [c1.1]; exact hs1 b hb
    · rw [if_neg c1]
      by_cases c2 : g.time_taken > nxt.time_taken
      · refine ⟨[it], nxt :: rest, rfl, ?_, hit, ?_⟩
        · rw [if_pos c2]; rfl
        · intro b hb
          rcases List.mem_cons.mp hb with rfl | hb
          · exact le_of_lt c2
          · exact le_trans (hs3 b hb) (le_of_lt c2)
      · by_cases c3 : g.time_taken = nxt.time_taken ∧
            (get_userinfo s g.username).2 < (get_userinfo s nxt.username).2
        · refine ⟨[it], nxt :: rest, rfl, ?_, hit, ?_⟩
          · rw [if_neg c2, if_pos c3]; rfl
          · intro b hb
            rcases List.mem_cons.mp hb with rfl | hb
            · exact le_of_eq c3.1.symm
            · rw [c3.1]; exact hs3 b hb
        · obtain ⟨l1, l2, e, hr, h1, h2⟩ := ih nxt hs2 (not_lt.mp c2)
          refine ⟨it :: l1, l2, by rw [e]; rfl, ?_, ?_, h2⟩
          · rw [if_neg c2, if_neg c3, hr]; rfl
          · intro a ha
            rcases List.mem_cons.mp ha with rfl | ha
            · exact hle
            · exact h1 a ha

theorem update_user_games_loop_length (u : String) (w : Int) (l : List user) :
    (update_user_games_loop u w l).length = l.length := by
  induction l with
  | nil => rfl
  | cons a l ih =>
    unfold update_user_games_loop
    by_cases h : u = a.username
    · simp [h]
    · simp [h, ih]

theorem leaderboard_add_user_spec (s : Leaderboard) (u : String) (w : Int) (hwf : s.wf) :
    leaderboard_add_user s u w =
      some { s with userinfo := s.userinfo ++ [⟨u, 1, w⟩], userinfo_size := s.userinfo_size + 1 } := by
  obtain ⟨hu, _⟩ := hwf
  unfold leaderboard_add_user
  cases hl : s.userinfo with
  | nil =>
    have h0 : s.userinfo_size = 0 := by rw [hu, hl]; rfl
    simp [h0]
  | cons a l =>
    have h0 : s.userinfo_size ≠ 0 := by
      rw [hu, hl]; simp only [List.length_cons]; omega
    simp [h0]

theorem leaderboard_update_user_games_spec (s : Leaderboard) (u : String) (w : Int)
    (hwf : s.wf) :
    ∃ s1, leaderboard_update_user_games s u w = some s1 ∧ s1.wf ∧
      s1.gameinfo = s.gameinfo ∧ s1.gameinfo_size = s.gameinfo_size ∧
      s1.userinfo =
        (if username_exists s u ≠ 0 then update_user_games_loop u w s.userinfo
          else s.userinfo ++ [⟨u, 1, w⟩]) := by
  unfold leaderboard_update_user_games
  by_cases h : username_exists s u ≠ 0
  · rw [if_pos h]
    refine ⟨_, rfl, ⟨?_, hwf.2⟩, rfl, rfl, by rw [if_pos h]⟩
    show s.userinfo_size = ((update_user_games_loop u w s.userinfo).length : Int)
    rw [update_user_games_loop_length]; exact hwf.1
  · rw [if_neg h, leaderboard_add_user_spec s u w hwf]
    refine ⟨_, rfl, ⟨?_, hwf.2⟩, rfl, rfl, by rw [if_neg h]⟩
    show s.userinfo_size + 1 = ((s.userinfo ++ [(⟨u, 1, w⟩ : user)]).length : Int)
    rw [hwf.1]; simp

theorem leaderboard_add_score_spec (s : Leaderboard) (username : String) (time_taken : Int)
    (hwf : s.gameinfo_size = s.gameinfo.length) (hs : sorted_by_time s.gameinfo) :
    ∃ l1 l2, s.gameinfo = l1 ++ l2 ∧
      leaderboard_add_score s username time_taken =
        some { s with gameinfo := l1 ++ ⟨username, time_taken⟩ :: l2,
                      gameinfo_size := s.gameinfo_size + 1 } ∧
      (∀ a ∈ l1, a.time_taken ≥ time_taken) ∧ (∀ b ∈ l2, time_taken ≥ b.time_taken) := by
  unfold leaderboard_add_score
  cases hl : s.gameinfo with
  | nil =>
    have h0 : s.gameinfo_size = 0 := by rw [hwf, hl]; rfl
    refine ⟨[], [], rfl, ?_, ?_, ?_⟩
    · simp [h0]
    · intro a ha; simp at ha
    · intro a ha; simp at ha
  | cons hd rest =>
    have h0 : s.gameinfo_size ≠ 0 := by
      rw [hwf, hl]; simp only [List.length_cons]; omega
    rw [hl] at hs
    have hs1 : ∀ b ∈ rest, hd.time_taken ≥ b.time_taken := (List.pairwise_cons.mp hs).1
    simp only [h0, if_false]
    by_cases c1 : time_taken > hd.time_taken
    · refine ⟨[], hd :: rest, rfl, ?_, ?_, ?_⟩
      · rw [if_pos c1]; rfl
      · intro a ha; simp at ha
      · intro b hb
        rcases List.mem_cons.mp hb with rfl | hb
        · exact le_of_lt c1
        · exact le_trans (hs1 b hb) (le_of_lt c1)
    · rw [if_neg c1]
      by_cases c2 : time_taken = hd.time_taken ∧
          (get_userinfo s username).2 < (get_userinfo s hd.username).2
      · refine ⟨[], hd :: rest, rfl, ?_, ?_, ?_⟩
        · rw [if_pos c2]; rfl
        · intro a ha; simp at ha
        · intro b hb
          rcases List.mem_cons.mp hb with rfl | hb
          · exact le_of_eq c2.1.symm
          · rw [c2.1]; exact hs1 b hb
      · rw [if_neg c2]
        obtain ⟨l1, l2, e, hr, h1, h2⟩ :=
          add_score_loop_spec s ⟨username, time_taken⟩ rest hd hs (not_lt.mp c1)
        refine ⟨l1, l2, e, ?_, h1, h2⟩
        rw [hr]

theorem leaderboard_add_score_inv (s : Leaderboard) (username : String) (time_taken : Int)
    (hwf : s.wf) (hs : sorted_by_time s.gameinfo) :
    ∃ s1, leaderboard_add_score s username time_taken = some s1 ∧ s1.wf ∧
      sorted_by_time s1.gameinfo ∧ s1.userinfo = s.userinfo := by
  obtain ⟨l1, l2, e, hr, h1, h2⟩ := leaderboard_add_score_spec s username time_taken hwf.2 hs
  refine ⟨_, hr, ⟨hwf.1, ?_⟩, ?_, rfl⟩
  · show s.gameinfo_size + 1 = ((l1 ++ (⟨username, time_taken⟩ : game) :: l2).length : Int)
    rw [hwf.2, e]; simp; omega
  · show sorted_by_time (l1 ++ ⟨username, time_taken⟩ :: l2)
    apply sorted_by_time_insert _ _ _ _ h1 h2
    rw [← e]; exact hs

theorem run_calls_inv (calls : List LeaderboardCall) :
    ∀ s : Leaderboard, s.wf → sorted_by_time s.gameinfo →
      ∃ s1, run_calls s calls = some s1 ∧ s1.wf ∧ sorted_by_time s1.gameinfo := by
  induction calls with
  | nil => intro s hwf hs; exact ⟨s, rfl, hwf, hs⟩
  | cons c cs ih =>
    intro s hwf hs
    unfold run_calls
    cases c with
    | add_score u t =>
      obtain ⟨s1, hr, hwf1, hs1, _⟩ := leaderboard_add_score_inv s u t hwf hs
      obtain ⟨s2, hr2, h2⟩ := ih s1 hwf1 hs1
      exact ⟨s2, by simp [LeaderboardCall.run, hr, hr2], h2⟩
    | update_user_games u w =>
      obtain ⟨s1, hr, hwf1, hg, _, _⟩ := leaderboard_update_user_games_spec s u w hwf
      obtain ⟨s2, hr2, h2⟩ := ih s1 hwf1 (by rw [hg]; exact hs)
      exact ⟨s2, by simp [LeaderboardCall.run, hr, hr2], h2⟩

theorem Leaderboard.empty_wf : Leaderboard.empty.wf := ⟨rfl, rfl⟩

theorem Leaderboard.empty_sorted : sorted_by_time Leaderboard.empty.gameinfo :=
  List.Pairwise.nil

/-- C1: whatever calls of `leaderboard_add_score` and `leaderboard_update_user_games` are
made, in any order, starting from the empty leaderboard, every call returns and the sequence
read from `get_gameinfo_head` is sorted by `time_taken` in non-increasing order. -/
theorem ranked_sequence_sorted_by_time (calls : List LeaderboardCall) :
    ∃ s, run_calls Leaderboard.empty calls = some s ∧ sorted_by_time (get_gameinfo_head s) := by
  obtain ⟨s, hr, _, hs⟩ :=
    run_calls_inv calls Leaderboard.empty Leaderboard.empty_wf Leaderboard.empty_sorted
  exact ⟨s, hr, hs⟩

/-- C8: on a leaderboard whose counter agrees with its sequence and whose sequence is sorted
by `time_taken` in non-increasing order, `leaderboard_add_score` returns, the new sequence
is the old one with the one entry `(username, time_taken)` put in at one position, the
result of `get_gameinfo_size` grows by one and the user records stay as they are. -/
theorem leaderboard_add_score_inserts_one (s : Leaderboard) (username : String)
    (time_taken : Int) (hsize : get_gameinfo_size s = (get_gameinfo_head s).length)
    (hs : sorted_by_time (get_gameinfo_head s)) :
    ∃ s1, leaderboard_add_score s username time_taken = some s1 ∧
      (∃ l1 l2, get_gameinfo_head s = l1 ++ l2 ∧
        get_gameinfo_head s1 = l1 ++ { username := username, time_taken := time_taken } :: l2) ∧
      get_gameinfo_size s1 = get_gameinfo_size s + 1 ∧
      s1.userinfo = s.userinfo ∧ s1.userinfo_size = s.userinfo_size := by
  obtain ⟨l1, l2, e, hr, _, _⟩ := leaderboard_add_score_spec s username time_taken hsize hs
  exact ⟨_, hr, ⟨l1, l2, e, rfl⟩, rfl, rfl, rfl⟩

/-- Witness for C8: a leaderboard with two ranked entries. -/
theorem leaderboard_add_score_inserts_one_witness :
    ∃ s1, leaderboard_add_score
        { userinfo_size := 0, gameinfo_size := 2, userinfo := [],
          gameinfo := [⟨"ann", 30⟩, ⟨"bob", 10⟩] } "cy" 20 = some s1 ∧
      (∃ l1 l2, get_gameinfo_head
          { userinfo_size := 0, gameinfo_size := 2, userinfo := [],
            gameinfo := [⟨"ann", 30⟩, ⟨"bob", 10⟩] } = l1 ++ l2 ∧
        get_gameinfo_head s1 = l1 ++ { username := "cy", time_taken := 20 } :: l2) ∧
      get_gameinfo_size s1 = get_gameinfo_size
          { userinfo_size := 0, gameinfo_size := 2, userinfo := [],
            gameinfo := [⟨"ann", 30⟩, ⟨"bob", 10⟩] } + 1 ∧
      s1.userinfo = [] ∧ s1.userinfo_size = 0 :=
  leaderboard_add_score_inserts_one
    { userinfo_size := 0, gameinfo_size := 2, userinfo := [],
      gameinfo := [⟨"ann", 30⟩, ⟨"bob", 10⟩] } "cy" 20 (by decide)
    (by unfold sorted_by_time get_gameinfo_head; decide)


theorem username_exists_loop_update (u u1 : String) (w : Int) (l : List user) :
    username_exists_loop u (update_user_games_loop u1 w l) = username_exists_loop u l := by
  induction l with
  | nil => rfl
  | cons a l ih =>
    unfold update_user_games_loop
    by_cases h : u1 = a.username
    · rw [if_pos h]; rfl
    · rw [if_neg h]
      unfold username_exists_loop
      rw [ih]

theorem get_userinfo_loop_update (u u1 : String) (w : Int) (l : List user) :
    get_userinfo_loop u (update_user_games_loop u1 w l) =
      if u = u1 ∧ username_exists_loop u l ≠ 0 then
        ((get_userinfo_loop u l).1 + 1, (get_userinfo_loop u l).2 + (if w ≠ 0 then 1 else 0))
      else get_userinfo_loop u l := by
  induction l with
  | nil => simp [update_user_games_loop, get_userinfo_loop, username_exists_loop]
  | cons a l ih =>
    unfold update_user_games_loop
    by_cases h : u1 = a.username
    · rw [if_pos h]
      by_cases h2 : u = u1
      · subst h2
        simp only [get_userinfo_loop, username_exists_loop, h, if_true]
        by_cases hw : w ≠ 0 <;> simp [hw]
      · have h3 : ¬ u = a.username := fun e => h2 (e.trans h.symm)
        simp only [get_userinfo_loop, h3, h2, if_false, false_and]
    · rw [if_neg h]
      by_cases h2 : u = a.username
      · subst h2
        have h3 : ¬ a.username = u1 := fun e => h e.symm
        simp [get_userinfo_loop, h3]
      · simp only [get_userinfo_loop, username_exists_loop, h2, if_false, ih]

theorem username_exists_loop_append (u : String) (r : user) (l : List user) :
    username_exists_loop u (l ++ [r]) ≠ 0 ↔ (username_exists_loop u l ≠ 0 ∨ u = r.username) := by
  rw [username_exists_loop_ne_zero, username_exists_loop_ne_zero]
  constructor
  · rintro ⟨a, ha, e⟩
    rcases List.mem_append.mp ha with ha | ha
    · exact Or.inl ⟨a, ha, e⟩
    · simp at ha; subst ha; exact Or.inr e.symm
  · rintro (⟨a, ha, e⟩ | e)
    · exact ⟨a, List.mem_append.mpr (Or.inl ha), e⟩
    · exact ⟨r, by simp, e.symm⟩

theorem get_userinfo_loop_append (u : String) (r : user) (l : List user) :
    get_userinfo_loop u (l ++ [r]) =
      if username_exists_loop u l ≠ 0 then get_userinfo_loop u l
      else if u = r.username then (r.games_played, r.games_won) else (-1, -1) := by
  induction l with
  | nil => simp [get_userinfo_loop, username_exists_loop]
  | cons a l ih =>
    by_cases h : u = a.username
    · simp [get_userinfo_loop, username_exists_loop, h]
    · simpa [get_userinfo_loop, username_exists_loop, h] using ih

theorem get_userinfo_eq_loop (s : Leaderboard) (u : String) :
    get_userinfo s u = get_userinfo_loop u s.userinfo := by
  unfold get_userinfo
  by_cases h : username_exists s u ≠ 0
  · rw [if_pos h]
  · rw [if_neg h]
    have h0 : username_exists_loop u s.userinfo = 0 := not_not.mp h
    generalize s.userinfo = l at h0
    induction l with
    | nil => rfl
    | cons a l ih =>
      unfold username_exists_loop at h0
      by_cases h2 : u = a.username
      · simp [h2] at h0
      · simp only [h2, if_false] at h0
        simp only [get_userinfo_loop, h2, if_false]
        exact ih h0

theorem run_calls_append (cs ds : List LeaderboardCall) :
    ∀ s, run_calls s (cs ++ ds) = (run_calls s cs).bind fun s1 => run_calls s1 ds := by
  induction cs with
  | nil => intro s; rfl
  | cons c cs ih =>
    intro s
    simp only [List.cons_append, run_calls]
    cases c.run s with
    | none => rfl
    | some s1 => simp [ih]

theorem update_calls_inv (calls : List (String × Int))
    (hwon : ∀ c ∈ calls, c.2 = 0 ∨ c.2 = 1) :
    ∃ s, run_calls Leaderboard.empty (update_calls calls) = some s ∧ s.wf ∧
      ∀ u : String,
        (username_exists s u ≠ 0 ↔ u ∈ calls.map Prod.fst) ∧
        (u ∈ calls.map Prod.fst →
          get_userinfo s u =
            (((calls.countP fun c => decide (c.1 = u) : Nat) : Int),
             ((calls.countP fun c => decide (c.1 = u ∧ c.2 = 1) : Nat) : Int))) := by
  induction calls using List.reverseRecOn with
  | nil =>
    refine ⟨Leaderboard.empty, rfl, Leaderboard.empty_wf, ?_⟩
    intro u
    simp [username_exists, username_exists_loop, Leaderboard.empty]
  | append_singleton cs c ih =>
    obtain ⟨s, hr, hwf, hinv⟩ := ih (fun d hd => hwon d (List.mem_append.mpr (Or.inl hd)))
    have hc : c.2 = 0 ∨ c.2 = 1 := hwon c (by simp)
    obtain ⟨s1, hr1, hwf1, _, _, hu1⟩ := leaderboard_update_user_games_spec s c.1 c.2 hwf
    refine ⟨s1, ?_, hwf1, ?_⟩
    · unfold update_calls at hr ⊢
      rw [List.map_append, run_calls_append, hr]
      simp [run_calls, LeaderboardCall.run, hr1]
    · intro u
      obtain ⟨hex, hget⟩ := hinv u
      have hex1 : username_exists s1 u ≠ 0 ↔ (username_exists s u ≠ 0 ∨ u = c.1) := by
        unfold username_exists
        rw [hu1]
        by_cases hc1 : username_exists s c.1 ≠ 0
        · rw [if_pos hc1, username_exists_loop_update]
          constructor
          · exact Or.inl
          · rintro (h | h)
            · exact h
            · subst h; exact hc1
        · rw [if_neg hc1, username_exists_loop_append]
      constructor
      · rw [hex1, hex]; simp [eq_comm]
      · intro hmem
        have hmem1 : u ∈ cs.map Prod.fst ∨ u = c.1 := by
          rw [List.map_append, List.mem_append] at hmem
          rcases hmem with h | h
          · exact Or.inl h
          · right; simpa using h
        rw [get_userinfo_eq_loop, hu1, List.countP_append, List.countP_append]
        rw [get_userinfo_eq_loop] at hget
        by_cases huc : u = c.1
        · subst huc
          by_cases hc1 : username_exists s c.1 ≠ 0
          · rw [if_pos hc1, get_userinfo_loop_update, if_pos ⟨rfl, hc1⟩, hget (hex.mp hc1)]
            rcases hc with h0 | h1
            · simp [h0]
            · simp [h1]
          · have hc2 : ¬ username_exists_loop c.1 s.userinfo ≠ 0 := hc1
            rw [if_neg hc1, get_userinfo_loop_append, if_neg hc2, if_pos rfl]
            have hnot : c.1 ∉ cs.map Prod.fst := fun h => hc1 (hex.mpr h)
            have hz1 : cs.countP (fun d => decide (d.1 = c.1)) = 0 := by
              rw [List.countP_eq_zero]
              intro d hd hp
              exact hnot (List.mem_map.mpr ⟨d, hd, by simpa using hp⟩)
            have hz2 : cs.countP (fun d => decide (d.1 = c.1 ∧ d.2 = 1)) = 0 := by
              rw [List.countP_eq_zero]
              intro d hd hp
              exact hnot (List.mem_map.mpr ⟨d, hd, by simpa using (of_decide_eq_true hp).1⟩)
            rw [hz1, hz2]
            rcases hc with h0 | h1
            · simp [h0]
            · simp [h1]
        · have huc2 : ¬ c.1 = u := fun e => huc e.symm
          have hin : u ∈ cs.map Prod.fst := hmem1.resolve_right huc
          have hz1 : [c].countP (fun d => decide (d.1 = u)) = 0 := by simp [huc2]
          have hz2 : [c].countP (fun d => decide (d.1 = u ∧ d.2 = 1)) = 0 := by simp [huc2]
          rw [hz1, hz2, Nat.add_zero, Nat.add_zero, ← hget hin]
          by_cases hc1 : username_exists s c.1 ≠ 0
          · rw [if_pos hc1, get_userinfo_loop_update, if_neg (fun h => huc h.1)]
          · have hin2 : username_exists_loop u s.userinfo ≠ 0 := hex.mpr hin
            rw [if_neg hc1, get_userinfo_loop_append, if_pos hin2]

/-- C4: for every list of `leaderboard_update_user_games(username, won)` calls with `won`
equal to 0 or 1, made in order on the empty store, every call returns, and for every user
name that occurs in the list `get_userinfo` yields as `games_played` the number of calls
made with that name and as `games_won` the number of those calls with `won = 1`. -/
theorem update_user_games_counts (calls : List (String × Int))
    (hwon : ∀ c ∈ calls, c.2 = 0 ∨ c.2 = 1) (u : String) (hu : u ∈ calls.map Prod.fst) :
    ∃ s, run_calls Leaderboard.empty (update_calls calls) = some s ∧
      get_userinfo s u =
        (((calls.countP fun c => decide (c.1 = u) : Nat) : Int),
         ((calls.countP fun c => decide (c.1 = u ∧ c.2 = 1) : Nat) : Int)) := by
  obtain ⟨s, hr, _, hinv⟩ := update_calls_inv calls hwon
  exact ⟨s, hr, (hinv u).2 hu⟩

/-- Witness for C4: three games of two users. -/
theorem update_user_games_counts_witness :
    ∃ s, run_calls Leaderboard.empty (update_calls [("ann", 1), ("bob", 0), ("ann", 0)]) = some s ∧
      get_userinfo s "ann" =
        ((([("ann", 1), ("bob", 0), ("ann", 0)].countP
            fun c : String × Int => decide (c.1 = "ann") : Nat) : Int),
         (([("ann", 1), ("bob", 0), ("ann", 0)].countP
            fun c : String × Int => decide (c.1 = "ann" ∧ c.2 = 1) : Nat) : Int)) :=
  update_user_games_counts [("ann", 1), ("bob", 0), ("ann", 0)] (by decide) "ann" (by decide)

theorem update_user_games_loop_usernames (u : String) (w : Int) (l : List user) :
    (update_user_games_loop u w l).map user.username = l.map user.username := by
  induction l with
  | nil => rfl
  | cons a l ih =>
    unfold update_user_games_loop
    by_cases h : u = a.username
    · simp [h]
    · simp [h, ih]

theorem update_user_games_loop_played (u : String) (w : Int) (l : List user)
    (h : ∀ r ∈ l, r.games_played ≥ 1) :
    ∀ r ∈ update_user_games_loop u w l, r.games_played ≥ 1 := by
  induction l with
  | nil => intro r hr; simp [update_user_games_loop] at hr
  | cons a l ih =>
    have ha : a.games_played ≥ 1 := h a (by simp)
    have hl : ∀ r ∈ l, r.games_played ≥ 1 := fun r hr => h r (List.mem_cons_of_mem _ hr)
    unfold update_user_games_loop
    by_cases hu : u = a.username
    · rw [if_pos hu]
      intro r hr
      rcases List.mem_cons.mp hr with rfl | hr
      · show a.games_played + 1 ≥ 1
        omega
      · exact hl r hr
    · rw [if_neg hu]
      intro r hr
      rcases List.mem_cons.mp hr with rfl | hr
      · exact ha
      · exact ih hl r hr

theorem users_ok_update (s s1 : Leaderboard) (u : String) (w : Int) (hwf : s.wf)
    (hok : users_ok s.userinfo) (hr : leaderboard_update_user_games s u w = some s1) :
    users_ok s1.userinfo := by
  obtain ⟨s2, hr2, _, _, _, hu⟩ := leaderboard_update_user_games_spec s u w hwf
  rw [hr] at hr2
  cases hr2
  rw [hu]
  by_cases h : username_exists s u ≠ 0
  · rw [if_pos h]
    exact ⟨by rw [update_user_games_loop_usernames]; exact hok.1,
      update_user_games_loop_played u w _ hok.2⟩
  · rw [if_neg h]
    have h0 : ∀ r ∈ s.userinfo, r.username ≠ u :=
      (username_exists_loop_eq_zero u s.userinfo).mp (not_not.mp h)
    constructor
    · rw [List.map_append, List.nodup_append]
      refine ⟨hok.1, by simp, ?_⟩
      intro a ha hb
      simp only [List.map_cons, List.map_nil, List.mem_singleton] at hb
      obtain ⟨r, hr, e⟩ := List.mem_map.mp ha
      exact h0 r hr (e.trans hb)
    · intro r hr
      rcases List.mem_append.mp hr with hr | hr
      · exact hok.2 r hr
      · simp only [List.mem_singleton] at hr
        subst hr
        show (1 : Int) ≥ 1
        omega

theorem run_calls_users_ok (calls : List LeaderboardCall) :
    ∀ s s1 : Leaderboard, s.wf → sorted_by_time s.gameinfo → users_ok s.userinfo →
      run_calls s calls = some s1 → users_ok s1.userinfo := by
  induction calls with
  | nil =>
    intro s s1 _ _ hok hr
    simp only [run_calls, Option.some.injEq] at hr
    subst hr; exact hok
  | cons c cs ih =>
    intro s s1 hwf hs hok hr
    unfold run_calls at hr
    cases c with
    | add_score u t =>
      obtain ⟨s2, hr2, hwf2, hs2, hu2⟩ := leaderboard_add_score_inv s u t hwf hs
      simp only [LeaderboardCall.run, hr2, Option.some_bind] at hr
      exact ih s2 s1 hwf2 hs2 (by rw [hu2]; exact hok) hr
    | update_user_games u w =>
      obtain ⟨s2, hr2, hwf2, hg, _, _⟩ := leaderboard_update_user_games_spec s u w hwf
      simp only [LeaderboardCall.run, hr2, Option.some_bind] at hr
      exact ih s2 s1 hwf2 (by rw [hg]; exact hs) (users_ok_update s s2 u w hwf hok hr2) hr

theorem get_userinfo_loop_of_mem (u : String) (l : List user)
    (hnd : (l.map user.username).Nodup) (r : user) (hr : r ∈ l) (hu : r.username = u) :
    get_userinfo_loop u l = (r.games_played, r.games_won) := by
  induction l with
  | nil => simp at hr
  | cons a l ih =>
    rw [List.map_cons, List.nodup_cons] at hnd
    unfold get_userinfo_loop
    rcases List.mem_cons.mp hr with rfl | hr
    · rw [if_pos hu.symm]
    · have hne : ¬ u = a.username := by
        intro e
        apply hnd.1
        rw [← e, ← hu]
        exact List.mem_map_of_mem _ hr
      rw [if_neg hne]
      exact ih hnd.2 hr

/-- C7: in every leaderboard reached from the empty one, `get_userinfo` yields `(-1, -1)`
exactly when `username_exists` returns 0; `username_exists` returns 0 or 1, and when it
returns 1 the user has a record, `get_userinfo` yields the counts of that record, and its
`games_played` is at least 1. -/
theorem get_userinfo_unknown_iff (calls : List LeaderboardCall) (s : Leaderboard)
    (hreach : run_calls Leaderboard.empty calls = some s) (username : String) :
    (get_userinfo s username = (-1, -1) ↔ username_exists s username = 0) ∧
    (username_exists s username = 0 ∨ username_exists s username = 1) ∧
    (username_exists s username = 1 →
      (∃ r ∈ s.userinfo, r.username = username) ∧
      ∀ r ∈ s.userinfo, r.username = username →
        get_userinfo s username = (r.games_played, r.games_won) ∧ r.games_played ≥ 1) := by
  have hok : users_ok s.userinfo :=
    run_calls_users_ok calls Leaderboard.empty s Leaderboard.empty_wf Leaderboard.empty_sorted
      ⟨List.nodup_nil, fun r hr => by simp [Leaderboard.empty] at hr⟩ hreach
  have hknown : ∀ r ∈ s.userinfo, r.username = username →
      get_userinfo s username = (r.games_played, r.games_won) ∧ r.games_played ≥ 1 := by
    intro r hr hu
    rw [get_userinfo_eq_loop]
    exact ⟨get_userinfo_loop_of_mem username s.userinfo hok.1 r hr hu, hok.2 r hr⟩
  refine ⟨⟨?_, ?_⟩, username_exists_loop_zero_or_one username s.userinfo, ?_⟩
  · intro hget
    by_contra hne
    obtain ⟨r, hr, hu⟩ := (username_exists_loop_ne_zero username s.userinfo).mp hne
    obtain ⟨h1, h2⟩ := hknown r hr hu
    rw [hget] at h1
    have h3 : (-1 : Int) = r.games_played := congrArg Prod.fst h1
    omega
  · intro h0
    unfold get_userinfo
    rw [if_neg (not_not.mpr h0)]
  · intro h1
    have hne : username_exists_loop username s.userinfo ≠ 0 := by
      show username_exists s username ≠ 0
      rw [h1]; decide
    exact ⟨(username_exists_loop_ne_zero username s.userinfo).mp hne, hknown⟩

/-- Witness for C7: the leaderboard after one lost and one won game. -/
theorem get_userinfo_unknown_iff_witness :
    (get_userinfo ⟨2, 1, [⟨"ann", 1, 0⟩, ⟨"bob", 1, 1⟩], [⟨"bob", 42⟩]⟩ "bob" = (-1, -1) ↔
      username_exists ⟨2, 1, [⟨"ann", 1, 0⟩, ⟨"bob", 1, 1⟩], [⟨"bob", 42⟩]⟩ "bob" = 0) ∧
    (username_exists ⟨2, 1, [⟨"ann", 1, 0⟩, ⟨"bob", 1, 1⟩], [⟨"bob", 42⟩]⟩ "bob" = 0 ∨
      username_exists ⟨2, 1, [⟨"ann", 1, 0⟩, ⟨"bob", 1, 1⟩], [⟨"bob", 42⟩]⟩ "bob" = 1) ∧
    (username_exists ⟨2, 1, [⟨"ann", 1, 0⟩, ⟨"bob", 1, 1⟩], [⟨"bob", 42⟩]⟩ "bob" = 1 →
      (∃ r ∈ [(⟨"ann", 1, 0⟩ : user), ⟨"bob", 1, 1⟩], r.username = "bob") ∧
      ∀ r ∈ [(⟨"ann", 1, 0⟩ : user), ⟨"bob", 1, 1⟩], r.username = "bob" →
        get_userinfo ⟨2, 1, [⟨"ann", 1, 0⟩, ⟨"bob", 1, 1⟩], [⟨"bob", 42⟩]⟩ "bob" =
          (r.games_played, r.games_won) ∧ r.games_played ≥ 1) :=
  get_userinfo_unknown_iff
    [.update_user_games "ann" 0, .add_score "bob" 42, .update_user_games "bob" 1]
    ⟨2, 1, [⟨"ann", 1, 0⟩, ⟨"bob", 1, 1⟩], [⟨"bob", 42⟩]⟩ (by decide) "bob"

/-- C2, failing input: with the records `a: 1 won`, `b: 2 won`, `c: 3 won` in place, the
calls `leaderboard_add_score` for `a`, `b`, `c`, each with time 10, leave the records as they
are and rank `c` (3 games won) ahead of `b` (2 games won). -/
theorem add_score_games_won_order_broken :
    ∃ s0 s,
      run_calls Leaderboard.empty
        (update_calls [("a", 1), ("b", 1), ("b", 1), ("c", 1), ("c", 1), ("c", 1)]) = some s0 ∧
      run_calls s0 [.add_score "a" 10, .add_score "b" 10, .add_score "c" 10] = some s ∧
      s.userinfo = s0.userinfo ∧
      get_gameinfo_head s = [⟨"a", 10⟩, ⟨"c", 10⟩, ⟨"b", 10⟩] ∧
      (get_userinfo s "a").2 = 1 ∧ (get_userinfo s "b").2 = 2 ∧ (get_userinfo s "c").2 = 3 :=
  ⟨⟨3, 0, [⟨"a", 1, 1⟩, ⟨"b", 2, 2⟩, ⟨"c", 3, 3⟩], []⟩,
    ⟨3, 3, [⟨"a", 1, 1⟩, ⟨"b", 2, 2⟩, ⟨"c", 3, 3⟩], [⟨"a", 10⟩, ⟨"c", 10⟩, ⟨"b", 10⟩]⟩,
    by decide, by decide, rfl, rfl, by decide, by decide, by decide⟩

/-- C3, failing input: with one won game recorded for each of `p`, `q`, `r`, the calls
`leaderboard_add_score` for `p`, `q`, `r` in this order, each with time 10, are full ties, and
the entry of `r`, inserted last, is ranked ahead of the entry of `q`. -/
theorem add_score_full_ties_not_stable :
    ∃ s0 s,
      run_calls Leaderboard.empty (update_calls [("p", 1), ("q", 1), ("r", 1)]) = some s0 ∧
      run_calls s0 [.add_score "p" 10, .add_score "q" 10, .add_score "r" 10] = some s ∧
      s.userinfo = s0.userinfo ∧
      get_gameinfo_head s = [⟨"p", 10⟩, ⟨"r", 10⟩, ⟨"q", 10⟩] ∧
      (get_userinfo s "p").2 = 1 ∧ (get_userinfo s "q").2 = 1 ∧ (get_userinfo s "r").2 = 1 :=
  ⟨⟨3, 0, [⟨"p", 1, 1⟩, ⟨"q", 1, 1⟩, ⟨"r", 1, 1⟩], []⟩,
    ⟨3, 3, [⟨"p", 1, 1⟩, ⟨"q", 1, 1⟩, ⟨"r", 1, 1⟩], [⟨"p", 10⟩, ⟨"r", 10⟩, ⟨"q", 10⟩]⟩,
    by decide, by decide, rfl, rfl, by decide, by decide, by decide⟩

/-! ## Properties of the admission queue -/

theorem client_queue_add_all_spec (socks : List Int) :
    ∀ q : ClientQueue, q.client_queue_size = q.requests.length →
      client_queue_add_all q socks =
        some { requests := q.requests ++ socks,
               client_queue_size := q.client_queue_size + socks.length } := by
  induction socks with
  | nil => intro q _; simp [client_queue_add_all]
  | cons a socks ih =>
    intro q hq
    unfold client_queue_add_all client_queue_add
    cases hl : q.requests with
    | nil =>
      have h0 : q.client_queue_size = 0 := by rw [hq, hl]; rfl
      simp only [h0, if_true, Option.some_bind]
      rw [ih _ (by simp)]
      simp; omega
    | cons b l =>
      have h0 : q.client_queue_size ≠ 0 := by
        rw [hq, hl]; simp only [List.length_cons]; omega
      simp only [h0, if_false, Option.some_bind]
      rw [ih _ (by simp [hq, hl])]
      simp; omega

theorem client_queue_pop_n_spec (xs : List Int) :
    ∀ (ys : List Int) (q : ClientQueue), q.requests = xs ++ ys →
      q.client_queue_size = q.requests.length →
      client_queue_pop_n q xs.length =
        some ({ requests := ys, client_queue_size := ys.length }, xs) := by
  induction xs with
  | nil =>
    intro ys q hreq hq
    obtain ⟨n, l⟩ := q
    simp only [List.nil_append] at hreq
    subst hreq
    simp only at hq
    subst hq
    rfl
  | cons a xs ih =>
    intro ys q hreq hq
    have hpos : q.client_queue_size > 0 := by
      rw [hq, hreq]; simp only [List.cons_append, List.length_cons]; omega
    simp only [List.length_cons, client_queue_pop_n, client_queue_pop, hpos, if_true, hreq,
      List.cons_append, Option.some_bind]
    rw [ih ys _ rfl (by simp [hq, hreq])]
    rfl

/-- C6: for every list of sockets added with `client_queue_add` to the empty queue, all the
adds return, and as many `client_queue_pop` calls as there are sockets return the sockets in
the order they were added and leave the queue empty. -/
theorem client_queue_fifo (socks : List Int) :
    ∃ q, client_queue_add_all ClientQueue.empty socks = some q ∧
      client_queue_pop_n q socks.length = some (ClientQueue.empty, socks) := by
  refine ⟨_, client_queue_add_all_spec socks ClientQueue.empty rfl, ?_⟩
  have h := client_queue_pop_n_spec socks []
    { requests := ClientQueue.empty.requests ++ socks,
      client_queue_size := ClientQueue.empty.client_queue_size + socks.length }
    (by simp [ClientQueue.empty]) (by simp [ClientQueue.empty])
  rw [h]
  rfl

/-! ## Properties of the field -/

theorem in_bounds_ne_zero (x y : Int) :
    in_bounds x y ≠ 0 ↔ (0 ≤ x ∧ x < 9 ∧ 0 ≤ y ∧ y < 9) := by
  unfold in_bounds FIELD_WIDTH FIELD_HEIGHT
  by_cases h : x ≥ 0 ∧ x < 9 ∧ y ≥ 0 ∧ y < 9
  · rw [if_pos h]; simpa using h
  · rw [if_neg h]; simpa using h

theorem in_bounds_eq_zero (x y : Int) :
    in_bounds x y = 0 ↔ ¬ (0 ≤ x ∧ x < 9 ∧ 0 ≤ y ∧ y < 9) := by
  rw [← in_bounds_ne_zero]; simp

theorem mem_all_tiles (p : Int × Int) : p ∈ all_tiles ↔ in_bounds p.1 p.2 ≠ 0 := by
  rw [in_bounds_ne_zero]
  have h9 : (9 : Int).toNat = 9 := rfl
  unfold all_tiles FIELD_WIDTH FIELD_HEIGHT
  simp only [List.mem_flatMap, List.mem_map, List.mem_range, h9]
  constructor
  · rintro ⟨a, ha, b, hb, rfl⟩
    simp only [Int.ofNat_eq_coe]
    omega
  · rintro ⟨h1, h2, h3, h4⟩
    refine ⟨p.1.toNat, by omega, p.2.toNat, by omega, ?_⟩
    simp only [Int.ofNat_eq_coe]
    rw [Int.toNat_of_nonneg h1, Int.toNat_of_nonneg h3]

set_option maxRecDepth 100000 in
theorem all_tiles_nodup : all_tiles.Nodup := by decide

theorem countP_change_one {α : Type} (l : List α) (hnd : l.Nodup) (a : α) (ha : a ∈ l)
    (p q : α → Bool) (hpq : ∀ b ∈ l, b ≠ a → p b = q b) :
    l.countP p + (if q a then 1 else 0) = l.countP q + (if p a then 1 else 0) := by
  induction l with
  | nil => simp at ha
  | cons c l ih =>
    rw [List.nodup_cons] at hnd
    rw [List.countP_cons, List.countP_cons]
    by_cases hc : c = a
    · subst hc
      have hsame : l.countP p = l.countP q := by
        apply List.countP_congr
        intro b hb
        have hne : b ≠ c := fun e => hnd.1 (e ▸ hb)
        rw [hpq b (List.mem_cons_of_mem _ hb) hne]
      rw [hsame]; omega
    · have ha2 : a ∈ l := by
        rcases List.mem_cons.mp ha with h | h
        · exact absurd h.symm hc
        · exact h
      have := ih hnd.2 ha2 (fun b hb hne => hpq b (List.mem_cons_of_mem _ hb) hne)
      rw [hpq c (by simp) hc]
      omega

theorem count_tiles_set_tile (test : Tile → Bool) (f : Int → Int → Tile) (x y : Int) (t : Tile)
    (hb : in_bounds x y ≠ 0) :
    count_tiles test (set_tile f x y t) + (if test (f x y) then 1 else 0) =
      count_tiles test f + (if test t then 1 else 0) := by
  unfold count_tiles
  have h := countP_change_one all_tiles all_tiles_nodup (x, y) ((mem_all_tiles (x, y)).mpr hb)
    (fun p => test (set_tile f x y t p.1 p.2)) (fun p => test (f p.1 p.2))
    (by
      intro b _ hne
      have : ¬ (b.1 = x ∧ b.2 = y) := fun e => hne (Prod.ext e.1 e.2)
      simp only [set_tile, this, if_false])
  simpa [set_tile] using h

theorem count_tiles_mono (test : Tile → Bool) (f g : Int → Int → Tile)
    (h : ∀ x y, in_bounds x y ≠ 0 → test (f x y) = true → test (g x y) = true) :
    count_tiles test f ≤ count_tiles test g := by
  unfold count_tiles
  apply List.countP_mono_left
  intro p hp
  exact h p.1 p.2 ((mem_all_tiles p).mp hp)

theorem count_tiles_congr (test : Tile → Bool) (f g : Int → Int → Tile)
    (h : ∀ x y, in_bounds x y ≠ 0 → test (f x y) = test (g x y)) :
    count_tiles test f = count_tiles test g := by
  unfold count_tiles
  apply List.countP_congr
  intro p hp
  rw [h p.1 p.2 ((mem_all_tiles p).mp hp)]

theorem count_tiles_pos (test : Tile → Bool) (f : Int → Int → Tile) (x y : Int)
    (hb : in_bounds x y ≠ 0) (ht : test (f x y) = true) : 0 < count_tiles test f := by
  unfold count_tiles
  rw [List.countP_pos_iff]
  exact ⟨(x, y), (mem_all_tiles (x, y)).mpr hb, ht⟩

theorem count_tiles_eq_zero (test : Tile → Bool) (f : Int → Int → Tile)
    (h : ∀ x y, in_bounds x y ≠ 0 → test (f x y) = false) : count_tiles test f = 0 := by
  unfold count_tiles
  rw [List.countP_eq_zero]
  intro p hp
  rw [h p.1 p.2 ((mem_all_tiles p).mp hp)]
  simp

theorem count_tiles_le (test : Tile → Bool) (f : Int → Int → Tile) :
    count_tiles test f ≤ 81 := by
  unfold count_tiles
  have h : all_tiles.length = 81 := by decide
  rw [← h]
  exact List.countP_le_length _

/-! ## Loops over the field -/

theorem foldl_range_inv {α : Type} (step : α → Nat → α) (I : Nat → α → Prop) (n : Nat) (a0 : α)
    (h0 : I 0 a0) (hs : ∀ k a, k < n → I k a → I (k + 1) (step a k)) :
    I n ((List.range n).foldl step a0) := by
  induction n with
  | zero => simpa using h0
  | succ n ih =>
    rw [List.range_succ, List.foldl_append]
    simp only [List.foldl_cons, List.foldl_nil]
    exact hs n _ (Nat.lt_succ_self n)
      (ih (fun k a hk hI => hs k a (Nat.lt_succ_of_lt hk) hI))

theorem set_tile_same (f : Int → Int → Tile) (x y : Int) (t : Tile) :
    set_tile f x y t x y = t := by
  simp [set_tile]

theorem set_tile_other (f : Int → Int → Tile) (x y i j : Int) (t : Tile)
    (h : ¬ (i = x ∧ j = y)) : set_tile f x y t i j = f i j := by
  simp [set_tile, h]

theorem set_tile_set_tile (f : Int → Int → Tile) (x y : Int) (t1 t2 : Tile) :
    set_tile (set_tile f x y t1) x y t2 = set_tile f x y t2 := by
  funext i j
  unfold set_tile
  by_cases h : i = x ∧ j = y
  · simp [h]
  · simp [h]

/-- What the loop nest computes when its body assigns tile `(x, y)` a value `new x y f`
that does not depend on the tiles already assigned: every tile of the field gets the value
computed from the initial field. -/
theorem for_each_tile_spec (body : Int → Int → (Int → Int → Tile) → (Int → Int → Tile))
    (new : Int → Int → (Int → Int → Tile) → Tile) (field0 : Int → Int → Tile)
    (hbody : ∀ x y f, body x y f = set_tile f x y (new x y f))
    (hnew : ∀ x y f, in_bounds x y ≠ 0 →
      (∀ i j, f i j = field0 i j ∨ (in_bounds i j ≠ 0 ∧ f i j = new i j field0)) →
      f x y = field0 x y → new x y f = new x y field0) :
    for_each_tile body field0 =
      fun i j => if in_bounds i j ≠ 0 then new i j field0 else field0 i j := by
  have h9 : (9 : Int).toNat = 9 := rfl
  unfold for_each_tile FIELD_WIDTH FIELD_HEIGHT
  rw [h9]
  have key := foldl_range_inv
    (fun f (x : Nat) =>
      (List.range 9).foldl (fun g (y : Nat) => body (Int.ofNat x) (Int.ofNat y) g) f)
    (fun (x : Nat) f => f = fun (i j : Int) =>
      if 0 ≤ i ∧ i < (x : Int) ∧ 0 ≤ j ∧ j < 9 then new i j field0 else field0 i j)
    9 field0
    (by
      funext i j
      have : ¬ (0 ≤ i ∧ i < ((0 : Nat) : Int) ∧ 0 ≤ j ∧ j < 9) := by
        intro h; have := h.2.1; simp at this; omega
      rw [if_neg this])
    (by
      intro x f hx hf
      have inner := foldl_range_inv
        (fun g (y : Nat) => body (Int.ofNat x) (Int.ofNat y) g)
        (fun (m : Nat) g => g = fun (i j : Int) =>
          if (0 ≤ i ∧ i < (x : Int) ∧ 0 ≤ j ∧ j < 9) ∨ (i = (x : Int) ∧ 0 ≤ j ∧ j < (m : Int))
          then new i j field0 else field0 i j)
        9 f
        (by
          rw [hf]
          funext i j
          have : ((0 ≤ i ∧ i < x ∧ 0 ≤ j ∧ j < 9) ∨ (i = x ∧ 0 ≤ j ∧ j < ((0 : Nat) : Int))) ↔
              (0 ≤ i ∧ i < x ∧ 0 ≤ j ∧ j < 9) := by
            constructor
            · rintro (h | h)
              · exact h
              · exfalso; have := h.2.2; simp at this; omega
            · exact Or.inl
          simp only [this])
        (by
          intro m g hm hg
          have hxy : in_bounds (x : Int) (m : Int) ≠ 0 := by
            rw [in_bounds_ne_zero]; omega
          have hgxm : g x m = field0 x m := by
            rw [hg]
            have : ¬ ((0 ≤ (x : Int) ∧ (x : Int) < x ∧ 0 ≤ (m : Int) ∧ (m : Int) < 9) ∨
                ((x : Int) = x ∧ 0 ≤ (m : Int) ∧ (m : Int) < m)) := by omega
            exact if_neg this
          have hnew2 : new x m g = new x m field0 := by
            apply hnew x m g hxy _ hgxm
            intro i j
            rw [hg]
            by_cases hc : (0 ≤ i ∧ i < x ∧ 0 ≤ j ∧ j < 9) ∨ (i = x ∧ 0 ≤ j ∧ j < m)
            · right
              refine ⟨?_, if_pos hc⟩
              rw [in_bounds_ne_zero]; omega
            · left; exact if_neg hc
          simp only [Int.ofNat_eq_coe]
          rw [hbody, hnew2, hg]
          funext i j
          unfold set_tile
          by_cases hc : i = x ∧ j = m
          · have : (0 ≤ i ∧ i < x ∧ 0 ≤ j ∧ j < 9) ∨ (i = x ∧ 0 ≤ j ∧ j < ((m + 1 : Nat) : Int)) := by
              right; push_cast; omega
            rw [if_pos hc, if_pos this, hc.1, hc.2]
          · rw [if_neg hc]
            have : ((0 ≤ i ∧ i < x ∧ 0 ≤ j ∧ j < 9) ∨ (i = x ∧ 0 ≤ j ∧ j < ((m + 1 : Nat) : Int))) ↔
                ((0 ≤ i ∧ i < x ∧ 0 ≤ j ∧ j < 9) ∨ (i = x ∧ 0 ≤ j ∧ j < m)) := by
              push_cast; omega
            simp only [this])
      simp only at inner ⊢
      rw [inner]
      funext i j
      have : ((0 ≤ i ∧ i < x ∧ 0 ≤ j ∧ j < 9) ∨ (i = x ∧ 0 ≤ j ∧ j < ((9 : Nat) : Int))) ↔
          (0 ≤ i ∧ i < ((x + 1 : Nat) : Int) ∧ 0 ≤ j ∧ j < 9) := by
        push_cast; omega
      simp only [this])
  simp only at key
  rw [key]
  funext i j
  have : (0 ≤ i ∧ i < ((9 : Nat) : Int) ∧ 0 ≤ j ∧ j < 9) ↔ in_bounds i j ≠ 0 := by
    rw [in_bounds_ne_zero]; push_cast; rfl
  simp only [this]

/-! ## Field set-up: `reset_field`, `num_mines_adjacent`, `place_mines` -/

theorem reset_field_spec (field : Int → Int → Tile) :
    reset_field field = fun i j =>
      if in_bounds i j ≠ 0 then
        { adjacent_mines := 0, has_mine := 0, revealed := 0, has_flag := 0 }
      else field i j := by
  unfold reset_field
  exact for_each_tile_spec _
    (fun _ _ _ => { adjacent_mines := 0, has_mine := 0, revealed := 0, has_flag := 0 }) field
    (fun _ _ _ => rfl) (fun _ _ _ _ _ _ => rfl)

theorem num_mines_adjacent_eq (x y : Int) (f : Int → Int → Tile) :
    num_mines_adjacent x y f =
      mine_at f (x - 1) (y - 1) + mine_at f (x - 1) y + mine_at f (x - 1) (y + 1) +
      mine_at f x (y - 1) + mine_at f x y + mine_at f x (y + 1) +
      mine_at f (x + 1) (y - 1) + mine_at f (x + 1) y + mine_at f (x + 1) (y + 1) := by
  have step : ∀ (n i j : Int),
      (if in_bounds i j ≠ 0 then (if (f i j).has_mine ≠ 0 then n + 1 else n) else n) =
        n + mine_at f i j := by
    intro n i j
    unfold mine_at
    by_cases h1 : in_bounds i j ≠ 0
    · by_cases h2 : (f i j).has_mine ≠ 0
      · rw [if_pos h1, if_pos h2, if_pos h1, if_pos h2]
      · rw [if_pos h1, if_neg h2, if_pos h1, if_neg h2]; omega
    · rw [if_neg h1, if_neg h1]; omega
  unfold num_mines_adjacent
  simp only [List.foldl_cons, List.foldl_nil, step]
  omega

theorem mine_at_nonneg (f : Int → Int → Tile) (i j : Int) : 0 ≤ mine_at f i j := by
  unfold mine_at
  by_cases h1 : in_bounds i j ≠ 0
  · by_cases h2 : (f i j).has_mine ≠ 0
    · rw [if_pos h1, if_pos h2]; decide
    · rw [if_pos h1, if_neg h2]
  · rw [if_neg h1]

theorem mine_at_eq_zero (f : Int → Int → Tile) (i j : Int) (hb : in_bounds i j ≠ 0)
    (h : mine_at f i j = 0) : (f i j).has_mine = 0 := by
  unfold mine_at at h
  rw [if_pos hb] at h
  by_contra hne
  rw [if_pos hne] at h
  omega

theorem num_mines_adjacent_congr (x y : Int) (f g : Int → Int → Tile)
    (h : ∀ i j, (f i j).has_mine = (g i j).has_mine) :
    num_mines_adjacent x y f = num_mines_adjacent x y g := by
  have hm : ∀ i j, mine_at f i j = mine_at g i j := by
    intro i j; unfold mine_at; rw [h i j]
  rw [num_mines_adjacent_eq, num_mines_adjacent_eq]
  simp only [hm]

/-- A tile with count 0 has no mine on itself and on the tiles around it. -/
theorem no_mine_near_zero (f : Int → Int → Tile) (x y i j : Int)
    (h0 : num_mines_adjacent x y f = 0) (hb : in_bounds i j ≠ 0)
    (hi : x - 1 ≤ i ∧ i ≤ x + 1) (hj : y - 1 ≤ j ∧ j ≤ y + 1) : (f i j).has_mine = 0 := by
  apply mine_at_eq_zero f i j hb
  rw [num_mines_adjacent_eq] at h0
  have a1 := mine_at_nonneg f (x - 1) (y - 1)
  have a2 := mine_at_nonneg f (x - 1) y
  have a3 := mine_at_nonneg f (x - 1) (y + 1)
  have a4 := mine_at_nonneg f x (y - 1)
  have a5 := mine_at_nonneg f x y
  have a6 := mine_at_nonneg f x (y + 1)
  have a7 := mine_at_nonneg f (x + 1) (y - 1)
  have a8 := mine_at_nonneg f (x + 1) y
  have a9 := mine_at_nonneg f (x + 1) (y + 1)
  have hi2 : i = x - 1 ∨ i = x ∨ i = x + 1 := by omega
  have hj2 : j = y - 1 ∨ j = y ∨ j = y + 1 := by omega
  rcases hi2 with h | h | h <;> rcases hj2 with h1 | h1 | h1 <;> rw [h, h1] <;> omega

theorem unflagged_mines_set_tile (f : Int → Int → Tile) (x y : Int) (t : Tile)
    (hb : in_bounds x y ≠ 0) :
    (unflagged_mines (set_tile f x y t) : Int) =
      unflagged_mines f
        - (if (f x y).has_mine ≠ 0 ∧ (f x y).has_flag = 0 then 1 else 0)
        + (if t.has_mine ≠ 0 ∧ t.has_flag = 0 then 1 else 0) := by
  have h := count_tiles_set_tile (fun t => decide (t.has_mine ≠ 0 ∧ t.has_flag = 0)) f x y t hb
  unfold unflagged_mines
  beta_reduce at h
  by_cases h1 : (f x y).has_mine ≠ 0 ∧ (f x y).has_flag = 0
  · by_cases h2 : t.has_mine ≠ 0 ∧ t.has_flag = 0
    · rw [if_pos (decide_eq_true h1), if_pos (decide_eq_true h2)] at h
      rw [if_pos h1, if_pos h2]; omega
    · rw [if_pos (decide_eq_true h1), if_neg (fun hd => h2 (of_decide_eq_true hd))] at h
      rw [if_pos h1, if_neg h2]; omega
  · by_cases h2 : t.has_mine ≠ 0 ∧ t.has_flag = 0
    · rw [if_neg (fun hd => h1 (of_decide_eq_true hd)), if_pos (decide_eq_true h2)] at h
      rw [if_neg h1, if_pos h2]; omega
    · rw [if_neg (fun hd => h1 (of_decide_eq_true hd)),
        if_neg (fun hd => h2 (of_decide_eq_true hd))] at h
      rw [if_neg h1, if_neg h2]; omega

theorem place_mines_loop_spec (n : Nat) (rand : List Nat) (f : Int → Int → Tile) :
    ∀ f1 : Int → Int → Tile, place_mines_loop n rand f = some f1 →
      (∀ i j, in_bounds i j ≠ 0 → (f i j).has_flag = 0) →
      unflagged_mines f1 = unflagged_mines f + n ∧
      ∀ i j, (f1 i j).has_flag = (f i j).has_flag ∧ (f1 i j).revealed = (f i j).revealed ∧
        (f1 i j).adjacent_mines = (f i j).adjacent_mines := by
  induction n, rand, f using place_mines_loop.induct with
  | case1 t field =>
    intro f1 h _
    simp only [place_mines_loop, Option.some.injEq] at h
    subst h
    exact ⟨rfl, fun _ _ => ⟨rfl, rfl, rfl⟩⟩
  | case2 n field => intro f1 h; simp [place_mines_loop] at h
  | case3 n r field => intro f1 h; simp [place_mines_loop] at h
  | case4 n r1 r2 rand field x y hmine ih =>
    intro f1 h hflag
    rw [place_mines_loop] at h
    simp only [] at h
    rw [if_pos hmine] at h
    exact ih f1 h hflag
  | case5 n r1 r2 rand field x y hmine ih =>
    intro f1 h hflag
    rw [place_mines_loop] at h
    simp only [] at h
    rw [if_neg hmine] at h
    have hb : in_bounds x y ≠ 0 := by
      rw [in_bounds_ne_zero]
      have hx1 : 0 ≤ (r1 : Int) % 9 := Int.emod_nonneg _ (by decide)
      have hx2 : (r1 : Int) % 9 < 9 := Int.emod_lt_of_pos _ (by decide)
      have hy1 : 0 ≤ (r2 : Int) % 9 := Int.emod_nonneg _ (by decide)
      have hy2 : (r2 : Int) % 9 < 9 := Int.emod_lt_of_pos _ (by decide)
      exact ⟨hx1, hx2, hy1, hy2⟩
    have hflag1 : ∀ i j, in_bounds i j ≠ 0 →
        (set_tile field x y { field x y with has_mine := 1 } i j).has_flag = 0 := by
      intro i j hij
      unfold set_tile
      by_cases hc : i = x ∧ j = y
      · rw [if_pos hc]; exact hflag x y hb
      · rw [if_neg hc]; exact hflag i j hij
    obtain ⟨hcount, hsame⟩ := ih f1 h hflag1
    have hm0 : (field x y).has_mine = 0 := not_not.mp hmine
    have hcnt := unflagged_mines_set_tile field x y { field x y with has_mine := 1 } hb
    rw [if_neg (fun h => h.1 hm0), if_pos ⟨one_ne_zero, hflag x y hb⟩] at hcnt
    constructor
    · rw [hcount]; omega
    · intro i j
      obtain ⟨h1, h2, h3⟩ := hsame i j
      unfold set_tile at h1 h2 h3
      by_cases hc : i = x ∧ j = y
      · rw [if_pos hc] at h1 h2 h3
        rw [hc.1, hc.2] at h1 h2 h3 ⊢
        exact ⟨h1, h2, h3⟩
      · rw [if_neg hc] at h1 h2 h3
        exact ⟨h1, h2, h3⟩

/-! ## `minesweeper_init` and the frame of `reveal_tile` -/

theorem minesweeper_init_spec (NUM_MINES : Nat) (rand : List Nat) (now : Int)
    (state s1 : MinesweeperState) (h : minesweeper_init NUM_MINES rand now state = some s1) :
    playing_inv s1 ∧ s1.username = state.username ∧ s1.mines_remaining = NUM_MINES ∧
      s1.game_won = 0 ∧ s1.game_start_time = now := by
  unfold minesweeper_init place_mines at h
  cases hpl : place_mines_loop NUM_MINES rand (reset_field state.field) with
  | none => simp [hpl] at h
  | some f2 =>
    simp only [hpl, Option.map_some', Option.some.injEq] at h
    have hreset : ∀ i j, in_bounds i j ≠ 0 → reset_field state.field i j =
        { adjacent_mines := 0, has_mine := 0, revealed := 0, has_flag := 0 } := by
      intro i j hij
      rw [reset_field_spec]
      exact if_pos hij
    obtain ⟨hcount, hsame⟩ := place_mines_loop_spec NUM_MINES rand (reset_field state.field) f2 hpl
      (fun i j hij => by rw [hreset i j hij])
    have hzero : unflagged_mines (reset_field state.field) = 0 := by
      unfold unflagged_mines
      apply count_tiles_eq_zero
      intro x y hxy
      rw [hreset x y hxy]
      decide
    have hloop := for_each_tile_spec
      (fun x y f => set_tile f x y { f x y with adjacent_mines := num_mines_adjacent x y f })
      (fun x y f => { f x y with adjacent_mines := num_mines_adjacent x y f }) f2
      (fun _ _ _ => rfl)
      (by
        intro x y f _ hf hxy
        have hm : ∀ i j, (f i j).has_mine = (f2 i j).has_mine := by
          intro i j
          rcases hf i j with e | ⟨_, e⟩
          · rw [e]
          · rw [e]
        show ({ f x y with adjacent_mines := num_mines_adjacent x y f } : Tile) =
          { f2 x y with adjacent_mines := num_mines_adjacent x y f2 }
        rw [hxy, num_mines_adjacent_congr x y f f2 hm])
    have hfield : s1.field = fun i j =>
        if in_bounds i j ≠ 0 then { f2 i j with adjacent_mines := num_mines_adjacent i j f2 }
        else f2 i j := by
      rw [← h]; exact hloop
    have hmine : ∀ i j, (s1.field i j).has_mine = (f2 i j).has_mine := by
      intro i j
      rw [hfield]
      by_cases hij : in_bounds i j ≠ 0
      · simp only [hij, if_true, ne_eq, not_false_eq_true]
      · simp only [hij, if_false]
    have hflag : ∀ i j, (s1.field i j).has_flag = (f2 i j).has_flag := by
      intro i j
      rw [hfield]
      by_cases hij : in_bounds i j ≠ 0
      · simp only [hij, if_true, ne_eq, not_false_eq_true]
      · simp only [hij, if_false]
    have hrev : ∀ i j, (s1.field i j).revealed = (f2 i j).revealed := by
      intro i j
      rw [hfield]
      by_cases hij : in_bounds i j ≠ 0
      · simp only [hij, if_true, ne_eq, not_false_eq_true]
      · simp only [hij, if_false]
    have hflag0 : ∀ i j, in_bounds i j ≠ 0 → (s1.field i j).has_flag = 0 := by
      intro i j hij
      rw [hflag, (hsame i j).1, hreset i j hij]
    have hrev0 : ∀ i j, in_bounds i j ≠ 0 → (s1.field i j).revealed = 0 := by
      intro i j hij
      rw [hrev, (hsame i j).2.1, hreset i j hij]
    refine ⟨⟨?_, ?_, ?_, ?_⟩, by rw [← h], by rw [← h], by rw [← h], by rw [← h]⟩
    · have hc : unflagged_mines s1.field = unflagged_mines f2 := by
        unfold unflagged_mines
        apply count_tiles_congr
        intro x y _
        rw [hmine, hflag]
      rw [hc, hcount, hzero]
      rw [← h]
      simp
    · intro x y hxy _ hr
      exact absurd (hrev0 x y hxy) hr
    · intro x y hxy hf
      exact absurd (hflag0 x y hxy) hf
    · intro x y hxy
      rw [num_mines_adjacent_congr x y s1.field f2 hmine, hfield]
      simp only [hxy, if_true, ne_eq, not_false_eq_true]

theorem reveals_refl (allowed : Int → Int → Prop) (s : MinesweeperState) :
    reveals allowed s s :=
  ⟨rfl, rfl, rfl, rfl, rfl, fun _ _ => Or.inl rfl⟩

theorem reveals_trans (allowed : Int → Int → Prop) (s s1 s2 : MinesweeperState)
    (h1 : reveals allowed s s1) (h2 : reveals allowed s1 s2) : reveals allowed s s2 := by
  refine ⟨h2.mines_remaining.trans h1.mines_remaining, h2.game_won.trans h1.game_won,
    h2.game_start_time.trans h1.game_start_time, h2.game_time_taken.trans h1.game_time_taken,
    h2.username.trans h1.username, ?_⟩
  intro i j
  rcases h2.tiles i j with e2 | ⟨hb, hr2, e2, ha⟩
  · rw [e2]; exact h1.tiles i j
  · rcases h1.tiles i j with e1 | ⟨_, _, e1, _⟩
    · right
      rw [e1] at hr2 e2
      exact ⟨hb, hr2, e2, ha⟩
    · rw [e1] at hr2
      exact absurd hr2 (show (1 : Int) ≠ 0 by decide)

theorem reveals_mono (a1 a2 : Int → Int → Prop) (s s1 : MinesweeperState)
    (h : reveals a1 s s1)
    (ha : ∀ i j, in_bounds i j ≠ 0 → (s.field i j).revealed = 0 → a1 i j → a2 i j) :
    reveals a2 s s1 := by
  refine ⟨h.mines_remaining, h.game_won, h.game_start_time, h.game_time_taken, h.username, ?_⟩
  intro i j
  rcases h.tiles i j with e | ⟨hb, hr, e, hal⟩
  · exact Or.inl e
  · exact Or.inr ⟨hb, hr, e, ha i j hb hr hal⟩

theorem reveals_same (allowed : Int → Int → Prop) (s s1 : MinesweeperState)
    (h : reveals allowed s s1) (i j : Int) :
    (s1.field i j).has_mine = (s.field i j).has_mine ∧
    (s1.field i j).has_flag = (s.field i j).has_flag ∧
    (s1.field i j).adjacent_mines = (s.field i j).adjacent_mines ∧
    ((s.field i j).revealed ≠ 0 → (s1.field i j).revealed ≠ 0) := by
  rcases h.tiles i j with e | ⟨_, _, e, _⟩
  · rw [e]; exact ⟨rfl, rfl, rfl, id⟩
  · rw [e]; exact ⟨rfl, rfl, rfl, fun _ => (show (1 : Int) ≠ 0 by decide)⟩

theorem reveals_near_zero (allowed : Int → Int → Prop) (s s1 : MinesweeperState)
    (h : reveals allowed s s1) (i j : Int) :
    near_zero s1.field i j ↔ near_zero s.field i j := by
  unfold near_zero
  constructor
  · rintro ⟨p, q, hb, h0, hr⟩
    exact ⟨p, q, hb, by rw [← (reveals_same allowed s s1 h p q).2.2.1]; exact h0, hr⟩
  · rintro ⟨p, q, hb, h0, hr⟩
    exact ⟨p, q, hb, by rw [(reveals_same allowed s s1 h p q).2.2.1]; exact h0, hr⟩

theorem reveals_unrevealed_le (allowed : Int → Int → Prop) (s s1 : MinesweeperState)
    (h : reveals allowed s s1) : unrevealed_tiles s1.field ≤ unrevealed_tiles s.field := by
  unfold unrevealed_tiles
  apply count_tiles_mono
  intro x y _ ht
  have h1 : (s1.field x y).revealed = 0 := of_decide_eq_true ht
  apply decide_eq_true
  by_contra hne
  exact (reveals_same allowed s s1 h x y).2.2.2 hne h1

theorem unrevealed_tiles_reveal (f : Int → Int → Tile) (x y : Int) (hb : in_bounds x y ≠ 0)
    (hr : (f x y).revealed = 0) :
    unrevealed_tiles (set_tile f x y { f x y with revealed := 1 }) + 1 = unrevealed_tiles f := by
  have h := count_tiles_set_tile (fun t => decide (t.revealed = 0)) f x y
    { f x y with revealed := 1 } hb
  beta_reduce at h
  rw [if_pos (decide_eq_true hr), if_neg (fun hd => absurd (of_decide_eq_true hd) (show (1 : Int) ≠ 0 by decide))] at h
  unfold unrevealed_tiles
  omega

/-! ## `reveal_tile` returns -/

/-- One recursive call inside `reveal_tile`, made on a tile next to the zero-count tile
`(x, y)` of the state `s` the outer call started from. -/
theorem reveal_tile_fuel_chain (fuel : Nat) (x y : Int) (s : MinesweeperState)
    (ih : ∀ (a b : Int) (t : MinesweeperState), unrevealed_tiles t.field < fuel →
      ∃ t1, reveal_tile_fuel fuel a b t = some t1 ∧
        reveals (fun i j => (i = a ∧ j = b) ∨ near_zero t.field i j) t t1)
    (hb : in_bounds x y ≠ 0) (h0 : (s.field x y).adjacent_mines = 0)
    (a b : Int) (ha : x - 1 ≤ a ∧ a ≤ x + 1) (hbb : y - 1 ≤ b ∧ b ≤ y + 1)
    (t : MinesweeperState)
    (ht : reveals (fun i j => (i = x ∧ j = y) ∨ near_zero s.field i j) s t)
    (hfuel : unrevealed_tiles t.field < fuel) :
    ∃ t1, reveal_tile_fuel fuel a b t = some t1 ∧
      reveals (fun i j => (i = x ∧ j = y) ∨ near_zero s.field i j) s t1 ∧
      unrevealed_tiles t1.field < fuel := by
  obtain ⟨t1, hr, hrev⟩ := ih a b t hfuel
  have hrev2 : reveals (fun i j => (i = x ∧ j = y) ∨ near_zero s.field i j) t t1 := by
    apply reveals_mono _ _ t t1 hrev
    intro i j _ _ hal
    right
    rcases hal with ⟨rfl, rfl⟩ | hnz
    · exact ⟨x, y, hb, h0, ha.1, ha.2, hbb.1, hbb.2⟩
    · exact (reveals_near_zero _ s t ht i j).mp hnz
  refine ⟨t1, hr, reveals_trans _ s t t1 ht hrev2, ?_⟩
  exact lt_of_le_of_lt (reveals_unrevealed_le _ t t1 hrev) hfuel

theorem reveal_tile_fuel_spec (fuel : Nat) :
    ∀ (x y : Int) (s : MinesweeperState), unrevealed_tiles s.field < fuel →
      ∃ s1, reveal_tile_fuel fuel x y s = some s1 ∧
        reveals (fun i j => (i = x ∧ j = y) ∨ near_zero s.field i j) s s1 := by
  induction fuel with
  | zero => intro x y s h; exact absurd h (Nat.not_lt_zero _)
  | succ fuel ih =>
    intro x y s hfuel
    unfold reveal_tile_fuel
    by_cases hg : in_bounds x y ≠ 0 ∧ (s.field x y).revealed = 0
    · rw [if_pos hg]
      have hcount := unrevealed_tiles_reveal s.field x y hg.1 hg.2
      have h1 : reveals (fun i j => (i = x ∧ j = y) ∨ near_zero s.field i j) s
          { s with field := set_tile s.field x y { s.field x y with revealed := 1 } } := by
        refine ⟨rfl, rfl, rfl, rfl, rfl, ?_⟩
        intro i j
        by_cases hc : i = x ∧ j = y
        · right
          rw [hc.1, hc.2]
          exact ⟨hg.1, hg.2, set_tile_same _ _ _ _, Or.inl ⟨rfl, rfl⟩⟩
        · left
          exact set_tile_other _ _ _ _ _ _ hc
      have hf1 : unrevealed_tiles
          ({ s with field := set_tile s.field x y { s.field x y with revealed := 1 } } :
            MinesweeperState).field < fuel := by
        show unrevealed_tiles (set_tile s.field x y { s.field x y with revealed := 1 }) < fuel
        omega
      have hadj : (set_tile s.field x y { s.field x y with revealed := 1 } x y).adjacent_mines =
          (s.field x y).adjacent_mines := by
        rw [set_tile_same]
      simp only [hadj]
      by_cases hz : (s.field x y).adjacent_mines = 0
      · rw [if_pos hz]
        obtain ⟨t1, e1, r1, f1⟩ := reveal_tile_fuel_chain fuel x y s ih hg.1 hz (x - 1) y
          (by omega) (by omega) _ h1 hf1
        obtain ⟨t2, e2, r2, f2⟩ := reveal_tile_fuel_chain fuel x y s ih hg.1 hz (x + 1) y
          (by omega) (by omega) t1 r1 f1
        obtain ⟨t3, e3, r3, f3⟩ := reveal_tile_fuel_chain fuel x y s ih hg.1 hz (x - 1) (y - 1)
          (by omega) (by omega) t2 r2 f2
        obtain ⟨t4, e4, r4, f4⟩ := reveal_tile_fuel_chain fuel x y s ih hg.1 hz (x + 1) (y - 1)
          (by omega) (by omega) t3 r3 f3
        obtain ⟨t5, e5, r5, f5⟩ := reveal_tile_fuel_chain fuel x y s ih hg.1 hz (x - 1) (y + 1)
          (by omega) (by omega) t4 r4 f4
        obtain ⟨t6, e6, r6, f6⟩ := reveal_tile_fuel_chain fuel x y s ih hg.1 hz (x + 1) (y + 1)
          (by omega) (by omega) t5 r5 f5
        obtain ⟨t7, e7, r7, f7⟩ := reveal_tile_fuel_chain fuel x y s ih hg.1 hz x (y - 1)
          (by omega) (by omega) t6 r6 f6
        obtain ⟨t8, e8, r8, _⟩ := reveal_tile_fuel_chain fuel x y s ih hg.1 hz x (y + 1)
          (by omega) (by omega) t7 r7 f7
        refine ⟨t8, ?_, r8⟩
        rw [e1, Option.some_bind, e2, Option.some_bind, e3, Option.some_bind, e4,
          Option.some_bind, e5, Option.some_bind, e6, Option.some_bind, e7, Option.some_bind, e8]
      · rw [if_neg hz]
        exact ⟨_, rfl, h1⟩
    · rw [if_neg hg]
      exact ⟨s, rfl, reveals_refl _ s⟩

/-- The recursion bound of `reveal_tile` is never reached: `reveal_tile` returns for every
state and every pair of coordinates. -/
theorem reveal_tile_spec (x y : Int) (s : MinesweeperState) :
    ∃ s1, reveal_tile x y s = some s1 ∧
      reveals (fun i j => (i = x ∧ j = y) ∨ near_zero s.field i j) s s1 := by
  unfold reveal_tile
  apply reveal_tile_fuel_spec
  have h := count_tiles_le (fun t => decide (t.revealed = 0)) s.field
  have h82 : (FIELD_WIDTH * FIELD_HEIGHT + 1).toNat = 82 := rfl
  rw [h82]
  unfold unrevealed_tiles
  omega

/-! ## The invariant of a game is kept by `reveal_tile` and `flag_tile` -/

theorem playing_inv_reveal (x y : Int) (s s1 : MinesweeperState) (hinv : playing_inv s)
    (hrev : reveals (fun i j => (i = x ∧ j = y) ∨ near_zero s.field i j) s s1)
    (hroot : (s.field x y).has_mine = 0) : playing_inv s1 := by
  have hsame := reveals_same _ s s1 hrev
  have hmine : ∀ i j, (s1.field i j).has_mine = (s.field i j).has_mine := fun i j => (hsame i j).1
  refine ⟨?_, ?_, ?_, ?_⟩
  · rw [hrev.mines_remaining, hinv.remaining]
    congr 1
    unfold unflagged_mines
    apply count_tiles_congr
    intro i j _
    rw [(hsame i j).1, (hsame i j).2.1]
  · intro i j hb hm hr
    rw [(hsame i j).2.1]
    rw [hmine] at hm
    rcases hrev.tiles i j with e | ⟨_, _, _, hal⟩
    · rw [e] at hr
      exact hinv.mine_revealed i j hb hm hr
    · exfalso
      rcases hal with ⟨rfl, rfl⟩ | ⟨p, q, hpq, h0, hi1, hi2, hj1, hj2⟩
      · exact hm hroot
      · rw [hinv.adjacent p q hpq] at h0
        exact hm (no_mine_near_zero s.field p q i j h0 hb ⟨hi1, hi2⟩ ⟨hj1, hj2⟩)
  · intro i j hb hf
    rw [(hsame i j).2.1] at hf
    exact (hsame i j).2.2.2 (hinv.flag_revealed i j hb hf)
  · intro i j hb
    rw [(hsame i j).2.2.1, hinv.adjacent i j hb]
    exact (num_mines_adjacent_congr i j s1.field s.field hmine).symm

theorem flag_tile_spec (x y : Int) (s : MinesweeperState) (hb : in_bounds x y ≠ 0)
    (hr : (s.field x y).revealed = 0) (hm : (s.field x y).has_mine ≠ 0) :
    flag_tile x y s =
      (1, { s with
            field := set_tile s.field x y { s.field x y with has_flag := 1, revealed := 1 }
            mines_remaining := s.mines_remaining - 1 }) := by
  unfold flag_tile
  rw [if_pos ⟨hb, hr⟩, if_pos hm]
  simp only [set_tile_set_tile, set_tile_same]

theorem flag_tile_unchanged (x y : Int) (s : MinesweeperState)
    (h : ¬ (in_bounds x y ≠ 0 ∧ (s.field x y).revealed = 0 ∧ (s.field x y).has_mine ≠ 0)) :
    flag_tile x y s = (0, s) := by
  unfold flag_tile
  by_cases hg : in_bounds x y ≠ 0 ∧ (s.field x y).revealed = 0
  · rw [if_pos hg, if_neg (fun hm => h ⟨hg.1, hg.2, hm⟩)]
  · rw [if_neg hg]

theorem playing_inv_flag (x y : Int) (s : MinesweeperState) (hinv : playing_inv s) :
    playing_inv (flag_tile x y s).2 := by
  by_cases h : in_bounds x y ≠ 0 ∧ (s.field x y).revealed = 0 ∧ (s.field x y).has_mine ≠ 0
  · obtain ⟨hb, hr, hm⟩ := h
    rw [flag_tile_spec x y s hb hr hm]
    have hf0 : (s.field x y).has_flag = 0 := by
      by_contra hne
      exact hinv.flag_revealed x y hb hne hr
    have hmine : ∀ i j, (set_tile s.field x y
        { s.field x y with has_flag := 1, revealed := 1 } i j).has_mine =
          (s.field i j).has_mine := by
      intro i j
      unfold set_tile
      by_cases hc : i = x ∧ j = y
      · rw [if_pos hc, hc.1, hc.2]
      · rw [if_neg hc]
    refine ⟨?_, ?_, ?_, ?_⟩
    · show s.mines_remaining - 1 = ((unflagged_mines (set_tile s.field x y
        { s.field x y with has_flag := 1, revealed := 1 }) : Nat) : Int)
      rw [unflagged_mines_set_tile _ _ _ _ hb, if_pos ⟨hm, hf0⟩,
        if_neg (fun h => absurd h.2 (show (1 : Int) ≠ 0 by decide)), hinv.remaining]
      omega
    · intro i j hij hm1 hr1
      show (set_tile s.field x y { s.field x y with has_flag := 1, revealed := 1 } i j).has_flag ≠ 0
      change (set_tile s.field x y { s.field x y with has_flag := 1, revealed := 1 } i j).has_mine
        ≠ 0 at hm1
      change (set_tile s.field x y { s.field x y with has_flag := 1, revealed := 1 } i j).revealed
        ≠ 0 at hr1
      unfold set_tile at hm1 hr1 ⊢
      by_cases hc : i = x ∧ j = y
      · rw [if_pos hc]; exact (show (1 : Int) ≠ 0 by decide)
      · rw [if_neg hc] at hm1 hr1 ⊢
        exact hinv.mine_revealed i j hij hm1 hr1
    · intro i j hij hf1
      show (set_tile s.field x y { s.field x y with has_flag := 1, revealed := 1 } i j).revealed ≠ 0
      change (set_tile s.field x y { s.field x y with has_flag := 1, revealed := 1 } i j).has_flag
        ≠ 0 at hf1
      unfold set_tile at hf1 ⊢
      by_cases hc : i = x ∧ j = y
      · rw [if_pos hc]; exact (show (1 : Int) ≠ 0 by decide)
      · rw [if_neg hc] at hf1 ⊢
        exact hinv.flag_revealed i j hij hf1
    · intro i j hij
      show (set_tile s.field x y { s.field x y with has_flag := 1, revealed := 1 }
          i j).adjacent_mines =
        num_mines_adjacent i j
          (set_tile s.field x y { s.field x y with has_flag := 1, revealed := 1 })
      rw [num_mines_adjacent_congr i j _ s.field hmine, ← hinv.adjacent i j hij]
      unfold set_tile
      by_cases hc : i = x ∧ j = y
      · rw [if_pos hc, hc.1, hc.2]
      · rw [if_neg hc]
  · rw [flag_tile_unchanged x y s h]
    exact hinv

theorem convert_coordinate_in_bounds (c0 c1 : Char) (x y : Int)
    (h : convert_coordinate c0 c1 = (1, x, y)) : in_bounds x y ≠ 0 := by
  unfold convert_coordinate at h
  cases h0 : convert_coordinate_body c0 (-1, -1) with
  | none => rw [h0] at h; simp at h
  | some xy0 =>
    rw [h0] at h
    simp only at h
    cases h1 : convert_coordinate_body c1 xy0 with
    | none => rw [h1] at h; simp at h
    | some xy =>
      rw [h1] at h
      simp only at h
      by_cases hb : in_bounds xy.1 xy.2 = 0
      · rw [if_pos hb] at h; simp at h
      · rw [if_neg hb] at h
        simp only [Prod.mk.injEq, true_and] at h
        rw [← h.1, ← h.2]
        exact hb

theorem minesweeper_game_end_spec (now : Int) (board : Leaderboard) (s s1 : Session)
    (game_won : Int) (board1 : Leaderboard)
    (h : minesweeper_game_end now board s game_won = some (s1, board1)) :
    s1.state = game_state.GAMEOVER ∧
    s1.sweeper_state =
      { s.sweeper_state with
        game_won := game_won
        game_time_taken := now - s.sweeper_state.game_start_time } := by
  unfold minesweeper_game_end at h
  simp only [Option.bind_eq_some, Option.map_eq_some', Prod.mk.injEq] at h
  obtain ⟨_, _, _, _, e, _⟩ := h
  rw [← e]
  exact ⟨rfl, rfl⟩

/-! ## The invariant holds in every reachable session -/

theorem tile_reveal_prompt_inv (inp : Inputs) (board board1 : Leaderboard) (s s1 : Session)
    (hinv : playing_inv s.sweeper_state)
    (h : tile_reveal_prompt inp board s = some (s1, board1)) :
    s1.state = game_state.GAMEOVER ∨ (s1.state = s.state ∧ playing_inv s1.sweeper_state) := by
  unfold tile_reveal_prompt at h
  by_cases h4 : inp.coord_size ≠ 4
  · rw [if_pos h4] at h
    simp only [Option.some.injEq, Prod.mk.injEq] at h
    rw [← h.1]; exact Or.inr ⟨rfl, hinv⟩
  · rw [if_neg h4] at h
    simp only at h
    by_cases hc : (convert_coordinate (inp.coord_buffer 1) (inp.coord_buffer 2)).1 = 0
    · rw [if_pos hc] at h
      simp only [Option.some.injEq, Prod.mk.injEq] at h
      rw [← h.1]; exact Or.inr ⟨rfl, hinv⟩
    · rw [if_neg hc] at h
      generalize (convert_coordinate (inp.coord_buffer 1) (inp.coord_buffer 2)).2.1 = x at h
      generalize (convert_coordinate (inp.coord_buffer 1) (inp.coord_buffer 2)).2.2 = y at h
      by_cases hr : (s.sweeper_state.field x y).revealed ≠ 0
      · rw [if_pos hr] at h
        simp only [Option.some.injEq, Prod.mk.injEq] at h
        rw [← h.1]; exact Or.inr ⟨rfl, hinv⟩
      · rw [if_neg hr] at h
        obtain ⟨sw, hsw, hrev⟩ := reveal_tile_spec x y s.sweeper_state
        rw [hsw, Option.some_bind] at h
        by_cases hm : (sw.field x y).has_mine ≠ 0
        · rw [if_pos hm] at h
          exact Or.inl (minesweeper_game_end_spec _ _ _ _ _ _ h).1
        · rw [if_neg hm] at h
          simp only [Option.some.injEq, Prod.mk.injEq] at h
          rw [← h.1]
          refine Or.inr ⟨rfl, ?_⟩
          apply playing_inv_reveal x y s.sweeper_state sw hinv hrev
          rw [← (reveals_same _ _ _ hrev x y).1]
          exact not_not.mp hm

theorem tile_flag_prompt_inv (inp : Inputs) (s : Session) (hinv : playing_inv s.sweeper_state) :
    (tile_flag_prompt inp s).state = s.state ∧
      playing_inv (tile_flag_prompt inp s).sweeper_state := by
  unfold tile_flag_prompt
  by_cases h4 : inp.coord_size ≠ 4
  · rw [if_pos h4]; exact ⟨rfl, hinv⟩
  · rw [if_neg h4]
    simp only
    by_cases hc : (convert_coordinate (inp.coord_buffer 1) (inp.coord_buffer 2)).1 = 0
    · rw [if_pos hc]; exact ⟨rfl, hinv⟩
    · rw [if_neg hc]
      exact ⟨rfl, playing_inv_flag _ _ _ hinv⟩

theorem update_playing_screen_inv (inp : Inputs) (board board1 : Leaderboard) (s s1 : Session)
    (hinv : playing_inv s.sweeper_state)
    (h : update_playing_screen inp board s = some (s1, board1)) :
    s1.state = game_state.PLAYING → playing_inv s1.sweeper_state := by
  unfold update_playing_screen at h
  simp only [Option.bind_eq_some] at h
  obtain ⟨r, hr, hfin⟩ := h
  have hmid : r.1.state = game_state.PLAYING → playing_inv r.1.sweeper_state := by
    by_cases c1 : inp.buffer 1 = 'r' ∨ inp.buffer 1 = 'R'
    · rw [if_pos c1] at hr
      rcases tile_reveal_prompt_inv inp board r.2 s r.1 hinv hr with h1 | h1
      · intro hp; rw [h1] at hp; exact absurd hp (by decide)
      · exact fun _ => h1.2
    · rw [if_neg c1] at hr
      by_cases c2 : inp.buffer 1 = 'p' ∨ inp.buffer 1 = 'P'
      · rw [if_pos c2] at hr
        simp only [Option.some.injEq] at hr
        rw [← hr]
        exact fun _ => (tile_flag_prompt_inv inp s hinv).2
      · rw [if_neg c2] at hr
        by_cases c3 : inp.buffer 1 = 'q' ∨ inp.buffer 1 = 'Q'
        · rw [if_pos c3] at hr
          simp only [Option.map_eq_some'] at hr
          obtain ⟨a, _, ha⟩ := hr
          rw [← ha]
          intro hp
          exact game_state.noConfusion hp
        · rw [if_neg c3] at hr
          simp only [Option.some.injEq] at hr
          rw [← hr]
          exact fun _ => hinv
  by_cases c4 : r.1.sweeper_state.mines_remaining = 0
  · rw [if_pos c4] at hfin
    have := (minesweeper_game_end_spec _ _ _ _ _ _ hfin).1
    intro hp; rw [this] at hp; exact absurd hp (by decide)
  · rw [if_neg c4] at hfin
    simp only [Option.some.injEq] at hfin
    rw [hfin] at hmid
    exact hmid

theorem update_inv (NUM_MINES : Nat) (inp : Inputs) (board board1 : Leaderboard) (s s1 : Session)
    (hinv : s.state = game_state.PLAYING → playing_inv s.sweeper_state)
    (h : update NUM_MINES inp board s = some (s1, board1)) :
    s1.state = game_state.PLAYING → playing_inv s1.sweeper_state := by
  unfold update at h
  cases hst : s.state with
  | MAIN_MENU =>
    rw [hst] at h
    simp only [Option.map_eq_some', Prod.mk.injEq] at h
    obtain ⟨a, ha, e, _⟩ := h
    subst e
    unfold update_main_menu at ha
    by_cases hd : isdigit (inp.buffer 1) = true
    · rw [if_pos hd] at ha
      simp only at ha
      by_cases c1 : ((inp.buffer 1).toNat : Int) - 48 = 1
      · rw [if_pos c1] at ha
        simp only [Option.map_eq_some'] at ha
        obtain ⟨sw, hsw, e⟩ := ha
        rw [← e]
        exact fun _ => (minesweeper_init_spec _ _ _ _ _ hsw).1
      · rw [if_neg c1] at ha
        by_cases c2 : ((inp.buffer 1).toNat : Int) - 48 = 2
        · rw [if_pos c2] at ha
          simp only [Option.some.injEq] at ha
          rw [← ha]; intro hp; exact game_state.noConfusion hp
        · rw [if_neg c2] at ha
          by_cases c3 : ((inp.buffer 1).toNat : Int) - 48 = 3
          · rw [if_pos c3] at ha
            simp only [Option.some.injEq] at ha
            rw [← ha]; intro hp; exact game_state.noConfusion hp
          · rw [if_neg c3] at ha
            simp only [Option.some.injEq] at ha
            rw [← ha, hst]; intro hp; exact game_state.noConfusion hp
    · rw [if_neg hd] at ha
      simp only [Option.some.injEq] at ha
      rw [← ha, hst]; intro hp; exact game_state.noConfusion hp
  | PLAYING =>
    rw [hst] at h
    exact update_playing_screen_inv inp board board1 s s1 (hinv hst) h
  | HIGHSCORE =>
    rw [hst] at h
    simp only [Option.some.injEq, Prod.mk.injEq] at h
    rw [← h.1]; intro hp; exact game_state.noConfusion hp
  | GAMEOVER =>
    rw [hst] at h
    simp only [Option.some.injEq, Prod.mk.injEq] at h
    rw [← h.1]; intro hp; exact game_state.noConfusion hp
  | EXIT =>
    rw [hst] at h
    simp only [Option.some.injEq, Prod.mk.injEq] at h
    rw [← h.1, hst]; intro hp; exact game_state.noConfusion hp

theorem draw_inv (inp : Inputs) (s : Session)
    (hinv : s.state = game_state.PLAYING → playing_inv s.sweeper_state) :
    (draw inp s).state = game_state.PLAYING → playing_inv (draw inp s).sweeper_state := by
  unfold draw
  by_cases hs : inp.send_size < 0
  · simp only [hs, if_true]
    intro hp; exact game_state.noConfusion hp
  · simp only [hs, if_false]
    cases hst : s.state with
    | GAMEOVER => simp only; intro hp; exact game_state.noConfusion hp
    | PLAYING => simp only; intro _; exact hinv hst
    | MAIN_MENU => simp only; rw [hst]; intro hp; exact game_state.noConfusion hp
    | HIGHSCORE => simp only; rw [hst]; intro hp; exact game_state.noConfusion hp
    | EXIT => simp only; rw [hst]; intro hp; exact game_state.noConfusion hp

/-- Every session `game_loop` can be in while in `PLAYING` has a `MinesweeperState` in which
the counter is the number of unflagged mines, every revealed mine is flagged, every flagged
tile is revealed and the counts are those of `num_mines_adjacent`. -/
theorem reachable_playing_inv (NUM_MINES : Nat) (s : Session) (h : Reachable NUM_MINES s) :
    s.state = game_state.PLAYING → playing_inv s.sweeper_state := by
  induction h with
  | start sw => intro hp; exact game_state.noConfusion hp
  | draw inp s _ ih => exact draw_inv inp s ih
  | update inp board board1 s s1 _ hu ih => exact update_inv NUM_MINES inp board board1 s s1 ih hu

/-! ## Ending a game: the last flag and the revealed mine -/

theorem board_reachable_wf (board : Leaderboard) (h : board_reachable board) :
    board.wf ∧ sorted_by_time board.gameinfo := by
  obtain ⟨calls, hc⟩ := h
  obtain ⟨s1, hr, hwf, hs⟩ :=
    run_calls_inv calls Leaderboard.empty Leaderboard.empty_wf Leaderboard.empty_sorted
  rw [hc] at hr
  cases hr
  exact ⟨hwf, hs⟩

theorem leaderboard_update_user_games_get (board : Leaderboard) (u : String) (w : Int)
    (hwf : board.wf) :
    ∃ b1, leaderboard_update_user_games board u w = some b1 ∧ b1.wf ∧
      b1.gameinfo = board.gameinfo ∧ b1.gameinfo_size = board.gameinfo_size ∧
      (username_exists board u ≠ 0 →
        get_userinfo b1 u =
          ((get_userinfo board u).1 + 1, (get_userinfo board u).2 + (if w ≠ 0 then 1 else 0))) ∧
      (username_exists board u = 0 → get_userinfo b1 u = (1, w)) := by
  obtain ⟨b1, hr, hwf1, hg, hgs, hu⟩ := leaderboard_update_user_games_spec board u w hwf
  refine ⟨b1, hr, hwf1, hg, hgs, ?_, ?_⟩
  · intro hex
    rw [get_userinfo_eq_loop, get_userinfo_eq_loop, hu, if_pos hex, get_userinfo_loop_update,
      if_pos ⟨rfl, hex⟩]
  · intro hex
    have hex1 : ¬ username_exists board u ≠ 0 := not_not.mpr hex
    have hex2 : ¬ username_exists_loop u board.userinfo ≠ 0 := hex1
    rw [get_userinfo_eq_loop, hu, if_neg hex1, get_userinfo_loop_append, if_neg hex2, if_pos rfl]

/-- C10: in a reachable session in `PLAYING`, a reveal command whose coordinate names an
unrevealed tile with a mine finds that tile unflagged, and `update` then returns with the
session in `GAMEOVER` and `game_won = 0`; the ranked sequence and its size are unchanged,
and the player's record has `games_played` raised by one and `games_won` as before, or is
created as `(1, 0)` when there was none. -/
theorem reveal_mine_records_loss (NUM_MINES : Nat) (s : Session)
    (hreach : Reachable NUM_MINES s) (hplay : s.state = game_state.PLAYING)
    (board : Leaderboard) (hboard : board_reachable board) (inp : Inputs)
    (hcmd : inp.buffer 1 = 'r' ∨ inp.buffer 1 = 'R') (hsize : inp.coord_size = 4)
    (x y : Int)
    (hcoord : convert_coordinate (inp.coord_buffer 1) (inp.coord_buffer 2) = (1, x, y))
    (hunrev : (s.sweeper_state.field x y).revealed = 0)
    (hmine : (s.sweeper_state.field x y).has_mine ≠ 0) :
    (s.sweeper_state.field x y).has_flag = 0 ∧
    ∃ s1 board1, update NUM_MINES inp board s = some (s1, board1) ∧
      s1.state = game_state.GAMEOVER ∧ s1.sweeper_state.game_won = 0 ∧
      get_gameinfo_head board1 = get_gameinfo_head board ∧
      get_gameinfo_size board1 = get_gameinfo_size board ∧
      (username_exists board s.sweeper_state.username ≠ 0 →
        get_userinfo board1 s.sweeper_state.username =
          ((get_userinfo board s.sweeper_state.username).1 + 1,
           (get_userinfo board s.sweeper_state.username).2)) ∧
      (username_exists board s.sweeper_state.username = 0 →
        get_userinfo board1 s.sweeper_state.username = (1, 0)) := by
  have hinv := reachable_playing_inv NUM_MINES s hreach hplay
  have hb : in_bounds x y ≠ 0 := convert_coordinate_in_bounds _ _ x y hcoord
  have hflag : (s.sweeper_state.field x y).has_flag = 0 := by
    by_contra hne
    exact hinv.flag_revealed x y hb hne hunrev
  refine ⟨hflag, ?_⟩
  obtain ⟨sw, hsw, hrev⟩ := reveal_tile_spec x y s.sweeper_state
  have hmine1 : (sw.field x y).has_mine ≠ 0 := by
    rw [(reveals_same _ _ _ hrev x y).1]; exact hmine
  have hrem : sw.mines_remaining ≠ 0 := by
    rw [hrev.mines_remaining, hinv.remaining]
    have hpos := count_tiles_pos (fun t => decide (t.has_mine ≠ 0 ∧ t.has_flag = 0))
      s.sweeper_state.field x y hb (decide_eq_true ⟨hmine, hflag⟩)
    unfold unflagged_mines
    omega
  obtain ⟨b1, hb1, _, hg, hgs, hex, hnew⟩ :=
    leaderboard_update_user_games_get board sw.username 0 (board_reachable_wf board hboard).1
  rw [hrev.username] at hb1 hex hnew
  refine ⟨{ state := game_state.GAMEOVER,
            sweeper_state :=
              { sw with
                game_won := 0
                game_time_taken := inp.time_command - sw.game_start_time } },
    b1, ?_, rfl, rfl, hg, hgs, ?_, hnew⟩
  · have hend : minesweeper_game_end inp.time_command board { s with sweeper_state := sw } 0 =
        some (({ state := game_state.GAMEOVER,
                 sweeper_state :=
                   { sw with
                     game_won := 0
                     game_time_taken := inp.time_command - sw.game_start_time } } : Session),
              b1) := by
      unfold minesweeper_game_end
      simp only [ne_eq, not_true_eq_false, if_false, Option.some_bind, hrev.username, hb1,
        Option.map_some']
    have hprompt : tile_reveal_prompt inp board s =
        some (({ state := game_state.GAMEOVER,
                 sweeper_state :=
                   { sw with
                     game_won := 0
                     game_time_taken := inp.time_command - sw.game_start_time } } : Session),
              b1) := by
      unfold tile_reveal_prompt
      rw [if_neg (not_not.mpr hsize)]
      simp only [hcoord]
      rw [if_neg (show ¬ (1 : Int) = 0 by decide), if_neg (not_not.mpr hunrev), hsw,
        Option.some_bind, if_pos hmine1, hend]
    unfold update
    rw [hplay]
    simp only
    unfold update_playing_screen
    simp only
    rw [if_pos hcmd, hprompt, Option.some_bind]
    exact if_neg hrem
  · intro h
    rw [hex h]
    simp

set_option maxRecDepth 100000 in
/-- Witness for C10: `ann` has started a game with one mine, placed on `A1`, and sends the
reveal command for `A1` while the leaderboard is empty. -/
theorem reveal_mine_records_loss_witness :
    (sample_playing.sweeper_state.field 0 0).has_flag = 0 ∧
    ∃ s1 board1, update 1 (sample_inputs 'r') Leaderboard.empty sample_playing =
        some (s1, board1) ∧
      s1.state = game_state.GAMEOVER ∧ s1.sweeper_state.game_won = 0 ∧
      get_gameinfo_head board1 = get_gameinfo_head Leaderboard.empty ∧
      get_gameinfo_size board1 = get_gameinfo_size Leaderboard.empty ∧
      (username_exists Leaderboard.empty sample_playing.sweeper_state.username ≠ 0 →
        get_userinfo board1 sample_playing.sweeper_state.username =
          ((get_userinfo Leaderboard.empty sample_playing.sweeper_state.username).1 + 1,
           (get_userinfo Leaderboard.empty sample_playing.sweeper_state.username).2)) ∧
      (username_exists Leaderboard.empty sample_playing.sweeper_state.username = 0 →
        get_userinfo board1 sample_playing.sweeper_state.username = (1, 0)) :=
  reveal_mine_records_loss 1 sample_playing
    (Reachable.update (sample_inputs '1') Leaderboard.empty Leaderboard.empty
      { state := game_state.MAIN_MENU, sweeper_state := sample_sweeper_state } sample_playing
      (Reachable.start sample_sweeper_state) rfl)
    (by decide) Leaderboard.empty ⟨[], rfl⟩ (sample_inputs 'r') (Or.inl (by decide)) (by decide)
    0 0 (by decide) (by decide) (by decide)

theorem leaderboard_add_score_full (s : Leaderboard) (username : String) (time_taken : Int)
    (hwf : s.wf) (hs : sorted_by_time s.gameinfo) :
    ∃ l1 l2 s1, s.gameinfo = l1 ++ l2 ∧ leaderboard_add_score s username time_taken = some s1 ∧
      s1.gameinfo = l1 ++ { username := username, time_taken := time_taken } :: l2 ∧
      s1.gameinfo_size = s.gameinfo_size + 1 ∧ s1.userinfo = s.userinfo ∧ s1.wf := by
  obtain ⟨l1, l2, e, hr, _, _⟩ := leaderboard_add_score_spec s username time_taken hwf.2 hs
  refine ⟨l1, l2, _, e, hr, rfl, rfl, rfl, hwf.1, ?_⟩
  show s.gameinfo_size + 1 = ((l1 ++ (⟨username, time_taken⟩ : game) :: l2).length : Int)
  rw [hwf.2, e]; simp; omega

/-- C9: in a reachable session in `PLAYING` in which exactly one tile has a mine and no
flag, a place-flag command whose coordinate names that tile makes `update` return with
`mines_remaining = 0`, the session in `GAMEOVER` and `game_won = 1`; the ranked sequence is
the old one with one entry of the player put in, its size grows by one, and the player's
record has `games_played` and `games_won` raised by one each, or is created as `(1, 1)` when
there was none. -/
theorem flag_last_mine_records_win (NUM_MINES : Nat) (s : Session)
    (hreach : Reachable NUM_MINES s) (hplay : s.state = game_state.PLAYING)
    (board : Leaderboard) (hboard : board_reachable board) (inp : Inputs)
    (hcmd : inp.buffer 1 = 'p' ∨ inp.buffer 1 = 'P') (hsize : inp.coord_size = 4)
    (x y : Int)
    (hcoord : convert_coordinate (inp.coord_buffer 1) (inp.coord_buffer 2) = (1, x, y))
    (hmine : (s.sweeper_state.field x y).has_mine ≠ 0)
    (hflag : (s.sweeper_state.field x y).has_flag = 0)
    (hlast : unflagged_mines s.sweeper_state.field = 1) :
    ∃ s1 board1, update NUM_MINES inp board s = some (s1, board1) ∧
      s1.sweeper_state.mines_remaining = 0 ∧
      s1.state = game_state.GAMEOVER ∧ s1.sweeper_state.game_won = 1 ∧
      (∃ l1 l2, get_gameinfo_head board = l1 ++ l2 ∧
        get_gameinfo_head board1 =
          l1 ++ { username := s.sweeper_state.username,
                  time_taken := s1.sweeper_state.game_time_taken } :: l2) ∧
      get_gameinfo_size board1 = get_gameinfo_size board + 1 ∧
      (username_exists board s.sweeper_state.username ≠ 0 →
        get_userinfo board1 s.sweeper_state.username =
          ((get_userinfo board s.sweeper_state.username).1 + 1,
           (get_userinfo board s.sweeper_state.username).2 + 1)) ∧
      (username_exists board s.sweeper_state.username = 0 →
        get_userinfo board1 s.sweeper_state.username = (1, 1)) := by
  have hinv := reachable_playing_inv NUM_MINES s hreach hplay
  have hb : in_bounds x y ≠ 0 := convert_coordinate_in_bounds _ _ x y hcoord
  have hunrev : (s.sweeper_state.field x y).revealed = 0 := by
    by_contra hne
    exact hinv.mine_revealed x y hb hmine hne hflag
  have hrem : s.sweeper_state.mines_remaining - 1 = 0 := by
    rw [hinv.remaining, hlast]; rfl
  obtain ⟨hwf, hsorted⟩ := board_reachable_wf board hboard
  obtain ⟨l1, l2, b1, hl, hb1, hg1, hgs1, hu1, hwf1⟩ :=
    leaderboard_add_score_full board s.sweeper_state.username
      (inp.time_check - s.sweeper_state.game_start_time) hwf hsorted
  obtain ⟨b2, hb2, _, hg2, hgs2, hex, hnew⟩ :=
    leaderboard_update_user_games_get b1 s.sweeper_state.username 1 hwf1
  have hexb : username_exists b1 s.sweeper_state.username =
      username_exists board s.sweeper_state.username := by
    unfold username_exists; rw [hu1]
  have hgetb : get_userinfo b1 s.sweeper_state.username =
      get_userinfo board s.sweeper_state.username := by
    rw [get_userinfo_eq_loop, get_userinfo_eq_loop, hu1]
  rw [hexb, hgetb] at hex
  rw [hexb] at hnew
  have hnotr : ¬ (inp.buffer 1 = 'r' ∨ inp.buffer 1 = 'R') := by
    rcases hcmd with h | h <;> rw [h] <;> decide
  have hprompt : tile_flag_prompt inp s =
      { s with sweeper_state := (flag_tile x y s.sweeper_state).2 } := by
    unfold tile_flag_prompt
    rw [if_neg (not_not.mpr hsize)]
    simp only [hcoord]
    rw [if_neg (show ¬ (1 : Int) = 0 by decide)]
  rw [flag_tile_spec x y s.sweeper_state hb hunrev hmine] at hprompt
  refine ⟨{ state := game_state.GAMEOVER,
            sweeper_state :=
              { s.sweeper_state with
                field := set_tile s.sweeper_state.field x y
                  { s.sweeper_state.field x y with has_flag := 1, revealed := 1 }
                mines_remaining := s.sweeper_state.mines_remaining - 1
                game_won := 1
                game_time_taken := inp.time_check - s.sweeper_state.game_start_time } },
    b2, ?_, hrem, rfl, rfl, ⟨l1, l2, hl, by rw [get_gameinfo_head, hg2, hg1]⟩,
    by rw [get_gameinfo_size, get_gameinfo_size, hgs2, hgs1], ?_, hnew⟩
  · unfold update
    rw [hplay]
    simp only
    unfold update_playing_screen
    simp only
    rw [if_neg hnotr, if_pos hcmd, hprompt, Option.some_bind]
    simp only
    rw [if_pos hrem]
    unfold minesweeper_game_end
    simp only [ne_eq, one_ne_zero, not_false_eq_true, if_true, hb1, Option.some_bind, hb2,
      Option.map_some']
  · intro h
    rw [hex h]
    simp

set_option maxRecDepth 100000 in
/-- Witness for C9: `ann` has started a game with one mine, placed on `A1`, and sends the
place-flag command for `A1` while the leaderboard is empty. -/
theorem flag_last_mine_records_win_witness :
    ∃ s1 board1, update 1 (sample_inputs 'p') Leaderboard.empty sample_playing =
        some (s1, board1) ∧
      s1.sweeper_state.mines_remaining = 0 ∧
      s1.state = game_state.GAMEOVER ∧ s1.sweeper_state.game_won = 1 ∧
      (∃ l1 l2, get_gameinfo_head Leaderboard.empty = l1 ++ l2 ∧
        get_gameinfo_head board1 =
          l1 ++ { username := sample_playing.sweeper_state.username,
                  time_taken := s1.sweeper_state.game_time_taken } :: l2) ∧
      get_gameinfo_size board1 = get_gameinfo_size Leaderboard.empty + 1 ∧
      (username_exists Leaderboard.empty sample_playing.sweeper_state.username ≠ 0 →
        get_userinfo board1 sample_playing.sweeper_state.username =
          ((get_userinfo Leaderboard.empty sample_playing.sweeper_state.username).1 + 1,
           (get_userinfo Leaderboard.empty sample_playing.sweeper_state.username).2 + 1)) ∧
      (username_exists Leaderboard.empty sample_playing.sweeper_state.username = 0 →
        get_userinfo board1 sample_playing.sweeper_state.username = (1, 1)) :=
  flag_last_mine_records_win 1 sample_playing
    (Reachable.update (sample_inputs '1') Leaderboard.empty Leaderboard.empty
      { state := game_state.MAIN_MENU, sweeper_state := sample_sweeper_state } sample_playing
      (Reachable.start sample_sweeper_state) rfl)
    (by decide) Leaderboard.empty ⟨[], rfl⟩ (sample_inputs 'p') (Or.inl (by decide)) (by decide)
    0 0 (by decide) (by decide) (by decide) (by decide)

/-! ## `convert_coordinate` -/

theorem convert_coordinate_body_eq (c : Char) (xy : Int × Int) :
    convert_coordinate_body c xy =
      if 49 ≤ c.toNat ∧ c.toNat ≤ 57 then some ((c.toNat : Int) - 49, xy.2)
      else if 65 ≤ c.toNat ∧ c.toNat ≤ 90 then some (xy.1, (c.toNat : Int) - 65)
      else if 97 ≤ c.toNat ∧ c.toNat ≤ 122 then some (xy.1, (c.toNat : Int) - 97)
      else none := by
  unfold convert_coordinate_body isdigit
  by_cases hd : 48 ≤ c.toNat ∧ c.toNat ≤ 57
  · rw [if_pos (decide_eq_true hd)]
    simp only
    by_cases h1 : 49 ≤ c.toNat ∧ c.toNat ≤ 57
    · have hb : in_bounds ((c.toNat : Int) - 48 - 1) 0 ≠ 0 := by
        rw [in_bounds_ne_zero]; omega
      rw [if_pos hb, if_pos h1]
      congr 2
      omega
    · have hb : ¬ in_bounds ((c.toNat : Int) - 48 - 1) 0 ≠ 0 := by
        rw [in_bounds_ne_zero]; omega
      rw [if_neg hb, if_neg h1,
        if_neg (show ¬ (65 ≤ c.toNat ∧ c.toNat ≤ 90) by omega),
        if_neg (show ¬ (97 ≤ c.toNat ∧ c.toNat ≤ 122) by omega)]
  · rw [if_neg (fun h => hd (of_decide_eq_true h)),
      if_neg (show ¬ (49 ≤ c.toNat ∧ c.toNat ≤ 57) by omega)]

/-- The four ways the loop body of `convert_coordinate` treats a character: a digit `1`-`9`
sets `x`, a letter sets `y`, anything else makes the function return 0. -/
theorem convert_coordinate_body_cases (c : Char) (xy : Int × Int) :
    ((49 ≤ c.toNat ∧ c.toNat ≤ 57) ∧
      convert_coordinate_body c xy = some ((c.toNat : Int) - 49, xy.2)) ∨
    ((65 ≤ c.toNat ∧ c.toNat ≤ 90) ∧
      convert_coordinate_body c xy = some (xy.1, (c.toNat : Int) - 65)) ∨
    ((97 ≤ c.toNat ∧ c.toNat ≤ 122) ∧
      convert_coordinate_body c xy = some (xy.1, (c.toNat : Int) - 97)) ∨
    ((¬ (49 ≤ c.toNat ∧ c.toNat ≤ 57) ∧ ¬ (65 ≤ c.toNat ∧ c.toNat ≤ 90) ∧
        ¬ (97 ≤ c.toNat ∧ c.toNat ≤ 122)) ∧
      convert_coordinate_body c xy = none) := by
  rw [convert_coordinate_body_eq]
  by_cases d : 49 ≤ c.toNat ∧ c.toNat ≤ 57
  · left; exact ⟨d, if_pos d⟩
  · rw [if_neg d]
    by_cases u : 65 ≤ c.toNat ∧ c.toNat ≤ 90
    · right; left; exact ⟨u, if_pos u⟩
    · rw [if_neg u]
      by_cases l : 97 ≤ c.toNat ∧ c.toNat ≤ 122
      · right; right; left; exact ⟨l, if_pos l⟩
      · right; right; right; exact ⟨⟨d, u, l⟩, if_neg l⟩

/-- The result of `convert_coordinate` once the results of the two loop passes are known. -/
theorem convert_coordinate_of_bodies (c0 c1 : Char) (xy0 xy : Int × Int)
    (h0 : convert_coordinate_body c0 (-1, -1) = some xy0)
    (h1 : convert_coordinate_body c1 xy0 = some xy) :
    convert_coordinate c0 c1 =
      if in_bounds xy.1 xy.2 = 0 then (0, xy.1, xy.2) else (1, xy.1, xy.2) := by
  unfold convert_coordinate
  rw [h0]
  simp only
  rw [h1]

theorem convert_coordinate_of_none_left (c0 c1 : Char)
    (h0 : convert_coordinate_body c0 (-1, -1) = none) :
    (convert_coordinate c0 c1).1 = 0 := by
  unfold convert_coordinate
  rw [h0]

theorem convert_coordinate_of_none_right (c0 c1 : Char) (xy0 : Int × Int)
    (h0 : convert_coordinate_body c0 (-1, -1) = some xy0)
    (h1 : convert_coordinate_body c1 xy0 = none) :
    (convert_coordinate c0 c1).1 = 0 := by
  unfold convert_coordinate
  rw [h0]
  simp only
  rw [h1]

/-- What `convert_coordinate` returns for every pair of characters. -/
theorem convert_coordinate_result (c0 c1 : Char) :
    ((is_column_digit c0 ∧ is_row_letter c1) ∧
      convert_coordinate c0 c1 = (1, column_of c0, row_of c1)) ∨
    ((is_row_letter c0 ∧ is_column_digit c1) ∧
      convert_coordinate c0 c1 = (1, column_of c1, row_of c0)) ∨
    (¬ (is_column_digit c0 ∧ is_row_letter c1) ∧ ¬ (is_row_letter c0 ∧ is_column_digit c1) ∧
      (convert_coordinate c0 c1).1 = 0) := by
  unfold is_column_digit is_row_letter column_of row_of
  rcases convert_coordinate_body_cases c0 (-1, -1) with ⟨a0, e0⟩ | ⟨a0, e0⟩ | ⟨a0, e0⟩ | ⟨a0, e0⟩
  · rcases convert_coordinate_body_cases c1 ((c0.toNat : Int) - 49, (-1, -1).2) with
      ⟨a1, e1⟩ | ⟨a1, e1⟩ | ⟨a1, e1⟩ | ⟨a1, e1⟩
    · right; right
      refine ⟨by omega, by omega, ?_⟩
      rw [convert_coordinate_of_bodies c0 c1 _ _ e0 e1, if_pos]
      rw [in_bounds_eq_zero]; simp only; omega
    · by_cases hr : c1.toNat ≤ 73
      · left
        refine ⟨⟨a0, Or.inl ⟨a1.1, hr⟩⟩, ?_⟩
        rw [convert_coordinate_of_bodies c0 c1 _ _ e0 e1, if_neg, if_pos (by omega)]
        rw [in_bounds_eq_zero]; simp only; omega
      · right; right
        refine ⟨by omega, by omega, ?_⟩
        rw [convert_coordinate_of_bodies c0 c1 _ _ e0 e1, if_pos]
        rw [in_bounds_eq_zero]; simp only; omega
    · by_cases hr : c1.toNat ≤ 105
      · left
        refine ⟨⟨a0, Or.inr ⟨a1.1, hr⟩⟩, ?_⟩
        rw [convert_coordinate_of_bodies c0 c1 _ _ e0 e1, if_neg, if_neg (by omega)]
        rw [in_bounds_eq_zero]; simp only; omega
      · right; right
        refine ⟨by omega, by omega, ?_⟩
        rw [convert_coordinate_of_bodies c0 c1 _ _ e0 e1, if_pos]
        rw [in_bounds_eq_zero]; simp only; omega
    · right; right
      exact ⟨by omega, by omega, convert_coordinate_of_none_right c0 c1 _ e0 e1⟩
  · rcases convert_coordinate_body_cases c1 ((-1, -1).1, (c0.toNat : Int) - 65) with
      ⟨a1, e1⟩ | ⟨a1, e1⟩ | ⟨a1, e1⟩ | ⟨a1, e1⟩
    · by_cases hr : c0.toNat ≤ 73
      · right; left
        refine ⟨⟨Or.inl ⟨a0.1, hr⟩, a1⟩, ?_⟩
        rw [convert_coordinate_of_bodies c0 c1 _ _ e0 e1, if_neg, if_pos (by omega)]
        rw [in_bounds_eq_zero]; simp only; omega
      · right; right
        refine ⟨by omega, by omega, ?_⟩
        rw [convert_coordinate_of_bodies c0 c1 _ _ e0 e1, if_pos]
        rw [in_bounds_eq_zero]; simp only; omega
    · right; right
      refine ⟨by omega, by omega, ?_⟩
      rw [convert_coordinate_of_bodies c0 c1 _ _ e0 e1, if_pos]
      rw [in_bounds_eq_zero]; simp only; omega
    · right; right
      refine ⟨by omega, by omega, ?_⟩
      rw [convert_coordinate_of_bodies c0 c1 _ _ e0 e1, if_pos]
      rw [in_bounds_eq_zero]; simp only; omega
    · right; right
      exact ⟨by omega, by omega, convert_coordinate_of_none_right c0 c1 _ e0 e1⟩
  · rcases convert_coordinate_body_cases c1 ((-1, -1).1, (c0.toNat : Int) - 97) with
      ⟨a1, e1⟩ | ⟨a1, e1⟩ | ⟨a1, e1⟩ | ⟨a1, e1⟩
    · by_cases hr : c0.toNat ≤ 105
      · right; left
        refine ⟨⟨Or.inr ⟨a0.1, hr⟩, a1⟩, ?_⟩
        rw [convert_coordinate_of_bodies c0 c1 _ _ e0 e1, if_neg, if_neg (by omega)]
        rw [in_bounds_eq_zero]; simp only; omega
      · right; right
        refine ⟨by omega, by omega, ?_⟩
        rw [convert_coordinate_of_bodies c0 c1 _ _ e0 e1, if_pos]
        rw [in_bounds_eq_zero]; simp only; omega
    · right; right
      refine ⟨by omega, by omega, ?_⟩
      rw [convert_coordinate_of_bodies c0 c1 _ _ e0 e1, if_pos]
      rw [in_bounds_eq_zero]; simp only; omega
    · right; right
      refine ⟨by omega, by omega, ?_⟩
      rw [convert_coordinate_of_bodies c0 c1 _ _ e0 e1, if_pos]
      rw [in_bounds_eq_zero]; simp only; omega
    · right; right
      exact ⟨by omega, by omega, convert_coordinate_of_none_right c0 c1 _ e0 e1⟩
  · right; right
    exact ⟨by omega, by omega, convert_coordinate_of_none_left c0 c1 e0⟩

theorem convert_coordinate_accepted_in_bounds (c0 c1 : Char)
    (h : (convert_coordinate c0 c1).1 = 1) :
    0 ≤ (convert_coordinate c0 c1).2.1 ∧ (convert_coordinate c0 c1).2.1 < 9 ∧
    0 ≤ (convert_coordinate c0 c1).2.2 ∧ (convert_coordinate c0 c1).2.2 < 9 := by
  have hb := convert_coordinate_in_bounds c0 c1 (convert_coordinate c0 c1).2.1
    (convert_coordinate c0 c1).2.2 (by rw [← h])
  exact (in_bounds_ne_zero _ _).mp hb

/-- C15: on the 9×9 field, for every pair of characters `convert_coordinate` returns 0 or 1,
and it returns 1 exactly when one character is a digit `1`-`9` and the other a letter
`A`-`I` or `a`-`i`; then `x` is the digit minus 1 and `y` the index of the letter, so that
`0 ≤ x < 9` and `0 ≤ y < 9`.  `A1` and `1A` give `x = 0`, `y = 0`, and `Z9` is rejected. -/
theorem convert_coordinate_accepts_iff (c0 c1 : Char) :
    ((convert_coordinate c0 c1).1 = 1 ↔
      ((is_column_digit c0 ∧ is_row_letter c1) ∨ (is_row_letter c0 ∧ is_column_digit c1))) ∧
    ((convert_coordinate c0 c1).1 = 0 ∨ (convert_coordinate c0 c1).1 = 1) ∧
    (is_column_digit c0 ∧ is_row_letter c1 →
      convert_coordinate c0 c1 = (1, column_of c0, row_of c1)) ∧
    (is_row_letter c0 ∧ is_column_digit c1 →
      convert_coordinate c0 c1 = (1, column_of c1, row_of c0)) ∧
    ((convert_coordinate c0 c1).1 = 1 →
      0 ≤ (convert_coordinate c0 c1).2.1 ∧ (convert_coordinate c0 c1).2.1 < 9 ∧
      0 ≤ (convert_coordinate c0 c1).2.2 ∧ (convert_coordinate c0 c1).2.2 < 9) ∧
    convert_coordinate 'A' '1' = (1, 0, 0) ∧ convert_coordinate '1' 'A' = (1, 0, 0) ∧
    (convert_coordinate 'Z' '9').1 = 0 := by
  refine ⟨?_, ?_, ?_, ?_, convert_coordinate_accepted_in_bounds c0 c1, by decide, by decide,
    by decide⟩
  · rcases convert_coordinate_result c0 c1 with ⟨h, e⟩ | ⟨h, e⟩ | ⟨h1, h2, e⟩
    · rw [e]; exact ⟨fun _ => Or.inl h, fun _ => rfl⟩
    · rw [e]; exact ⟨fun _ => Or.inr h, fun _ => rfl⟩
    · rw [e]
      constructor
      · intro h; exact absurd h (by decide)
      · rintro (h | h)
        · exact absurd h h1
        · exact absurd h h2
  · rcases convert_coordinate_result c0 c1 with ⟨_, e⟩ | ⟨_, e⟩ | ⟨_, _, e⟩
    · rw [e]; exact Or.inr rfl
    · rw [e]; exact Or.inr rfl
    · exact Or.inl e
  · intro h
    rcases convert_coordinate_result c0 c1 with ⟨_, e⟩ | ⟨h2, e⟩ | ⟨h1, _, _⟩
    · exact e
    · exfalso
      unfold is_column_digit at h h2
      unfold is_row_letter at h h2
      omega
    · exact absurd h h1
  · intro h
    rcases convert_coordinate_result c0 c1 with ⟨h2, e⟩ | ⟨_, e⟩ | ⟨_, h1, _⟩
    · exfalso
      unfold is_column_digit at h h2
      unfold is_row_letter at h h2
      omega
    · exact e
    · exact absurd h h1

/-- C16: the return value of `convert_coordinate` is the same for the two orders of the two
characters, and when it is 1 the two calls give the same `x` and `y`. -/
theorem convert_coordinate_order (c0 c1 : Char) :
    (convert_coordinate c0 c1).1 = (convert_coordinate c1 c0).1 ∧
    ((convert_coordinate c0 c1).1 = 1 → convert_coordinate c0 c1 = convert_coordinate c1 c0) := by
  rcases convert_coordinate_result c0 c1 with ⟨h, e⟩ | ⟨h, e⟩ | ⟨h1, h2, e⟩
  · rcases convert_coordinate_result c1 c0 with ⟨g, _⟩ | ⟨_, f⟩ | ⟨_, g2, _⟩
    · exfalso
      unfold is_column_digit at h g
      unfold is_row_letter at h g
      omega
    · rw [e, f]; exact ⟨rfl, fun _ => rfl⟩
    · exact absurd ⟨h.2, h.1⟩ g2
  · rcases convert_coordinate_result c1 c0 with ⟨_, f⟩ | ⟨g, _⟩ | ⟨g1, _, _⟩
    · rw [e, f]; exact ⟨rfl, fun _ => rfl⟩
    · exfalso
      unfold is_column_digit at h g
      unfold is_row_letter at h g
      omega
    · exact absurd ⟨h.2, h.1⟩ g1
  · rcases convert_coordinate_result c1 c0 with ⟨g, _⟩ | ⟨g, _⟩ | ⟨_, _, f⟩
    · exact absurd ⟨g.2, g.1⟩ h2
    · exact absurd ⟨g.2, g.1⟩ h1
    · rw [e, f]
      exact ⟨rfl, fun h => absurd h (by decide)⟩

/-! ## `flag_tile` and the cascade of `reveal_tile` -/

/-- C17: `flag_tile` returns 1 exactly when the tile is on the field, not revealed and has a
mine.  In that case the tile gets `has_flag = 1` and `revealed = 1`, `mines_remaining` goes
down by one and nothing else changes.  In every other case (off the field, already
revealed, which includes every tile flagged by `flag_tile`, or without a mine) it returns 0
and the state is the one it was given. -/
theorem flag_tile_result (x y : Int) (state : MinesweeperState) :
    ((flag_tile x y state).1 = 1 ↔
      (in_bounds x y ≠ 0 ∧ (state.field x y).revealed = 0 ∧ (state.field x y).has_mine ≠ 0)) ∧
    ((in_bounds x y ≠ 0 ∧ (state.field x y).revealed = 0 ∧ (state.field x y).has_mine ≠ 0) →
      ((flag_tile x y state).2.field x y).has_flag = 1 ∧
      ((flag_tile x y state).2.field x y).revealed = 1 ∧
      ((flag_tile x y state).2.field x y).has_mine = (state.field x y).has_mine ∧
      ((flag_tile x y state).2.field x y).adjacent_mines = (state.field x y).adjacent_mines ∧
      (∀ i j, ¬ (i = x ∧ j = y) → (flag_tile x y state).2.field i j = state.field i j) ∧
      (flag_tile x y state).2.mines_remaining = state.mines_remaining - 1 ∧
      (flag_tile x y state).2.game_won = state.game_won ∧
      (flag_tile x y state).2.game_start_time = state.game_start_time ∧
      (flag_tile x y state).2.game_time_taken = state.game_time_taken ∧
      (flag_tile x y state).2.username = state.username) ∧
    (¬ (in_bounds x y ≠ 0 ∧ (state.field x y).revealed = 0 ∧ (state.field x y).has_mine ≠ 0) →
      flag_tile x y state = (0, state)) := by
  refine ⟨?_, ?_, flag_tile_unchanged x y state⟩
  · constructor
    · intro h
      by_contra hc
      rw [flag_tile_unchanged x y state hc] at h
      exact absurd h (show ¬ (0 : Int) = 1 by decide)
    · rintro ⟨hb, hr, hm⟩
      rw [flag_tile_spec x y state hb hr hm]
  · rintro ⟨hb, hr, hm⟩
    rw [flag_tile_spec x y state hb hr hm]
    refine ⟨?_, ?_, ?_, ?_, ?_, rfl, rfl, rfl, rfl, rfl⟩
    · show (set_tile state.field x y _ x y).has_flag = 1
      rw [set_tile_same]
    · show (set_tile state.field x y _ x y).revealed = 1
      rw [set_tile_same]
    · show (set_tile state.field x y _ x y).has_mine = _
      rw [set_tile_same]
    · show (set_tile state.field x y _ x y).adjacent_mines = _
      rw [set_tile_same]
    · intro i j hij
      exact set_tile_other _ _ _ _ _ _ hij

/-- What a call of `reveal_tile` that returns has done, whatever the recursion bound. -/
theorem reveal_tile_fuel_frame (fuel : Nat) :
    ∀ (x y : Int) (s s1 : MinesweeperState), reveal_tile_fuel fuel x y s = some s1 →
      reveals (fun _ _ => True) s s1 := by
  induction fuel with
  | zero => intro x y s s1 h; simp [reveal_tile_fuel] at h
  | succ fuel ih =>
    intro x y s s1 h
    unfold reveal_tile_fuel at h
    by_cases hg : in_bounds x y ≠ 0 ∧ (s.field x y).revealed = 0
    · rw [if_pos hg] at h
      have h1 : reveals (fun _ _ => True) s
          { s with field := set_tile s.field x y { s.field x y with revealed := 1 } } := by
        refine ⟨rfl, rfl, rfl, rfl, rfl, ?_⟩
        intro i j
        by_cases hc : i = x ∧ j = y
        · right
          rw [hc.1, hc.2]
          exact ⟨hg.1, hg.2, set_tile_same _ _ _ _, trivial⟩
        · left
          exact set_tile_other _ _ _ _ _ _ hc
      simp only at h
      by_cases hz : (set_tile s.field x y { s.field x y with revealed := 1 } x y).adjacent_mines
          = 0
      · rw [if_pos hz] at h
        simp only [Option.bind_eq_some] at h
        obtain ⟨t1, e1, t2, e2, t3, e3, t4, e4, t5, e5, t6, e6, t7, e7, e8⟩ := h
        have r1 := reveals_trans _ _ _ _ h1 (ih _ _ _ _ e1)
        have r2 := reveals_trans _ _ _ _ r1 (ih _ _ _ _ e2)
        have r3 := reveals_trans _ _ _ _ r2 (ih _ _ _ _ e3)
        have r4 := reveals_trans _ _ _ _ r3 (ih _ _ _ _ e4)
        have r5 := reveals_trans _ _ _ _ r4 (ih _ _ _ _ e5)
        have r6 := reveals_trans _ _ _ _ r5 (ih _ _ _ _ e6)
        have r7 := reveals_trans _ _ _ _ r6 (ih _ _ _ _ e7)
        exact reveals_trans _ _ _ _ r7 (ih _ _ _ _ e8)
      · rw [if_neg hz] at h
        simp only [Option.some.injEq] at h
        rw [← h]; exact h1
    · rw [if_neg hg] at h
      simp only [Option.some.injEq] at h
      rw [← h]; exact reveals_refl _ s

/-- After a call of `reveal_tile` that returns, the tile it was called on is revealed when it
lies on the field. -/
theorem reveal_tile_fuel_root (fuel : Nat) (x y : Int) (s s1 : MinesweeperState)
    (h : reveal_tile_fuel fuel x y s = some s1) (hb : in_bounds x y ≠ 0) :
    (s1.field x y).revealed ≠ 0 := by
  cases fuel with
  | zero => simp [reveal_tile_fuel] at h
  | succ fuel =>
    by_cases hr : (s.field x y).revealed = 0
    · have hstart : (set_tile s.field x y { s.field x y with revealed := 1 } x y).revealed ≠ 0 := by
        rw [set_tile_same]; exact (show (1 : Int) ≠ 0 by decide)
      unfold reveal_tile_fuel at h
      rw [if_pos ⟨hb, hr⟩] at h
      simp only at h
      by_cases hz : (set_tile s.field x y { s.field x y with revealed := 1 } x y).adjacent_mines
          = 0
      · rw [if_pos hz] at h
        simp only [Option.bind_eq_some] at h
        obtain ⟨t1, e1, t2, e2, t3, e3, t4, e4, t5, e5, t6, e6, t7, e7, e8⟩ := h
        have m1 := (reveals_same _ _ _ (reveal_tile_fuel_frame fuel _ _ _ _ e1) x y).2.2.2 hstart
        have m2 := (reveals_same _ _ _ (reveal_tile_fuel_frame fuel _ _ _ _ e2) x y).2.2.2 m1
        have m3 := (reveals_same _ _ _ (reveal_tile_fuel_frame fuel _ _ _ _ e3) x y).2.2.2 m2
        have m4 := (reveals_same _ _ _ (reveal_tile_fuel_frame fuel _ _ _ _ e4) x y).2.2.2 m3
        have m5 := (reveals_same _ _ _ (reveal_tile_fuel_frame fuel _ _ _ _ e5) x y).2.2.2 m4
        have m6 := (reveals_same _ _ _ (reveal_tile_fuel_frame fuel _ _ _ _ e6) x y).2.2.2 m5
        have m7 := (reveals_same _ _ _ (reveal_tile_fuel_frame fuel _ _ _ _ e7) x y).2.2.2 m6
        exact (reveals_same _ _ _ (reveal_tile_fuel_frame fuel _ _ _ _ e8) x y).2.2.2 m7
      · rw [if_neg hz] at h
        simp only [Option.some.injEq] at h
        rw [← h]; exact hstart
    · exact (reveals_same _ _ _ (reveal_tile_fuel_frame _ _ _ _ _ h) x y).2.2.2 hr

/-- C18: for every state and every tile `(x, y)` on the field that is unrevealed and has
`adjacent_mines = 0`, `reveal_tile(x, y)` returns, and afterwards the tile and every tile of
the field among its 8 neighbours are revealed. -/
theorem reveal_tile_cascades (x y : Int) (s : MinesweeperState) (hb : in_bounds x y ≠ 0)
    (hr : (s.field x y).revealed = 0) (hz : (s.field x y).adjacent_mines = 0) :
    ∃ s1, reveal_tile x y s = some s1 ∧ (s1.field x y).revealed ≠ 0 ∧
      ∀ i j, in_bounds i j ≠ 0 → x - 1 ≤ i → i ≤ x + 1 → y - 1 ≤ j → j ≤ y + 1 →
        (s1.field i j).revealed ≠ 0 := by
  obtain ⟨s1, hs1, _⟩ := reveal_tile_spec x y s
  refine ⟨s1, hs1, ?_, ?_⟩
  · exact reveal_tile_fuel_root _ x y s s1 hs1 hb
  · intro i j hij hi1 hi2 hj1 hj2
    have h := hs1
    unfold reveal_tile at h
    have h82 : (FIELD_WIDTH * FIELD_HEIGHT + 1).toNat = 81 + 1 := rfl
    rw [h82] at h
    unfold reveal_tile_fuel at h
    rw [if_pos ⟨hb, hr⟩] at h
    simp only at h
    have hz1 : (set_tile s.field x y { s.field x y with revealed := 1 } x y).adjacent_mines
        = 0 := by
      rw [set_tile_same]; exact hz
    rw [if_pos hz1] at h
    simp only [Option.bind_eq_some] at h
    obtain ⟨t1, e1, t2, e2, t3, e3, t4, e4, t5, e5, t6, e6, t7, e7, e8⟩ := h
    have f2 := fun a b => (reveals_same _ _ _ (reveal_tile_fuel_frame 81 _ _ _ _ e2) a b).2.2.2
    have f3 := fun a b => (reveals_same _ _ _ (reveal_tile_fuel_frame 81 _ _ _ _ e3) a b).2.2.2
    have f4 := fun a b => (reveals_same _ _ _ (reveal_tile_fuel_frame 81 _ _ _ _ e4) a b).2.2.2
    have f5 := fun a b => (reveals_same _ _ _ (reveal_tile_fuel_frame 81 _ _ _ _ e5) a b).2.2.2
    have f6 := fun a b => (reveals_same _ _ _ (reveal_tile_fuel_frame 81 _ _ _ _ e6) a b).2.2.2
    have f7 := fun a b => (reveals_same _ _ _ (reveal_tile_fuel_frame 81 _ _ _ _ e7) a b).2.2.2
    have f8 := fun a b => (reveals_same _ _ _ (reveal_tile_fuel_frame 81 _ _ _ _ e8) a b).2.2.2
    have hi : i = x - 1 ∨ i = x ∨ i = x + 1 := by omega
    have hj : j = y - 1 ∨ j = y ∨ j = y + 1 := by omega
    rcases hi with rfl | rfl | rfl <;> rcases hj with rfl | rfl | rfl
    · exact f8 _ _ (f7 _ _ (f6 _ _ (f5 _ _ (f4 _ _
        (reveal_tile_fuel_root 81 _ _ _ _ e3 hij)))))
    · exact f8 _ _ (f7 _ _ (f6 _ _ (f5 _ _ (f4 _ _ (f3 _ _ (f2 _ _
        (reveal_tile_fuel_root 81 _ _ _ _ e1 hij)))))))
    · exact f8 _ _ (f7 _ _ (f6 _ _ (reveal_tile_fuel_root 81 _ _ _ _ e5 hij)))
    · exact f8 _ _ (reveal_tile_fuel_root 81 _ _ _ _ e7 hij)
    · exact reveal_tile_fuel_root _ _ _ s s1 hs1 hb
    · exact reveal_tile_fuel_root 81 _ _ _ _ e8 hij
    · exact f8 _ _ (f7 _ _ (f6 _ _ (f5 _ _ (reveal_tile_fuel_root 81 _ _ _ _ e4 hij))))
    · exact f8 _ _ (f7 _ _ (f6 _ _ (f5 _ _ (f4 _ _ (f3 _ _
        (reveal_tile_fuel_root 81 _ _ _ _ e2 hij))))))
    · exact f8 _ _ (f7 _ _ (reveal_tile_fuel_root 81 _ _ _ _ e6 hij))

/-- Witness for C18: the corner tile of a field without mines. -/
theorem reveal_tile_cascades_witness :
    ∃ s1, reveal_tile 0 0 sample_sweeper_state = some s1 ∧ (s1.field 0 0).revealed ≠ 0 ∧
      ∀ i j, in_bounds i j ≠ 0 → (0 : Int) - 1 ≤ i → i ≤ 0 + 1 → (0 : Int) - 1 ≤ j → j ≤ 0 + 1 →
        (s1.field i j).revealed ≠ 0 :=
  reveal_tile_cascades 0 0 sample_sweeper_state (by decide) (by decide) (by decide)

/-! ## The length of the admission queue -/

theorem client_queue_add_spec (q : ClientQueue) (client_sockfd : Int)
    (hq : q.client_queue_size = q.requests.length) :
    client_queue_add q client_sockfd =
      some ({ requests := q.requests ++ [client_sockfd],
              client_queue_size := q.client_queue_size + 1 }, q.client_queue_size + 1) := by
  unfold client_queue_add
  cases hl : q.requests with
  | nil =>
    have h0 : q.client_queue_size = 0 := by rw [hq, hl]; rfl
    rw [if_pos h0]
    rfl
  | cons a l =>
    have h0 : q.client_queue_size ≠ 0 := by
      rw [hq, hl]; simp only [List.length_cons]; omega
    rw [if_neg h0]

theorem QueueCall.run_spec (q q1 : ClientQueue) (c : QueueCall)
    (hq : q.client_queue_size = q.requests.length) (h : c.run q = some q1) :
    q1.client_queue_size = q1.requests.length ∧
    q1.client_queue_size =
      q.client_queue_size + (if c.is_add then 1 else 0) - (if c.is_pop then 1 else 0) := by
  cases c with
  | add client_sockfd =>
    simp only [QueueCall.run, client_queue_add_spec q client_sockfd hq, Option.map_some',
      Option.some.injEq] at h
    rw [← h]
    constructor
    · show q.client_queue_size + 1 = ((q.requests ++ [client_sockfd]).length : Int)
      rw [hq]; simp
    · show q.client_queue_size + 1 = q.client_queue_size + 1 - 0
      omega
  | pop =>
    simp only [QueueCall.run] at h
    unfold client_queue_pop at h
    by_cases hpos : q.client_queue_size > 0
    · rw [if_pos hpos] at h
      cases hl : q.requests with
      | nil => rw [hl] at h; simp at h
      | cons a l =>
        rw [hl] at h
        simp only [Option.map_some', Option.some.injEq] at h
        rw [← h]
        constructor
        · show q.client_queue_size - 1 = (l.length : Int)
          rw [hq, hl]; simp
        · show q.client_queue_size - 1 = q.client_queue_size + 0 - 1
          omega
    · rw [if_neg hpos] at h
      simp at h

theorem run_queue_calls_inv (calls : List QueueCall) :
    ∀ q q1 : ClientQueue, q.client_queue_size = q.requests.length →
      run_queue_calls q calls = some q1 →
      q1.client_queue_size = q1.requests.length ∧
      q1.client_queue_size =
        q.client_queue_size + (calls.countP QueueCall.is_add : Nat) -
          (calls.countP QueueCall.is_pop : Nat) := by
  induction calls with
  | nil =>
    intro q q1 hq h
    simp only [run_queue_calls, Option.some.injEq] at h
    subst h
    exact ⟨hq, by simp⟩
  | cons c cs ih =>
    intro q q1 hq h
    unfold run_queue_calls at h
    cases hc : c.run q with
    | none => rw [hc] at h; simp at h
    | some q2 =>
      rw [hc, Option.some_bind] at h
      obtain ⟨hq2, hs2⟩ := QueueCall.run_spec q q2 c hq hc
      obtain ⟨hq1, hs1⟩ := ih q2 q1 hq2 h
      refine ⟨hq1, ?_⟩
      rw [hs1, hs2, List.countP_cons, List.countP_cons]
      cases c with
      | add _ => simp [QueueCall.is_add, QueueCall.is_pop]; omega
      | pop => simp [QueueCall.is_add, QueueCall.is_pop]; omega

/-- C19: in every queue reached from the empty one by calls of `client_queue_add` and
`client_queue_pop` that return, `client_queue_size` is the number of linked requests, which is
the number of adds minus the number of pops; and a further `client_queue_add` returns the
old length plus 1, which is the length of the queue it leaves. -/
theorem client_queue_size_counts (calls : List QueueCall) (q : ClientQueue)
    (hreach : run_queue_calls ClientQueue.empty calls = some q) :
    q.client_queue_size = q.requests.length ∧
    q.client_queue_size =
      ((calls.countP QueueCall.is_add : Nat) : Int) - (calls.countP QueueCall.is_pop : Nat) ∧
    ∀ client_sockfd : Int, ∃ q1 : ClientQueue,
      client_queue_add q client_sockfd = some (q1, (q.requests.length : Int) + 1) ∧
      q1.client_queue_size = (q.requests.length : Int) + 1 ∧
      q1.client_queue_size = q1.requests.length := by
  obtain ⟨hq, hs⟩ := run_queue_calls_inv calls ClientQueue.empty q rfl hreach
  refine ⟨hq, ?_, ?_⟩
  · rw [hs]
    show (0 : Int) + _ - _ = _
    omega
  · intro client_sockfd
    refine ⟨{ requests := q.requests ++ [client_sockfd],
              client_queue_size := q.client_queue_size + 1 }, ?_, ?_, ?_⟩
    · rw [client_queue_add_spec q client_sockfd hq, hq]
    · show q.client_queue_size + 1 = _
      rw [hq]
    · show q.client_queue_size + 1 = ((q.requests ++ [client_sockfd]).length : Int)
      rw [hq]; simp

/-- Witness for C19: the queue after two adds and one pop. -/
theorem client_queue_size_counts_witness :
    (⟨1, [8]⟩ : ClientQueue).client_queue_size = (⟨1, [8]⟩ : ClientQueue).requests.length ∧
    (⟨1, [8]⟩ : ClientQueue).client_queue_size =
      (([QueueCall.add 7, QueueCall.add 8, QueueCall.pop].countP QueueCall.is_add : Nat) : Int) -
        ([QueueCall.add 7, QueueCall.add 8, QueueCall.pop].countP QueueCall.is_pop : Nat) ∧
    ∀ client_sockfd : Int, ∃ q1 : ClientQueue,
      client_queue_add ⟨1, [8]⟩ client_sockfd =
        some (q1, (((⟨1, [8]⟩ : ClientQueue).requests.length : Nat) : Int) + 1) ∧
      q1.client_queue_size = (((⟨1, [8]⟩ : ClientQueue).requests.length : Nat) : Int) + 1 ∧
      q1.client_queue_size = q1.requests.length :=
  client_queue_size_counts [QueueCall.add 7, QueueCall.add 8, QueueCall.pop] ⟨1, [8]⟩
    (by decide)

/-! ## What `num_mines_adjacent` counts -/

/-- The loops of `num_mines_adjacent` run over the whole 3×3 block, so the result is the
number of mined neighbours plus 1 when the tile itself has a mine. -/
theorem num_mines_adjacent_counts_itself (x y : Int) (field : Int → Int → Tile) :
    num_mines_adjacent x y field = mined_neighbours field x y + mine_at field x y := by
  rw [num_mines_adjacent_eq]
  unfold mined_neighbours
  omega

set_option maxRecDepth 100000 in
/-- C20, failing input: after `minesweeper_init` has placed a single mine on tile `(0, 0)`,
no neighbour of that tile has a mine, yet its `adjacent_mines` is 1, the value
`num_mines_adjacent` returns; and on a field full of mines `num_mines_adjacent` returns 9
for the tile `(4, 4)`, which has 8 neighbours. -/
theorem num_mines_adjacent_counts_own_mine :
    (sample_playing.sweeper_state.field 0 0).has_mine = 1 ∧
    mined_neighbours sample_playing.sweeper_state.field 0 0 = 0 ∧
    (sample_playing.sweeper_state.field 0 0).adjacent_mines = 1 ∧
    num_mines_adjacent 0 0 sample_playing.sweeper_state.field = 1 ∧
    mined_neighbours (fun _ _ => ⟨1, 0, 0, 0⟩) 4 4 = 8 ∧
    num_mines_adjacent 4 4 (fun _ _ => ⟨1, 0, 0, 0⟩) = 9 := by
  refine ⟨by decide, by decide, by decide, by decide, by decide, by decide⟩

/-! ## Steps of the session state machine -/

theorem draw_playing (inp : Inputs) (s : Session)
    (h : (draw inp s).state = game_state.PLAYING) :
    s.state = game_state.PLAYING ∧ (draw inp s).sweeper_state = s.sweeper_state := by
  by_cases hs : inp.send_size < 0
  · simp only [draw, hs, if_true] at h
    exact game_state.noConfusion h
  · cases hst : s.state with
    | GAMEOVER =>
      simp only [draw, hs, if_false, hst] at h
      exact game_state.noConfusion h
    | PLAYING =>
      simp only [draw, hs, if_false, hst]
      exact ⟨trivial, trivial⟩
    | MAIN_MENU =>
      simp only [draw, hs, if_false, hst] at h
      exact game_state.noConfusion h
    | HIGHSCORE =>
      simp only [draw, hs, if_false, hst] at h
      exact game_state.noConfusion h
    | EXIT =>
      simp only [draw, hs, if_false, hst] at h
      exact game_state.noConfusion h

theorem update_playing_screen_remaining (inp : Inputs) (board board1 : Leaderboard)
    (s s1 : Session) (h : update_playing_screen inp board s = some (s1, board1))
    (hp : s1.state = game_state.PLAYING) : s1.sweeper_state.mines_remaining ≠ 0 := by
  unfold update_playing_screen at h
  simp only [Option.bind_eq_some] at h
  obtain ⟨r, _, hfin⟩ := h
  by_cases c4 : r.1.sweeper_state.mines_remaining = 0
  · rw [if_pos c4] at hfin
    have := (minesweeper_game_end_spec _ _ _ _ _ _ hfin).1
    rw [this] at hp
    exact game_state.noConfusion hp
  · rw [if_neg c4] at hfin
    simp only [Option.some.injEq] at hfin
    rw [hfin] at c4
    exact c4

theorem update_main_menu_state (NUM_MINES : Nat) (inp : Inputs) (s s1 : Session)
    (hst : s.state = game_state.MAIN_MENU) (h : update_main_menu NUM_MINES inp s = some s1)
    (hp : s1.state = game_state.PLAYING) : s1.sweeper_state.mines_remaining = NUM_MINES := by
  unfold update_main_menu at h
  by_cases hd : isdigit (inp.buffer 1) = true
  · rw [if_pos hd] at h
    simp only at h
    by_cases c1 : ((inp.buffer 1).toNat : Int) - 48 = 1
    · rw [if_pos c1] at h
      simp only [Option.map_eq_some'] at h
      obtain ⟨sw, hsw, e⟩ := h
      rw [← e]
      exact (minesweeper_init_spec _ _ _ _ _ hsw).2.2.1
    · rw [if_neg c1] at h
      by_cases c2 : ((inp.buffer 1).toNat : Int) - 48 = 2
      · rw [if_pos c2] at h
        simp only [Option.some.injEq] at h
        rw [← h] at hp; exact game_state.noConfusion hp
      · rw [if_neg c2] at h
        by_cases c3 : ((inp.buffer 1).toNat : Int) - 48 = 3
        · rw [if_pos c3] at h
          simp only [Option.some.injEq] at h
          rw [← h] at hp; exact game_state.noConfusion hp
        · rw [if_neg c3] at h
          simp only [Option.some.injEq] at h
          rw [← h, hst] at hp; exact game_state.noConfusion hp
  · rw [if_neg hd] at h
    simp only [Option.some.injEq] at h
    rw [← h, hst] at hp; exact game_state.noConfusion hp

/-- What `update` does outside of `PLAYING`: the leaderboard is left alone. -/
theorem update_not_playing (NUM_MINES : Nat) (inp : Inputs) (board board1 : Leaderboard)
    (s s1 : Session) (hst : s.state ≠ game_state.PLAYING)
    (h : update NUM_MINES inp board s = some (s1, board1)) : board1 = board := by
  unfold update at h
  cases hs : s.state with
  | MAIN_MENU =>
    rw [hs] at h
    simp only [Option.map_eq_some', Prod.mk.injEq] at h
    obtain ⟨_, _, _, e⟩ := h
    exact e.symm
  | PLAYING => exact absurd hs hst
  | HIGHSCORE =>
    rw [hs] at h
    simp only [Option.some.injEq, Prod.mk.injEq] at h
    exact h.2.symm
  | GAMEOVER =>
    rw [hs] at h
    simp only [Option.some.injEq, Prod.mk.injEq] at h
    exact h.2.symm
  | EXIT =>
    rw [hs] at h
    simp only [Option.some.injEq, Prod.mk.injEq] at h
    exact h.2.symm

/-- With at least one mine per game, the counter of a reachable session in `PLAYING` is
not 0. -/
theorem reachable_playing_remaining (NUM_MINES : Nat) (hmines : 0 < NUM_MINES) (s : Session)
    (h : Reachable NUM_MINES s) :
    s.state = game_state.PLAYING → s.sweeper_state.mines_remaining ≠ 0 := by
  induction h with
  | start sw => intro hp; exact game_state.noConfusion hp
  | draw inp s _ ih =>
    intro hp
    obtain ⟨h1, h2⟩ := draw_playing inp s hp
    rw [h2]; exact ih h1
  | update inp board board1 s s1 _ hu _ =>
    intro hp
    unfold update at hu
    cases hs : s.state with
    | MAIN_MENU =>
      rw [hs] at hu
      simp only [Option.map_eq_some', Prod.mk.injEq] at hu
      obtain ⟨a, ha, e, _⟩ := hu
      subst e
      rw [update_main_menu_state NUM_MINES inp s a hs ha hp]
      omega
    | PLAYING =>
      rw [hs] at hu
      exact update_playing_screen_remaining inp board board1 s s1 hu hp
    | HIGHSCORE =>
      rw [hs] at hu
      simp only [Option.some.injEq, Prod.mk.injEq] at hu
      rw [← hu.1] at hp; exact game_state.noConfusion hp
    | GAMEOVER =>
      rw [hs] at hu
      simp only [Option.some.injEq, Prod.mk.injEq] at hu
      rw [← hu.1] at hp; exact game_state.noConfusion hp
    | EXIT =>
      rw [hs] at hu
      simp only [Option.some.injEq, Prod.mk.injEq] at hu
      rw [← hu.1, hs] at hp; exact game_state.noConfusion hp

/-! ## What a finished game records -/

theorem recorded_games_congr (b0 b1 : Leaderboard) (u : String)
    (h : b1.userinfo = b0.userinfo) : recorded_games b1 u = recorded_games b0 u := by
  unfold recorded_games username_exists
  rw [get_userinfo_eq_loop, get_userinfo_eq_loop, h]

theorem recorded_games_update (b0 b1 : Leaderboard) (u : String) (w : Int) (hwf : b0.wf)
    (hw : w = 0 ∨ w = 1) (h : leaderboard_update_user_games b0 u w = some b1) :
    recorded_games b1 u = ((recorded_games b0 u).1 + 1, (recorded_games b0 u).2 + w) := by
  obtain ⟨b2, hr, _, _, _, hu⟩ := leaderboard_update_user_games_spec b0 u w hwf
  obtain ⟨b3, hr3, _, _, _, hex, hnew⟩ := leaderboard_update_user_games_get b0 u w hwf
  rw [h] at hr hr3
  cases hr
  cases hr3
  have hafter : username_exists b1 u ≠ 0 := by
    unfold username_exists
    rw [hu]
    by_cases hc : username_exists b0 u ≠ 0
    · rw [if_pos hc, username_exists_loop_update]; exact hc
    · rw [if_neg hc, username_exists_loop_append]; exact Or.inr rfl
  unfold recorded_games
  rw [if_pos hafter]
  by_cases hc : username_exists b0 u ≠ 0
  · rw [if_pos hc, hex hc]
    rcases hw with rfl | rfl
    · simp
    · simp
  · rw [if_neg hc, hnew (not_not.mp hc)]
    simp

/-- What `minesweeper_game_end` does to the leaderboard: at most one
`leaderboard_add_score`, only for a won game, and then exactly one
`leaderboard_update_user_games`. -/
theorem minesweeper_game_end_board (now : Int) (board board1 : Leaderboard) (s s1 : Session)
    (w : Int) (hwf : board.wf) (hsorted : sorted_by_time board.gameinfo)
    (h : minesweeper_game_end now board s w = some (s1, board1)) :
    ∃ b0 : Leaderboard, b0.userinfo = board.userinfo ∧ b0.wf ∧ (w = 0 → b0 = board) ∧
      leaderboard_update_user_games b0 s.sweeper_state.username w = some board1 ∧
      board1.gameinfo = b0.gameinfo ∧ board1.gameinfo_size = b0.gameinfo_size := by
  unfold minesweeper_game_end at h
  simp only [Option.bind_eq_some, Option.map_eq_some', Prod.mk.injEq] at h
  obtain ⟨b0, hb0, b2, hb2, _, e⟩ := h
  subst e
  obtain ⟨b3, hb3, _, hg, hgs, _⟩ :=
    leaderboard_update_user_games_spec b0 s.sweeper_state.username w
      (by
        by_cases hw : w ≠ 0
        · rw [if_pos hw] at hb0
          obtain ⟨_, _, b4, _, hr, _, _, _, hwf4⟩ :=
            leaderboard_add_score_full board s.sweeper_state.username
              (now - s.sweeper_state.game_start_time) hwf hsorted
          rw [hr] at hb0; cases hb0; exact hwf4
        · rw [if_neg hw] at hb0; cases hb0; exact hwf)
  rw [hb2] at hb3
  cases hb3
  by_cases hw : w ≠ 0
  · rw [if_pos hw] at hb0
    obtain ⟨_, _, b4, _, hr, _, _, hu4, hwf4⟩ :=
      leaderboard_add_score_full board s.sweeper_state.username
        (now - s.sweeper_state.game_start_time) hwf hsorted
    rw [hr] at hb0
    cases hb0
    exact ⟨b0, hu4, hwf4, fun h0 => absurd h0 hw, hb2, hg, hgs⟩
  · rw [if_neg hw] at hb0
    cases hb0
    exact ⟨board, rfl, hwf, fun _ => rfl, hb2, hg, hgs⟩

theorem flag_tile_username (x y : Int) (s : MinesweeperState) :
    (flag_tile x y s).2.username = s.username := by
  by_cases h : in_bounds x y ≠ 0 ∧ (s.field x y).revealed = 0 ∧ (s.field x y).has_mine ≠ 0
  · rw [flag_tile_spec x y s h.1 h.2.1 h.2.2]
  · rw [flag_tile_unchanged x y s h]

theorem tile_flag_prompt_username (inp : Inputs) (s : Session) :
    (tile_flag_prompt inp s).state = s.state ∧
    (tile_flag_prompt inp s).sweeper_state.username = s.sweeper_state.username := by
  unfold tile_flag_prompt
  by_cases h4 : inp.coord_size ≠ 4
  · rw [if_pos h4]; exact ⟨rfl, rfl⟩
  · rw [if_neg h4]
    simp only
    by_cases hc : (convert_coordinate (inp.coord_buffer 1) (inp.coord_buffer 2)).1 = 0
    · rw [if_pos hc]; exact ⟨rfl, rfl⟩
    · rw [if_neg hc]
      exact ⟨rfl, flag_tile_username _ _ _⟩

/-- The two ways `tile_reveal_prompt` can return: without touching the leaderboard and the
session state, or through one `minesweeper_game_end` for a lost game. -/
theorem tile_reveal_prompt_outcome (inp : Inputs) (board board1 : Leaderboard) (s s1 : Session)
    (h : tile_reveal_prompt inp board s = some (s1, board1)) :
    (s1.state = s.state ∧ board1 = board ∧
      s1.sweeper_state.username = s.sweeper_state.username) ∨
    (s1.state = game_state.GAMEOVER ∧
      s1.sweeper_state.mines_remaining = s.sweeper_state.mines_remaining ∧
      ∃ s0 : Session, s0.sweeper_state.username = s.sweeper_state.username ∧
        minesweeper_game_end inp.time_command board s0 0 = some (s1, board1)) := by
  unfold tile_reveal_prompt at h
  by_cases h4 : inp.coord_size ≠ 4
  · rw [if_pos h4] at h
    simp only [Option.some.injEq, Prod.mk.injEq] at h
    rw [← h.1, ← h.2]; exact Or.inl ⟨rfl, rfl, rfl⟩
  · rw [if_neg h4] at h
    simp only at h
    by_cases hc : (convert_coordinate (inp.coord_buffer 1) (inp.coord_buffer 2)).1 = 0
    · rw [if_pos hc] at h
      simp only [Option.some.injEq, Prod.mk.injEq] at h
      rw [← h.1, ← h.2]; exact Or.inl ⟨rfl, rfl, rfl⟩
    · rw [if_neg hc] at h
      generalize (convert_coordinate (inp.coord_buffer 1) (inp.coord_buffer 2)).2.1 = x at h
      generalize (convert_coordinate (inp.coord_buffer 1) (inp.coord_buffer 2)).2.2 = y at h
      by_cases hr : (s.sweeper_state.field x y).revealed ≠ 0
      · rw [if_pos hr] at h
        simp only [Option.some.injEq, Prod.mk.injEq] at h
        rw [← h.1, ← h.2]; exact Or.inl ⟨rfl, rfl, rfl⟩
      · rw [if_neg hr] at h
        obtain ⟨sw, hsw, hrev⟩ := reveal_tile_spec x y s.sweeper_state
        rw [hsw, Option.some_bind] at h
        by_cases hm : (sw.field x y).has_mine ≠ 0
        · rw [if_pos hm] at h
          right
          obtain ⟨h1, h2⟩ := minesweeper_game_end_spec _ _ _ _ _ _ h
          refine ⟨h1, ?_, { s with sweeper_state := sw }, hrev.username, h⟩
          rw [h2]
          exact hrev.mines_remaining
        · rw [if_neg hm] at h
          simp only [Option.some.injEq, Prod.mk.injEq] at h
          rw [← h.1, ← h.2]
          exact Or.inl ⟨rfl, rfl, hrev.username⟩

/-- The outcomes of `update_playing_screen` in a session whose counter is not 0: either the
game goes on and the leaderboard is as before, or the session is in `GAMEOVER` or
`MAIN_MENU` and the leaderboard has gone through exactly one `minesweeper_game_end`. -/
theorem update_playing_screen_outcome (inp : Inputs) (board board1 : Leaderboard)
    (s s1 : Session) (hplay : s.state = game_state.PLAYING)
    (hrem : s.sweeper_state.mines_remaining ≠ 0)
    (h : update_playing_screen inp board s = some (s1, board1)) :
    (s1.state = game_state.PLAYING ∧ board1 = board) ∨
    ((s1.state = game_state.GAMEOVER ∨ s1.state = game_state.MAIN_MENU) ∧
      ∃ (now : Int) (s0 sg : Session) (w : Int), (w = 0 ∨ w = 1) ∧
        s0.sweeper_state.username = s.sweeper_state.username ∧
        minesweeper_game_end now board s0 w = some (sg, board1)) := by
  unfold update_playing_screen at h
  simp only [Option.bind_eq_some] at h
  obtain ⟨r, hr, hfin⟩ := h
  -- the command leaves either a running game or a finished one whose counter is not 0
  have hmid : (r.1.state = game_state.PLAYING ∧ r.2 = board ∧
        r.1.sweeper_state.username = s.sweeper_state.username) ∨
      ((r.1.state = game_state.GAMEOVER ∨ r.1.state = game_state.MAIN_MENU) ∧
        r.1.sweeper_state.mines_remaining ≠ 0 ∧
        ∃ (s0 sg : Session), s0.sweeper_state.username = s.sweeper_state.username ∧
          minesweeper_game_end inp.time_command board s0 0 = some (sg, r.2)) := by
    by_cases c1 : inp.buffer 1 = 'r' ∨ inp.buffer 1 = 'R'
    · rw [if_pos c1] at hr
      rcases tile_reveal_prompt_outcome inp board r.2 s r.1 hr with ⟨h1, h2, h3⟩ | ⟨h1, h2, s0, h3, h4⟩
      · exact Or.inl ⟨h1.trans hplay, h2, h3⟩
      · exact Or.inr ⟨Or.inl h1, by rw [h2]; exact hrem, s0, r.1, h3, h4⟩
    · rw [if_neg c1] at hr
      by_cases c2 : inp.buffer 1 = 'p' ∨ inp.buffer 1 = 'P'
      · rw [if_pos c2] at hr
        simp only [Option.some.injEq] at hr
        rw [← hr]
        obtain ⟨h1, h2⟩ := tile_flag_prompt_username inp s
        exact Or.inl ⟨h1.trans hplay, rfl, h2⟩
      · rw [if_neg c2] at hr
        by_cases c3 : inp.buffer 1 = 'q' ∨ inp.buffer 1 = 'Q'
        · rw [if_pos c3] at hr
          simp only [Option.map_eq_some'] at hr
          obtain ⟨a, ha, e⟩ := hr
          rw [← e]
          right
          obtain ⟨_, h2⟩ := minesweeper_game_end_spec _ _ _ _ _ _ ha
          refine ⟨Or.inr rfl, ?_, s, a.1, rfl, ha⟩
          show a.1.sweeper_state.mines_remaining ≠ 0
          rw [h2]; exact hrem
        · rw [if_neg c3] at hr
          simp only [Option.some.injEq] at hr
          rw [← hr]
          exact Or.inl ⟨hplay, rfl, rfl⟩
  by_cases c4 : r.1.sweeper_state.mines_remaining = 0
  · rw [if_pos c4] at hfin
    rcases hmid with ⟨_, h2, h3⟩ | ⟨_, h2, _⟩
    · right
      rw [h2] at hfin
      exact ⟨Or.inl (minesweeper_game_end_spec _ _ _ _ _ _ hfin).1, inp.time_check, r.1, s1, 1,
        Or.inr rfl, h3, hfin⟩
    · exact absurd c4 h2
  · rw [if_neg c4] at hfin
    simp only [Option.some.injEq] at hfin
    rw [hfin] at hmid
    rcases hmid with ⟨h1, h2, _⟩ | ⟨h1, _, s0, sg, h3, h4⟩
    · exact Or.inl ⟨h1, h2⟩
    · exact Or.inr ⟨h1, inp.time_command, s0, sg, 0, Or.inl rfl, h3, h4⟩

/-! ## Commands in `PLAYING` and in the main menu -/

/-- C11: with at least one mine per game, for every step `update` makes from a reachable
session while the server holds a reachable leaderboard: when the step leads from `PLAYING` to
`GAMEOVER` or `MAIN_MENU`, the user records have gone through exactly one
`leaderboard_update_user_games` for the player, whose `games_played` has grown by 1 and whose
`games_won` by 0 or 1; in every other step the leaderboard is unchanged. -/
theorem update_records_one_game (NUM_MINES : Nat) (hmines : 0 < NUM_MINES) (s : Session)
    (hreach : Reachable NUM_MINES s) (board : Leaderboard) (hboard : board_reachable board)
    (inp : Inputs) (s1 : Session) (board1 : Leaderboard)
    (hstep : update NUM_MINES inp board s = some (s1, board1)) :
    ((s.state = game_state.PLAYING ∧
        (s1.state = game_state.GAMEOVER ∨ s1.state = game_state.MAIN_MENU)) →
      (recorded_games board1 s.sweeper_state.username).1 =
        (recorded_games board s.sweeper_state.username).1 + 1 ∧
      ((recorded_games board1 s.sweeper_state.username).2 =
          (recorded_games board s.sweeper_state.username).2 ∨
        (recorded_games board1 s.sweeper_state.username).2 =
          (recorded_games board s.sweeper_state.username).2 + 1) ∧
      ∃ (b0 : Leaderboard) (w : Int), b0.userinfo = board.userinfo ∧
        leaderboard_update_user_games b0 s.sweeper_state.username w = some board1) ∧
    (¬ (s.state = game_state.PLAYING ∧
        (s1.state = game_state.GAMEOVER ∨ s1.state = game_state.MAIN_MENU)) →
      board1 = board) := by
  obtain ⟨hwf, hsorted⟩ := board_reachable_wf board hboard
  by_cases hplay : s.state = game_state.PLAYING
  · have hrem := reachable_playing_remaining NUM_MINES hmines s hreach hplay
    have hstep1 : update_playing_screen inp board s = some (s1, board1) := by
      unfold update at hstep
      rw [hplay] at hstep
      exact hstep
    rcases update_playing_screen_outcome inp board board1 s s1 hplay hrem hstep1 with
      ⟨h1, h2⟩ | ⟨h1, now, s0, sg, w, hw, hu, hend⟩
    · constructor
      · rintro ⟨_, h3 | h3⟩
        · rw [h1] at h3; exact game_state.noConfusion h3
        · rw [h1] at h3; exact game_state.noConfusion h3
      · exact fun _ => h2
    · constructor
      · intro _
        obtain ⟨b0, hb0u, hb0wf, _, hupd, _, _⟩ :=
          minesweeper_game_end_board now board board1 s0 sg w hwf hsorted hend
        rw [hu] at hupd
        have hrec := recorded_games_update b0 board1 s.sweeper_state.username w hb0wf hw hupd
        rw [recorded_games_congr board b0 _ hb0u] at hrec
        refine ⟨by rw [hrec], ?_, b0, w, hb0u, hupd⟩
        rw [hrec]
        rcases hw with rfl | rfl
        · left; simp
        · right; rfl
      · intro hn
        exact absurd ⟨hplay, h1⟩ hn
  · constructor
    · intro h; exact absurd h.1 hplay
    · intro _
      exact update_not_playing NUM_MINES inp board board1 s s1 hplay hstep

set_option maxRecDepth 100000 in
/-- Witness for C11: `ann` has started a game with one mine and quits it. -/
theorem update_records_one_game_witness :
    ((sample_playing.state = game_state.PLAYING ∧
        ((({ sample_playing with state := game_state.MAIN_MENU } : Session).state =
            game_state.GAMEOVER) ∨
          (({ sample_playing with state := game_state.MAIN_MENU } : Session).state =
            game_state.MAIN_MENU))) →
      (recorded_games ⟨1, 0, [⟨"ann", 1, 0⟩], []⟩ sample_playing.sweeper_state.username).1 =
        (recorded_games Leaderboard.empty sample_playing.sweeper_state.username).1 + 1 ∧
      ((recorded_games ⟨1, 0, [⟨"ann", 1, 0⟩], []⟩ sample_playing.sweeper_state.username).2 =
          (recorded_games Leaderboard.empty sample_playing.sweeper_state.username).2 ∨
        (recorded_games ⟨1, 0, [⟨"ann", 1, 0⟩], []⟩ sample_playing.sweeper_state.username).2 =
          (recorded_games Leaderboard.empty sample_playing.sweeper_state.username).2 + 1) ∧
      ∃ (b0 : Leaderboard) (w : Int), b0.userinfo = Leaderboard.empty.userinfo ∧
        leaderboard_update_user_games b0 sample_playing.sweeper_state.username w =
          some ⟨1, 0, [⟨"ann", 1, 0⟩], []⟩) ∧
    (¬ (sample_playing.state = game_state.PLAYING ∧
        ((({ sample_playing with state := game_state.MAIN_MENU } : Session).state =
            game_state.GAMEOVER) ∨
          (({ sample_playing with state := game_state.MAIN_MENU } : Session).state =
            game_state.MAIN_MENU))) →
      (⟨1, 0, [⟨"ann", 1, 0⟩], []⟩ : Leaderboard) = Leaderboard.empty) :=
  update_records_one_game 1 (by decide) sample_playing
    (Reachable.update (sample_inputs '1') Leaderboard.empty Leaderboard.empty
      { state := game_state.MAIN_MENU, sweeper_state := sample_sweeper_state } sample_playing
      (Reachable.start sample_sweeper_state) rfl)
    Leaderboard.empty ⟨[], rfl⟩ (sample_inputs 'q')
    { sample_playing with state := game_state.MAIN_MENU } ⟨1, 0, [⟨"ann", 1, 0⟩], []⟩ rfl

/-- C12: with at least one mine per game, in every reachable session in `PLAYING` the quit
command (`q` or `Q`) makes `update` return with the session in `MAIN_MENU`; the player's
recorded `games_played` has grown by 1, the recorded `games_won` is as before, and the ranked
sequence and its size are unchanged. -/
theorem quit_records_loss (NUM_MINES : Nat) (hmines : 0 < NUM_MINES) (s : Session)
    (hreach : Reachable NUM_MINES s) (hplay : s.state = game_state.PLAYING)
    (board : Leaderboard) (hboard : board_reachable board) (inp : Inputs)
    (hcmd : inp.buffer 1 = 'q' ∨ inp.buffer 1 = 'Q') :
    ∃ s1 board1, update NUM_MINES inp board s = some (s1, board1) ∧
      s1.state = game_state.MAIN_MENU ∧
      recorded_games board1 s.sweeper_state.username =
        ((recorded_games board s.sweeper_state.username).1 + 1,
         (recorded_games board s.sweeper_state.username).2) ∧
      get_gameinfo_head board1 = get_gameinfo_head board ∧
      get_gameinfo_size board1 = get_gameinfo_size board := by
  have hrem := reachable_playing_remaining NUM_MINES hmines s hreach hplay
  obtain ⟨hwf, _⟩ := board_reachable_wf board hboard
  obtain ⟨b1, hb1, _, hg, hgs, _, _⟩ :=
    leaderboard_update_user_games_get board s.sweeper_state.username 0 hwf
  have hrec := recorded_games_update board b1 s.sweeper_state.username 0 hwf (Or.inl rfl) hb1
  have hnotr : ¬ (inp.buffer 1 = 'r' ∨ inp.buffer 1 = 'R') := by
    rcases hcmd with h | h <;> rw [h] <;> decide
  have hnotp : ¬ (inp.buffer 1 = 'p' ∨ inp.buffer 1 = 'P') := by
    rcases hcmd with h | h <;> rw [h] <;> decide
  have hend : minesweeper_game_end inp.time_command board s 0 =
      some (({ state := game_state.GAMEOVER,
               sweeper_state :=
                 { s.sweeper_state with
                   game_won := 0
                   game_time_taken := inp.time_command - s.sweeper_state.game_start_time } } :
              Session), b1) := by
    unfold minesweeper_game_end
    simp only [ne_eq, not_true_eq_false, if_false, Option.some_bind, hb1, Option.map_some']
  refine ⟨{ state := game_state.MAIN_MENU,
            sweeper_state :=
              { s.sweeper_state with
                game_won := 0
                game_time_taken := inp.time_command - s.sweeper_state.game_start_time } },
    b1, ?_, rfl, ?_, hg, hgs⟩
  · unfold update
    rw [hplay]
    simp only
    unfold update_playing_screen
    simp only
    rw [if_neg hnotr, if_neg hnotp, if_pos hcmd, hend]
    simp only [Option.map_some', Option.some_bind]
    exact if_neg hrem
  · rw [hrec]; simp

set_option maxRecDepth 100000 in
/-- Witness for C12: `ann` has started a game with one mine and sends `q` while the
leaderboard is empty. -/
theorem quit_records_loss_witness :
    ∃ s1 board1, update 1 (sample_inputs 'q') Leaderboard.empty sample_playing =
        some (s1, board1) ∧
      s1.state = game_state.MAIN_MENU ∧
      recorded_games board1 sample_playing.sweeper_state.username =
        ((recorded_games Leaderboard.empty sample_playing.sweeper_state.username).1 + 1,
         (recorded_games Leaderboard.empty sample_playing.sweeper_state.username).2) ∧
      get_gameinfo_head board1 = get_gameinfo_head Leaderboard.empty ∧
      get_gameinfo_size board1 = get_gameinfo_size Leaderboard.empty :=
  quit_records_loss 1 (by decide) sample_playing
    (Reachable.update (sample_inputs '1') Leaderboard.empty Leaderboard.empty
      { state := game_state.MAIN_MENU, sweeper_state := sample_sweeper_state } sample_playing
      (Reachable.start sample_sweeper_state) rfl)
    (by decide) Leaderboard.empty ⟨[], rfl⟩ (sample_inputs 'q') (Or.inl (by decide))

/-- C14: with at least one mine per game, in every reachable session in `PLAYING` a reveal
or place-flag command whose coordinate reply does not have exactly two characters, or whose
two characters `convert_coordinate` rejects, makes `update` return the session and the
leaderboard it was given: the state stays `PLAYING` and no tile, counter or record
changes. -/
theorem malformed_coordinate_changes_nothing (NUM_MINES : Nat) (hmines : 0 < NUM_MINES)
    (s : Session) (hreach : Reachable NUM_MINES s) (hplay : s.state = game_state.PLAYING)
    (board : Leaderboard) (inp : Inputs)
    (hcmd : inp.buffer 1 = 'r' ∨ inp.buffer 1 = 'R' ∨ inp.buffer 1 = 'p' ∨ inp.buffer 1 = 'P')
    (hbad : inp.coord_size ≠ 4 ∨
      (convert_coordinate (inp.coord_buffer 1) (inp.coord_buffer 2)).1 = 0) :
    update NUM_MINES inp board s = some (s, board) := by
  have hrem := reachable_playing_remaining NUM_MINES hmines s hreach hplay
  have hreveal : tile_reveal_prompt inp board s = some (s, board) := by
    unfold tile_reveal_prompt
    by_cases h4 : inp.coord_size ≠ 4
    · rw [if_pos h4]
    · rw [if_neg h4]
      simp only
      rw [if_pos (hbad.resolve_left h4)]
  have hflag : tile_flag_prompt inp s = s := by
    unfold tile_flag_prompt
    by_cases h4 : inp.coord_size ≠ 4
    · rw [if_pos h4]
    · rw [if_neg h4]
      simp only
      rw [if_pos (hbad.resolve_left h4)]
  unfold update
  rw [hplay]
  simp only
  unfold update_playing_screen
  simp only
  by_cases c1 : inp.buffer 1 = 'r' ∨ inp.buffer 1 = 'R'
  · rw [if_pos c1, hreveal, Option.some_bind]
    exact if_neg hrem
  · have c2 : inp.buffer 1 = 'p' ∨ inp.buffer 1 = 'P' := by
      rcases hcmd with h | h | h | h
      · exact absurd (Or.inl h) c1
      · exact absurd (Or.inr h) c1
      · exact Or.inl h
      · exact Or.inr h
    rw [if_neg c1, if_pos c2, hflag, Option.some_bind]
    exact if_neg hrem

set_option maxRecDepth 100000 in
/-- Witness for C14: `ann` has started a game with one mine and answers the reveal prompt
with three characters. -/
theorem malformed_coordinate_changes_nothing_witness :
    update 1 { sample_inputs 'r' with coord_size := 5 } Leaderboard.empty sample_playing =
      some (sample_playing, Leaderboard.empty) :=
  malformed_coordinate_changes_nothing 1 (by decide) sample_playing
    (Reachable.update (sample_inputs '1') Leaderboard.empty Leaderboard.empty
      { state := game_state.MAIN_MENU, sweeper_state := sample_sweeper_state } sample_playing
      (Reachable.start sample_sweeper_state) rfl)
    (by decide) Leaderboard.empty { sample_inputs 'r' with coord_size := 5 }
    (Or.inl (by decide)) (Or.inl (by decide))

theorem char_of_toNat (c : Char) (n : Nat) (h : c.toNat = n) : c = Char.ofNat n := by
  rw [← h, Char.ofNat_toNat]

theorem message_buffer_one (code : Char) (text : String) :
    message_buffer code text 1 = text.toList.headD (Char.ofNat 0) := by
  unfold message_buffer
  cases text.toList with
  | nil => rfl
  | cons a l => rfl

set_option maxRecDepth 100000 in
/-- C13, counterexample: from `MAIN_MENU` the input text `3abc` leads to `EXIT` and the input
text `12` to `PLAYING`, not to `MAIN_MENU`. -/
theorem main_menu_longer_input_accepted :
    (update 1 { sample_inputs ' ' with buffer := message_buffer 'I' "3abc" } Leaderboard.empty
        { state := game_state.MAIN_MENU, sweeper_state := sample_sweeper_state }).map
      (fun r => r.1.state) = some game_state.EXIT ∧
    (update 1 { sample_inputs ' ' with buffer := message_buffer 'I' "12" } Leaderboard.empty
        { state := game_state.MAIN_MENU, sweeper_state := sample_sweeper_state }).map
      (fun r => r.1.state) = some game_state.PLAYING ∧
    (update 1 { sample_inputs ' ' with buffer := message_buffer 'I' "3abc" } Leaderboard.empty
        { state := game_state.MAIN_MENU, sweeper_state := sample_sweeper_state }).map
      (fun r => r.1.state) ≠ some game_state.MAIN_MENU ∧
    (update 1 { sample_inputs ' ' with buffer := message_buffer 'I' "12" } Leaderboard.empty
        { state := game_state.MAIN_MENU, sweeper_state := sample_sweeper_state }).map
      (fun r => r.1.state) ≠ some game_state.MAIN_MENU := by
  refine ⟨by decide, by decide, by decide, by decide⟩

/-- C13, amended: from `MAIN_MENU` the step is decided by the character at position 1 of the
received message, which is the first character of the input text (NUL for an empty text).
For `1` `update` is `minesweeper_init` followed by the move to `PLAYING`, for `2` it moves to
`HIGHSCORE`, for `3` to `EXIT`, and for every other first character it returns the session
unchanged, in `MAIN_MENU`; the leaderboard is never changed. -/
theorem main_menu_next_state (NUM_MINES : Nat) (inp : Inputs) (board : Leaderboard)
    (s : Session) (hmenu : s.state = game_state.MAIN_MENU) :
    (inp.buffer 1 = '1' →
      update NUM_MINES inp board s =
        (minesweeper_init NUM_MINES inp.rand inp.time_command s.sweeper_state).map
          (fun sw => (({ state := game_state.PLAYING, sweeper_state := sw } : Session), board))) ∧
    (inp.buffer 1 = '2' →
      update NUM_MINES inp board s = some ({ s with state := game_state.HIGHSCORE }, board)) ∧
    (inp.buffer 1 = '3' →
      update NUM_MINES inp board s = some ({ s with state := game_state.EXIT }, board)) ∧
    (inp.buffer 1 ≠ '1' → inp.buffer 1 ≠ '2' → inp.buffer 1 ≠ '3' →
      update NUM_MINES inp board s = some (s, board)) ∧
    (∀ (code : Char) (text : String),
      message_buffer code text 1 = text.toList.headD (Char.ofNat 0)) := by
  refine ⟨?_, ?_, ?_, ?_, message_buffer_one⟩
  · intro h
    unfold update
    rw [hmenu]
    simp only
    unfold update_main_menu
    simp only [h]
    rw [if_pos (by decide), if_pos (by decide)]
    cases minesweeper_init NUM_MINES inp.rand inp.time_command s.sweeper_state <;> rfl
  · intro h
    unfold update
    rw [hmenu]
    simp only
    unfold update_main_menu
    simp only [h]
    rw [if_pos (by decide), if_neg (by decide), if_pos (by decide)]
    rfl
  · intro h
    unfold update
    rw [hmenu]
    simp only
    unfold update_main_menu
    simp only [h]
    rw [if_pos (by decide), if_neg (by decide), if_neg (by decide), if_pos (by decide)]
    rfl
  · intro h1 h2 h3
    have n1 : (inp.buffer 1).toNat ≠ 49 := fun e => h1 (char_of_toNat _ 49 e)
    have n2 : (inp.buffer 1).toNat ≠ 50 := fun e => h2 (char_of_toNat _ 50 e)
    have n3 : (inp.buffer 1).toNat ≠ 51 := fun e => h3 (char_of_toNat _ 51 e)
    unfold update
    rw [hmenu]
    simp only
    unfold update_main_menu
    simp only
    by_cases hd : isdigit (inp.buffer 1) = true
    · rw [if_pos hd,
        if_neg (show ¬ ((inp.buffer 1).toNat : Int) - 48 = 1 by omega),
        if_neg (show ¬ ((inp.buffer 1).toNat : Int) - 48 = 2 by omega),
        if_neg (show ¬ ((inp.buffer 1).toNat : Int) - 48 = 3 by omega)]
      rfl
    · rw [if_neg hd]
      rfl

/-- Witness for C13 as amended: a session in the main menu that receives `3abc`. -/
theorem main_menu_next_state_witness :
    ((message_buffer 'I' "3abc") 1 = '1' →
      update 1 { sample_inputs ' ' with buffer := message_buffer 'I' "3abc" } Leaderboard.empty
          { state := game_state.MAIN_MENU, sweeper_state := sample_sweeper_state } =
        (minesweeper_init 1 [0, 0] 100 sample_sweeper_state).map
          (fun sw => (({ state := game_state.PLAYING, sweeper_state := sw } : Session),
            Leaderboard.empty))) ∧
    ((message_buffer 'I' "3abc") 1 = '2' →
      update 1 { sample_inputs ' ' with buffer := message_buffer 'I' "3abc" } Leaderboard.empty
          { state := game_state.MAIN_MENU, sweeper_state := sample_sweeper_state } =
        some ({ state := game_state.HIGHSCORE, sweeper_state := sample_sweeper_state },
          Leaderboard.empty)) ∧
    ((message_buffer 'I' "3abc") 1 = '3' →
      update 1 { sample_inputs ' ' with buffer := message_buffer 'I' "3abc" } Leaderboard.empty
          { state := game_state.MAIN_MENU, sweeper_state := sample_sweeper_state } =
        some ({ state := game_state.EXIT, sweeper_state := sample_sweeper_state },
          Leaderboard.empty)) ∧
    ((message_buffer 'I' "3abc") 1 ≠ '1' → (message_buffer 'I' "3abc") 1 ≠ '2' →
        (message_buffer 'I' "3abc") 1 ≠ '3' →
      update 1 { sample_inputs ' ' with buffer := message_buffer 'I' "3abc" } Leaderboard.empty
          { state := game_state.MAIN_MENU, sweeper_state := sample_sweeper_state } =
        some ({ state := game_state.MAIN_MENU, sweeper_state := sample_sweeper_state },
          Leaderboard.empty)) ∧
    (∀ (code : Char) (text : String),
      message_buffer code text 1 = text.toList.headD (Char.ofNat 0)) :=
  main_menu_next_state 1 { sample_inputs ' ' with buffer := message_buffer 'I' "3abc" }
    Leaderboard.empty { state := game_state.MAIN_MENU, sweeper_state := sample_sweeper_state }
    rfl

/-! ## `minesweeper_init` returns when `rand` supplies free tiles -/

theorem place_mines_loop_returns (ks : List Nat) :
    ∀ f : Int → Int → Tile, ks.Nodup → (∀ k ∈ ks, k < 81) →
      (∀ k ∈ ks, (f ((k / 9 : Nat) : Int) ((k % 9 : Nat) : Int)).has_mine = 0) →
      ∃ f1, place_mines_loop ks.length (ks.flatMap fun k => [k / 9, k % 9]) f = some f1 := by
  induction ks with
  | nil => intro f _ _ _; exact ⟨f, rfl⟩
  | cons k ks ih =>
    intro f hnd hlt hfree
    rw [List.nodup_cons] at hnd
    have hk : k < 81 := hlt k (by simp)
    have hx : (((k / 9 : Nat) : Int)) % FIELD_WIDTH = ((k / 9 : Nat) : Int) := by
      unfold FIELD_WIDTH; omega
    have hy : (((k % 9 : Nat) : Int)) % FIELD_HEIGHT = ((k % 9 : Nat) : Int) := by
      unfold FIELD_HEIGHT; omega
    have hfk : (f ((k / 9 : Nat) : Int) ((k % 9 : Nat) : Int)).has_mine = 0 :=
      hfree k (by simp)
    simp only [List.flatMap_cons, List.length_cons, List.cons_append, List.nil_append]
    rw [place_mines_loop]
    simp only [hx, hy]
    rw [if_neg (by unfold tile_contains_mine; exact not_not.mpr hfk)]
    apply ih _ hnd.2 (fun j hj => hlt j (List.mem_cons_of_mem _ hj))
    intro j hj
    have hjk : j ≠ k := fun e => hnd.1 (e ▸ hj)
    have hj81 : j < 81 := hlt j (List.mem_cons_of_mem _ hj)
    rw [set_tile_other _ _ _ _ _ _ (by omega)]
    exact hfree j (List.mem_cons_of_mem _ hj)

/-- For every number of mines that fits on the field there are values of `rand()` with which
`minesweeper_init` returns, whatever the state it is given. -/
theorem minesweeper_init_returns (NUM_MINES : Nat) (h : NUM_MINES ≤ 81) :
    ∃ rand : List Nat, ∀ (now : Int) (state : MinesweeperState),
      ∃ s1, minesweeper_init NUM_MINES rand now state = some s1 := by
  refine ⟨(List.range NUM_MINES).flatMap fun k => [k / 9, k % 9], ?_⟩
  intro now state
  obtain ⟨f1, hf1⟩ := place_mines_loop_returns (List.range NUM_MINES)
    (reset_field state.field) (List.nodup_range _)
    (fun k hk => by have := List.mem_range.mp hk; omega)
    (fun k hk => by
      have hk1 := List.mem_range.mp hk
      rw [reset_field_spec]
      have hb : in_bounds ((k / 9 : Nat) : Int) ((k % 9 : Nat) : Int) ≠ 0 := by
        rw [in_bounds_ne_zero]; omega
      simp only [hb, ne_eq, not_false_eq_true, if_true])
  rw [List.length_range] at hf1
  unfold minesweeper_init place_mines
  simp only [hf1, Option.map_some']
  exact ⟨_, rfl⟩

/-! ## Frame and termination of `reveal_tile` -/

/-- A call of `reveal_tile` on a tile outside the field or on a revealed tile returns the
state it was given. -/
theorem reveal_tile_no_work (x y : Int) (state : MinesweeperState)
    (h : in_bounds x y = 0 ∨ (state.field x y).revealed ≠ 0) :
    reveal_tile x y state = some state := by
  show reveal_tile_fuel (81 + 1) x y state = some state
  unfold reveal_tile_fuel
  have hg : ¬ (in_bounds x y ≠ 0 ∧ (state.field x y).revealed = 0) := by
    rintro ⟨hb, hr⟩
    rcases h with h | h
    · exact hb h
    · exact h hr
  rw [if_neg hg]

/-- A returning call of `reveal_tile` returns the same state with a larger recursion
bound. -/
theorem reveal_tile_fuel_succ (fuel : Nat) :
    ∀ (x y : Int) (s s1 : MinesweeperState), reveal_tile_fuel fuel x y s = some s1 →
      reveal_tile_fuel (fuel + 1) x y s = some s1 := by
  induction fuel with
  | zero => intro x y s s1 h; simp [reveal_tile_fuel] at h
  | succ fuel ih =>
    intro x y s s1 h
    unfold reveal_tile_fuel at h
    unfold reveal_tile_fuel
    by_cases hg : in_bounds x y ≠ 0 ∧ (s.field x y).revealed = 0
    · rw [if_pos hg] at h
      rw [if_pos hg]
      simp only at h
      simp only
      by_cases hz : (set_tile s.field x y { s.field x y with revealed := 1 } x y).adjacent_mines
          = 0
      · rw [if_pos hz] at h
        rw [if_pos hz]
        simp only [Option.bind_eq_some] at h
        obtain ⟨t1, e1, t2, e2, t3, e3, t4, e4, t5, e5, t6, e6, t7, e7, e8⟩ := h
        rw [ih _ _ _ _ e1, Option.some_bind, ih _ _ _ _ e2, Option.some_bind,
          ih _ _ _ _ e3, Option.some_bind, ih _ _ _ _ e4, Option.some_bind,
          ih _ _ _ _ e5, Option.some_bind, ih _ _ _ _ e6, Option.some_bind,
          ih _ _ _ _ e7, Option.some_bind, ih _ _ _ _ e8]
      · rw [if_neg hz] at h
        rw [if_neg hz]
        exact h
    · rw [if_neg hg] at h
      rw [if_neg hg]
      exact h

theorem reveal_tile_fuel_le (fuel fuel1 : Nat) (hle : fuel ≤ fuel1) (x y : Int)
    (s s1 : MinesweeperState) (h : reveal_tile_fuel fuel x y s = some s1) :
    reveal_tile_fuel fuel1 x y s = some s1 := by
  induction fuel1 with
  | zero =>
    have h0 : fuel = 0 := Nat.le_zero.mp hle
    rw [h0] at h
    exact h
  | succ n ih =>
    by_cases hn : fuel ≤ n
    · exact reveal_tile_fuel_succ n x y s s1 (ih hn)
    · have he : fuel = n + 1 := by omega
      rw [he] at h
      exact h

/-- A state that comes from `s` by revealing tiles, among them the unrevealed tile `(x, y)`,
has fewer unrevealed tiles. -/
theorem reveals_unrevealed_lt (allowed : Int → Int → Prop) (s s1 : MinesweeperState)
    (h : reveals allowed s s1) (x y : Int) (hb : in_bounds x y ≠ 0)
    (hr : (s.field x y).revealed = 0) (hr1 : (s1.field x y).revealed ≠ 0) :
    unrevealed_tiles s1.field < unrevealed_tiles s.field := by
  have hone := unrevealed_tiles_reveal s.field x y hb hr
  have hle : unrevealed_tiles s1.field ≤
      unrevealed_tiles (set_tile s.field x y { s.field x y with revealed := 1 }) := by
    unfold unrevealed_tiles
    apply count_tiles_mono
    intro i j _ ht
    have h1 : (s1.field i j).revealed = 0 := of_decide_eq_true ht
    apply decide_eq_true
    by_cases hc : i = x ∧ j = y
    · rw [hc.1, hc.2] at h1
      exact absurd h1 hr1
    · rw [set_tile_other _ _ _ _ _ _ hc]
      by_contra hne
      exact (reveals_same allowed s s1 h i j).2.2.2 hne h1
  omega

/-- C24: `reveal_tile` returns for every state and every integer pair, and the state it
returns differs from the given one only in `revealed` fields that went from 0 to 1: every
tile keeps `has_mine`, `has_flag` and `adjacent_mines`, `mines_remaining` and the other
members of the state are unchanged, and a call on a tile outside the field or on a revealed
tile returns the state as it was. -/
theorem reveal_tile_changes_only_revealed (x y : Int) (state : MinesweeperState) :
    ∃ s1, reveal_tile x y state = some s1 ∧
      (∀ i j : Int,
        (s1.field i j).has_mine = (state.field i j).has_mine ∧
        (s1.field i j).has_flag = (state.field i j).has_flag ∧
        (s1.field i j).adjacent_mines = (state.field i j).adjacent_mines ∧
        ((s1.field i j).revealed = (state.field i j).revealed ∨
          ((state.field i j).revealed = 0 ∧ (s1.field i j).revealed = 1))) ∧
      s1.mines_remaining = state.mines_remaining ∧
      s1.game_won = state.game_won ∧
      s1.game_start_time = state.game_start_time ∧
      s1.game_time_taken = state.game_time_taken ∧
      s1.username = state.username ∧
      ((in_bounds x y = 0 ∨ (state.field x y).revealed ≠ 0) → s1 = state) := by
  obtain ⟨s1, hs1, hrev⟩ := reveal_tile_spec x y state
  refine ⟨s1, hs1, ?_, hrev.mines_remaining, hrev.game_won, hrev.game_start_time,
    hrev.game_time_taken, hrev.username, ?_⟩
  · intro i j
    rcases hrev.tiles i j with e | ⟨_, hr, e, _⟩
    · rw [e]
      exact ⟨rfl, rfl, rfl, Or.inl rfl⟩
    · rw [e]
      exact ⟨rfl, rfl, rfl, Or.inr ⟨hr, rfl⟩⟩
  · intro h
    have h2 := reveal_tile_no_work x y state h
    rw [hs1] at h2
    exact Option.some.inj h2

/-- C23: `reveal_tile` returns for every state and every integer pair, on or off the field.
The field never has more than `FIELD_WIDTH * FIELD_HEIGHT` unrevealed tiles; a call that
finds its tile on the field and unrevealed leaves fewer unrevealed tiles than it found, every
other call returns the state as it was; and a recursion depth above the number of unrevealed
tiles is never exceeded: every such bound gives the same returned state. -/
theorem reveal_tile_terminates (x y : Int) (state : MinesweeperState) :
    unrevealed_tiles state.field ≤ (FIELD_WIDTH * FIELD_HEIGHT).toNat ∧
    ∃ s1, reveal_tile x y state = some s1 ∧
      (∀ fuel : Nat, unrevealed_tiles state.field < fuel →
        reveal_tile_fuel fuel x y state = some s1) ∧
      unrevealed_tiles s1.field ≤ unrevealed_tiles state.field ∧
      ((in_bounds x y ≠ 0 ∧ (state.field x y).revealed = 0) →
        unrevealed_tiles s1.field < unrevealed_tiles state.field) ∧
      ((in_bounds x y = 0 ∨ (state.field x y).revealed ≠ 0) → s1 = state) := by
  have h81 : unrevealed_tiles state.field ≤ 81 :=
    count_tiles_le (fun t => decide (t.revealed = 0)) state.field
  refine ⟨h81, ?_⟩
  obtain ⟨s1, hs1, hrev⟩ := reveal_tile_spec x y state
  refine ⟨s1, hs1, ?_, reveals_unrevealed_le _ state s1 hrev, ?_, ?_⟩
  · intro fuel hfuel
    obtain ⟨t, ht, _⟩ := reveal_tile_fuel_spec fuel x y state hfuel
    have h82 : reveal_tile_fuel 82 x y state = some s1 := hs1
    rcases Nat.le_total fuel 82 with hle | hle
    · have := reveal_tile_fuel_le fuel 82 hle x y state t ht
      rw [h82] at this
      rw [ht, ← Option.some.inj this]
    · exact reveal_tile_fuel_le 82 fuel hle x y state s1 h82
  · rintro ⟨hb, hr⟩
    exact reveals_unrevealed_lt _ state s1 hrev x y hb hr
      (reveal_tile_fuel_root _ x y state s1 hs1 hb)
  · intro h
    have h2 := reveal_tile_no_work x y state h
    rw [hs1] at h2
    exact Option.some.inj h2

/-! ## The counter `mines_remaining` during a game -/

/-- In every state of a game the counter is the number of mined tiles without a flag, and
every tile with a flag is revealed. -/
theorem game_reachable_inv (NUM_MINES : Nat) (s : MinesweeperState)
    (h : GameReachable NUM_MINES s) :
    s.mines_remaining = unflagged_mines s.field ∧
    ∀ x y, in_bounds x y ≠ 0 → (s.field x y).has_flag ≠ 0 → (s.field x y).revealed ≠ 0 := by
  induction h with
  | init rand now state s1 hinit =>
    obtain ⟨hinv, _⟩ := minesweeper_init_spec NUM_MINES rand now state s1 hinit
    exact ⟨hinv.remaining, hinv.flag_revealed⟩
  | reveal x y s s1 _ hrev ih =>
    have hr := reveal_tile_fuel_frame _ x y s s1 hrev
    have hsame := reveals_same _ s s1 hr
    refine ⟨?_, ?_⟩
    · rw [hr.mines_remaining, ih.1]
      congr 1
      unfold unflagged_mines
      apply count_tiles_congr
      intro i j _
      rw [(hsame i j).1, (hsame i j).2.1]
    · intro i j hb hf
      rw [(hsame i j).2.1] at hf
      exact (hsame i j).2.2.2 (ih.2 i j hb hf)
  | flag x y s _ ih =>
    by_cases h : in_bounds x y ≠ 0 ∧ (s.field x y).revealed = 0 ∧ (s.field x y).has_mine ≠ 0
    · obtain ⟨hb, hr, hm⟩ := h
      rw [flag_tile_spec x y s hb hr hm]
      have hf0 : (s.field x y).has_flag = 0 := by
        by_contra hne
        exact ih.2 x y hb hne hr
      refine ⟨?_, ?_⟩
      · show s.mines_remaining - 1 = ((unflagged_mines (set_tile s.field x y
          { s.field x y with has_flag := 1, revealed := 1 }) : Nat) : Int)
        rw [unflagged_mines_set_tile _ _ _ _ hb, if_pos ⟨hm, hf0⟩,
          if_neg (fun h => absurd h.2 (show (1 : Int) ≠ 0 by decide)), ih.1]
        omega
      · intro i j hij hf1
        show (set_tile s.field x y { s.field x y with has_flag := 1, revealed := 1 }
          i j).revealed ≠ 0
        change (set_tile s.field x y { s.field x y with has_flag := 1, revealed := 1 }
          i j).has_flag ≠ 0 at hf1
        unfold set_tile at hf1 ⊢
        by_cases hc : i = x ∧ j = y
        · rw [if_pos hc]; exact (show (1 : Int) ≠ 0 by decide)
        · rw [if_neg hc] at hf1 ⊢
          exact ih.2 i j hij hf1
    · rw [flag_tile_unchanged x y s h]
      exact ih

/-- The number of unflagged mines is 0 exactly when every tile of the field that has a mine
has a flag. -/
theorem unflagged_mines_eq_zero_iff (f : Int → Int → Tile) :
    unflagged_mines f = 0 ↔
      ∀ x y, in_bounds x y ≠ 0 → (f x y).has_mine ≠ 0 → (f x y).has_flag ≠ 0 := by
  constructor
  · intro h0 x y hb hm hf
    have hpos := count_tiles_pos (fun t => decide (t.has_mine ≠ 0 ∧ t.has_flag = 0)) f x y hb
      (decide_eq_true ⟨hm, hf⟩)
    unfold unflagged_mines at h0
    omega
  · intro h
    unfold unflagged_mines
    apply count_tiles_eq_zero
    intro x y hb
    apply decide_eq_false
    rintro ⟨hm, hf⟩
    exact h x y hb hm hf

/-- A second `flag_tile` on the same tile returns 0 and changes nothing. -/
theorem flag_tile_twice (x y : Int) (s : MinesweeperState) :
    flag_tile x y (flag_tile x y s).2 = (0, (flag_tile x y s).2) := by
  apply flag_tile_unchanged
  by_cases h : in_bounds x y ≠ 0 ∧ (s.field x y).revealed = 0 ∧ (s.field x y).has_mine ≠ 0
  · obtain ⟨hb, hr, hm⟩ := h
    rw [flag_tile_spec x y s hb hr hm]
    rintro ⟨_, hr1, _⟩
    change (set_tile s.field x y { s.field x y with has_flag := 1, revealed := 1 }
      x y).revealed = 0 at hr1
    rw [set_tile_same] at hr1
    exact absurd hr1 (show (1 : Int) ≠ 0 by decide)
  · rw [flag_tile_unchanged x y s h]
    exact h

/-- C25: in every state reached from `minesweeper_init` by calls of `reveal_tile` and
`flag_tile`, `mines_remaining` is the number of tiles of the field that have a mine and no
flag; so it is not negative, it is 0 exactly when every mined tile has a flag, and a second
`flag_tile` on the same tile returns 0 and leaves the state, so that the two calls together
lower the counter by as much as the first, which is 1 when the first returns 1 and 0
otherwise. -/
theorem mines_remaining_counts_unflagged (NUM_MINES : Nat) (s : MinesweeperState)
    (hreach : GameReachable NUM_MINES s) :
    s.mines_remaining = ((unflagged_mines s.field : Nat) : Int) ∧
    0 ≤ s.mines_remaining ∧
    (s.mines_remaining = 0 ↔
      ∀ x y, in_bounds x y ≠ 0 → (s.field x y).has_mine ≠ 0 → (s.field x y).has_flag ≠ 0) ∧
    ∀ x y : Int,
      flag_tile x y (flag_tile x y s).2 = (0, (flag_tile x y s).2) ∧
      (flag_tile x y (flag_tile x y s).2).2.mines_remaining =
        s.mines_remaining - (flag_tile x y s).1 ∧
      ((flag_tile x y s).1 = 0 ∨ (flag_tile x y s).1 = 1) := by
  obtain ⟨hrem, _⟩ := game_reachable_inv NUM_MINES s hreach
  refine ⟨hrem, ?_, ?_, ?_⟩
  · rw [hrem]; exact Int.ofNat_nonneg _
  · rw [hrem, ← unflagged_mines_eq_zero_iff]
    exact Int.natCast_eq_zero
  · intro x y
    refine ⟨flag_tile_twice x y s, ?_, ?_⟩
    · rw [flag_tile_twice]
      by_cases h : in_bounds x y ≠ 0 ∧ (s.field x y).revealed = 0 ∧ (s.field x y).has_mine ≠ 0
      · rw [flag_tile_spec x y s h.1 h.2.1 h.2.2]
      · rw [flag_tile_unchanged x y s h]
        show s.mines_remaining = s.mines_remaining - 0
        omega
    · by_cases h : in_bounds x y ≠ 0 ∧ (s.field x y).revealed = 0 ∧ (s.field x y).has_mine ≠ 0
      · rw [flag_tile_spec x y s h.1 h.2.1 h.2.2]; exact Or.inr rfl
      · rw [flag_tile_unchanged x y s h]; exact Or.inl rfl

set_option maxRecDepth 100000 in
/-- Witness for C25: the game with one mine, on tile `A1`, after a reveal of `B2` and a flag
on `A1`. -/
theorem mines_remaining_counts_unflagged_witness :
    (flag_tile 0 0 ((reveal_tile 1 1 sample_playing.sweeper_state).getD
        sample_playing.sweeper_state)).2.mines_remaining =
      ((unflagged_mines (flag_tile 0 0 ((reveal_tile 1 1 sample_playing.sweeper_state).getD
        sample_playing.sweeper_state)).2.field : Nat) : Int) ∧
    (flag_tile 0 0 ((reveal_tile 1 1 sample_playing.sweeper_state).getD
        sample_playing.sweeper_state)).2.mines_remaining = 0 :=
  ⟨(mines_remaining_counts_unflagged 1 _
      (GameReachable.flag 0 0 _
        (GameReachable.reveal 1 1 sample_playing.sweeper_state _
          (GameReachable.init [0, 0] 100 sample_sweeper_state sample_playing.sweeper_state
            rfl)
          rfl))).1,
    by decide⟩

/-! ## The flood fill and the mines -/

/-- C26: in a state whose `adjacent_mines` are the values of `num_mines_adjacent`,
`reveal_tile` called on a tile without a mine returns and reveals no tile with a mine: every
tile that was unrevealed and is revealed afterwards has no mine.  And in every reachable
session in `PLAYING`, every revealed tile of the field that has a mine has a flag. -/
theorem reveal_tile_uncovers_no_mine :
    (∀ (x y : Int) (state : MinesweeperState),
      (∀ i j, in_bounds i j ≠ 0 →
        (state.field i j).adjacent_mines = num_mines_adjacent i j state.field) →
      (state.field x y).has_mine = 0 →
      ∃ s1, reveal_tile x y state = some s1 ∧
        (∀ i j, (s1.field i j).has_mine = (state.field i j).has_mine) ∧
        ∀ i j, (state.field i j).revealed = 0 → (s1.field i j).revealed ≠ 0 →
          (s1.field i j).has_mine = 0) ∧
    (∀ (NUM_MINES : Nat) (s : Session), Reachable NUM_MINES s →
      s.state = game_state.PLAYING →
      ∀ x y, in_bounds x y ≠ 0 → (s.sweeper_state.field x y).has_mine ≠ 0 →
        (s.sweeper_state.field x y).revealed ≠ 0 → (s.sweeper_state.field x y).has_flag ≠ 0) := by
  constructor
  · intro x y state hadj hroot
    obtain ⟨s1, hs1, hrev⟩ := reveal_tile_spec x y state
    have hsame := reveals_same _ state s1 hrev
    refine ⟨s1, hs1, fun i j => (hsame i j).1, ?_⟩
    intro i j hr hr1
    rw [(hsame i j).1]
    rcases hrev.tiles i j with e | ⟨hb, _, _, hal⟩
    · rw [e] at hr1
      exact absurd hr hr1
    · rcases hal with ⟨rfl, rfl⟩ | ⟨p, q, hpq, h0, hi1, hi2, hj1, hj2⟩
      · exact hroot
      · rw [hadj p q hpq] at h0
        exact no_mine_near_zero state.field p q i j h0 hb ⟨hi1, hi2⟩ ⟨hj1, hj2⟩
  · intro NUM_MINES s hreach hplay
    exact (reachable_playing_inv NUM_MINES s hreach hplay).mine_revealed

set_option maxRecDepth 100000 in
/-- Witness for C26: in the game with one mine, on tile `A1`, `reveal_tile` on tile `I9`
returns, and every tile it has revealed has no mine. -/
theorem reveal_tile_uncovers_no_mine_witness :
    (sample_playing.sweeper_state.field 8 8).has_mine = 0 ∧
    ∃ s1, reveal_tile 8 8 sample_playing.sweeper_state = some s1 ∧
      (∀ i j, (s1.field i j).has_mine = (sample_playing.sweeper_state.field i j).has_mine) ∧
      ∀ i j, (sample_playing.sweeper_state.field i j).revealed = 0 →
        (s1.field i j).revealed ≠ 0 → (s1.field i j).has_mine = 0 :=
  ⟨by decide,
    reveal_tile_uncovers_no_mine.1 8 8 sample_playing.sweeper_state
      (reachable_playing_inv 1 sample_playing
        (Reachable.update (sample_inputs '1') Leaderboard.empty Leaderboard.empty
          { state := game_state.MAIN_MENU, sweeper_state := sample_sweeper_state } sample_playing
          (Reachable.start sample_sweeper_state) rfl)
        (by decide)).adjacent
      (by decide)⟩

/-! ## `revealed` during a game and on the game-over screen -/

/-- What `show_mines` leaves on the field: a tile with a mine is revealed and has
`show_flags` as its flag, a tile without a mine is not revealed. -/
theorem show_mines_spec (state : MinesweeperState) (show_flags : Int) :
    (show_mines state show_flags).field = fun i j =>
      if in_bounds i j ≠ 0 then
        (if (state.field i j).has_mine ≠ 0 then
          { state.field i j with revealed := 1, has_flag := show_flags }
        else { state.field i j with revealed := 0 })
      else state.field i j := by
  have h := for_each_tile_spec
    (fun x y f =>
      if (f x y).has_mine ≠ 0 then
        let f1 := set_tile f x y { f x y with revealed := 1 }
        set_tile f1 x y { f1 x y with has_flag := show_flags }
      else set_tile f x y { f x y with revealed := 0 })
    (fun x y f =>
      if (f x y).has_mine ≠ 0 then { f x y with revealed := 1, has_flag := show_flags }
      else { f x y with revealed := 0 })
    state.field
    (by
      intro x y f
      by_cases hm : (f x y).has_mine ≠ 0
      · simp only [if_pos hm, set_tile_set_tile, set_tile_same]
      · simp only [if_neg hm])
    (by
      intro x y f _ _ hxy
      simp only [hxy])
  unfold show_mines
  simp only
  rw [h]

set_option maxRecDepth 100000 in
/-- C21, counterexample: in the game with one mine, on tile `A1`, the player reveals `B2`
and then `A1`.  Tile `B2`, which has no mine, is revealed while the session is in `PLAYING`
and still when it has moved to `GAMEOVER`, and is not revealed any more once the game-over
screen has been drawn. -/
theorem show_mines_hides_revealed_tile :
    (update 1 { sample_inputs 'r' with coord_buffer := fun i => if i = 1 then 'B' else '2' }
        Leaderboard.empty sample_playing).bind
      (fun r1 =>
        (update 1 (sample_inputs 'r') r1.2 r1.1).map fun r2 =>
          (r1.1.state, (r1.1.sweeper_state.field 1 1).revealed,
            r2.1.state, (r2.1.sweeper_state.field 1 1).revealed,
            ((draw (sample_inputs ' ') r2.1).sweeper_state.field 1 1).revealed)) =
      some (game_state.PLAYING, 1, game_state.GAMEOVER, 1, 0) := by
  decide

/-- C21, amended: `reveal_tile` and `flag_tile` keep every revealed tile revealed, for every
state and all coordinates.  After `show_mines`, which the game-over screen calls with
`game_won` as its second argument, a tile of the field is revealed exactly when it has a
mine. -/
theorem revealed_monotonic_while_playing :
    (∀ (x y : Int) (state : MinesweeperState),
      ∃ s1, reveal_tile x y state = some s1 ∧
        ∀ i j, (state.field i j).revealed ≠ 0 → (s1.field i j).revealed ≠ 0) ∧
    (∀ (x y : Int) (state : MinesweeperState) (i j : Int),
      (state.field i j).revealed ≠ 0 → ((flag_tile x y state).2.field i j).revealed ≠ 0) ∧
    (∀ (state : MinesweeperState) (show_flags : Int) (i j : Int), in_bounds i j ≠ 0 →
      (((show_mines state show_flags).field i j).revealed ≠ 0 ↔
        (state.field i j).has_mine ≠ 0)) ∧
    (∀ (inp : Inputs) (s : Session), s.state = game_state.GAMEOVER → ¬ inp.send_size < 0 →
      draw inp s =
        { s with sweeper_state := show_mines s.sweeper_state s.sweeper_state.game_won }) := by
  refine ⟨?_, ?_, ?_, ?_⟩
  · intro x y state
    obtain ⟨s1, hs1, hrev⟩ := reveal_tile_spec x y state
    exact ⟨s1, hs1, fun i j => (reveals_same _ state s1 hrev i j).2.2.2⟩
  · intro x y state i j hr
    by_cases h : in_bounds x y ≠ 0 ∧ (state.field x y).revealed = 0 ∧
        (state.field x y).has_mine ≠ 0
    · rw [flag_tile_spec x y state h.1 h.2.1 h.2.2]
      show (set_tile state.field x y { state.field x y with has_flag := 1, revealed := 1 }
        i j).revealed ≠ 0
      unfold set_tile
      by_cases hc : i = x ∧ j = y
      · rw [if_pos hc]; exact (show (1 : Int) ≠ 0 by decide)
      · rw [if_neg hc]; exact hr
    · rw [flag_tile_unchanged x y state h]
      exact hr
  · intro state show_flags i j hb
    rw [show_mines_spec]
    simp only
    rw [if_pos hb]
    by_cases hm : (state.field i j).has_mine ≠ 0
    · rw [if_pos hm]
      exact ⟨fun _ => hm, fun _ => (show (1 : Int) ≠ 0 by decide)⟩
    · rw [if_neg hm]
      exact ⟨fun h => absurd rfl h, fun h => absurd h hm⟩
  · intro inp s hs hsend
    unfold draw
    simp only [if_neg hsend, hs]

/-! ## `reveal_tile` reveals the flood-fill region -/

theorem reveals_unrevealed_before (allowed : Int → Int → Prop) (s t : MinesweeperState)
    (h : reveals allowed s t) (i j : Int) (hr : (t.field i j).revealed = 0) :
    (s.field i j).revealed = 0 := by
  by_contra hne
  exact (reveals_same allowed s t h i j).2.2.2 hne hr

theorem reveals_true (allowed : Int → Int → Prop) (s t : MinesweeperState)
    (h : reveals allowed s t) : reveals (fun _ _ => True) s t :=
  reveals_mono allowed _ s t h (fun _ _ _ _ _ => trivial)

/-- The region of a recursive call, made on a tile around the zero-count tile `(x, y)` in a
later state `t`, lies in the region of the call on `(x, y)`. -/
theorem flood_fill_region_sub (s t : MinesweeperState) (x y a b : Int)
    (hst : reveals (fun _ _ => True) s t) (hb : in_bounds x y ≠ 0)
    (hr : (s.field x y).revealed = 0) (hz : (s.field x y).adjacent_mines = 0)
    (ha : x - 1 ≤ a ∧ a ≤ x + 1) (hbb : y - 1 ≤ b ∧ b ≤ y + 1) (i j : Int)
    (h : flood_fill_region t a b i j) : flood_fill_region s x y i j := by
  induction h with
  | root hab hrab =>
    have hrs := reveals_unrevealed_before _ s t hst a b hrab
    by_cases hc : a = x ∧ b = y
    · rw [hc.1, hc.2]
      exact flood_fill_region.root hb hr
    · exact flood_fill_region.cascade x y a b (flood_fill_region.root hb hr) hz
        ⟨ha.1, ha.2, hbb.1, hbb.2, hc⟩ hab hrs
  | cascade p q i j _ hzp hn hbij hrij ih =>
    refine flood_fill_region.cascade p q i j ih ?_ hn hbij
      (reveals_unrevealed_before _ s t hst i j hrij)
    rw [← (reveals_same _ s t hst p q).2.2.1]
    exact hzp

theorem reveal_tile_fuel_sound_chain (fuel : Nat) (x y : Int) (s : MinesweeperState)
    (ih : ∀ (a b : Int) (t t1 : MinesweeperState), reveal_tile_fuel fuel a b t = some t1 →
      reveals (flood_fill_region t a b) t t1)
    (hb : in_bounds x y ≠ 0) (hr : (s.field x y).revealed = 0)
    (hz : (s.field x y).adjacent_mines = 0)
    (a b : Int) (ha : x - 1 ≤ a ∧ a ≤ x + 1) (hbb : y - 1 ≤ b ∧ b ≤ y + 1)
    (t t1 : MinesweeperState) (ht : reveals (flood_fill_region s x y) s t)
    (e : reveal_tile_fuel fuel a b t = some t1) :
    reveals (flood_fill_region s x y) s t1 := by
  have h1 := ih a b t t1 e
  have h2 : reveals (flood_fill_region s x y) t t1 :=
    reveals_mono _ _ t t1 h1
      (fun i j _ _ hf =>
        flood_fill_region_sub s t x y a b (reveals_true _ s t ht) hb hr hz ha hbb i j hf)
  exact reveals_trans _ s t t1 ht h2

/-- A returning call of `reveal_tile` changes tiles of the flood-fill region only. -/
theorem reveal_tile_fuel_sound (fuel : Nat) :
    ∀ (x y : Int) (s s1 : MinesweeperState), reveal_tile_fuel fuel x y s = some s1 →
      reveals (flood_fill_region s x y) s s1 := by
  induction fuel with
  | zero => intro x y s s1 h; simp [reveal_tile_fuel] at h
  | succ fuel ih =>
    intro x y s s1 h
    unfold reveal_tile_fuel at h
    by_cases hg : in_bounds x y ≠ 0 ∧ (s.field x y).revealed = 0
    · rw [if_pos hg] at h
      have h1 : reveals (flood_fill_region s x y) s
          { s with field := set_tile s.field x y { s.field x y with revealed := 1 } } := by
        refine ⟨rfl, rfl, rfl, rfl, rfl, ?_⟩
        intro i j
        by_cases hc : i = x ∧ j = y
        · right
          rw [hc.1, hc.2]
          exact ⟨hg.1, hg.2, set_tile_same _ _ _ _, flood_fill_region.root hg.1 hg.2⟩
        · left
          exact set_tile_other _ _ _ _ _ _ hc
      simp only at h
      by_cases hz : (set_tile s.field x y { s.field x y with revealed := 1 } x y).adjacent_mines
          = 0
      · rw [if_pos hz] at h
        have hz0 : (s.field x y).adjacent_mines = 0 := by
          rw [set_tile_same] at hz
          exact hz
        simp only [Option.bind_eq_some] at h
        obtain ⟨t1, e1, t2, e2, t3, e3, t4, e4, t5, e5, t6, e6, t7, e7, e8⟩ := h
        have r1 := reveal_tile_fuel_sound_chain fuel x y s ih hg.1 hg.2 hz0 (x - 1) y
          (by omega) (by omega) _ t1 h1 e1
        have r2 := reveal_tile_fuel_sound_chain fuel x y s ih hg.1 hg.2 hz0 (x + 1) y
          (by omega) (by omega) t1 t2 r1 e2
        have r3 := reveal_tile_fuel_sound_chain fuel x y s ih hg.1 hg.2 hz0 (x - 1) (y - 1)
          (by omega) (by omega) t2 t3 r2 e3
        have r4 := reveal_tile_fuel_sound_chain fuel x y s ih hg.1 hg.2 hz0 (x + 1) (y - 1)
          (by omega) (by omega) t3 t4 r3 e4
        have r5 := reveal_tile_fuel_sound_chain fuel x y s ih hg.1 hg.2 hz0 (x - 1) (y + 1)
          (by omega) (by omega) t4 t5 r4 e5
        have r6 := reveal_tile_fuel_sound_chain fuel x y s ih hg.1 hg.2 hz0 (x + 1) (y + 1)
          (by omega) (by omega) t5 t6 r5 e6
        have r7 := reveal_tile_fuel_sound_chain fuel x y s ih hg.1 hg.2 hz0 x (y - 1)
          (by omega) (by omega) t6 t7 r6 e7
        exact reveal_tile_fuel_sound_chain fuel x y s ih hg.1 hg.2 hz0 x (y + 1)
          (by omega) (by omega) t7 s1 r7 e8
      · rw [if_neg hz] at h
        simp only [Option.some.injEq] at h
        rw [← h]; exact h1
    · rw [if_neg hg] at h
      simp only [Option.some.injEq] at h
      rw [← h]; exact reveals_refl _ s

theorem cascade_complete_trans (s t u : MinesweeperState)
    (h1 : reveals (fun _ _ => True) s t) (h2 : reveals (fun _ _ => True) t u)
    (c1 : cascade_complete s t) (c2 : cascade_complete t u) : cascade_complete s u := by
  intro p q hr hr1 hz i j hn hb
  by_cases ht : (t.field p q).revealed = 0
  · have hzt : (t.field p q).adjacent_mines = 0 := by
      rw [(reveals_same _ s t h1 p q).2.2.1]
      exact hz
    exact c2 p q ht hr1 hzt i j hn hb
  · exact (reveals_same _ t u h2 i j).2.2.2 (c1 p q hr ht hz i j hn hb)

/-- A returning call of `reveal_tile` leaves no cascade unfinished. -/
theorem reveal_tile_fuel_complete (fuel : Nat) :
    ∀ (x y : Int) (s s1 : MinesweeperState), reveal_tile_fuel fuel x y s = some s1 →
      cascade_complete s s1 := by
  induction fuel with
  | zero => intro x y s s1 h; simp [reveal_tile_fuel] at h
  | succ fuel ih =>
    intro x y s s1 h
    unfold reveal_tile_fuel at h
    by_cases hg : in_bounds x y ≠ 0 ∧ (s.field x y).revealed = 0
    · rw [if_pos hg] at h
      simp only at h
      by_cases hz : (set_tile s.field x y { s.field x y with revealed := 1 } x y).adjacent_mines
          = 0
      · rw [if_pos hz] at h
        simp only [Option.bind_eq_some] at h
        obtain ⟨t1, e1, t2, e2, t3, e3, t4, e4, t5, e5, t6, e6, t7, e7, e8⟩ := h
        have f1 := reveal_tile_fuel_frame fuel _ _ _ _ e1
        have f2 := reveal_tile_fuel_frame fuel _ _ _ _ e2
        have f3 := reveal_tile_fuel_frame fuel _ _ _ _ e3
        have f4 := reveal_tile_fuel_frame fuel _ _ _ _ e4
        have f5 := reveal_tile_fuel_frame fuel _ _ _ _ e5
        have f6 := reveal_tile_fuel_frame fuel _ _ _ _ e6
        have f7 := reveal_tile_fuel_frame fuel _ _ _ _ e7
        have f8 := reveal_tile_fuel_frame fuel _ _ _ _ e8
        have r6 := reveals_trans _ _ _ _ f7 f8
        have r5 := reveals_trans _ _ _ _ f6 r6
        have r4 := reveals_trans _ _ _ _ f5 r5
        have r3 := reveals_trans _ _ _ _ f4 r4
        have r2 := reveals_trans _ _ _ _ f3 r3
        have r1 := reveals_trans _ _ _ _ f2 r2
        have r0 := reveals_trans _ _ _ _ f1 r1
        have c6 := cascade_complete_trans _ _ _ f7 f8 (ih _ _ _ _ e7) (ih _ _ _ _ e8)
        have c5 := cascade_complete_trans _ _ _ f6 r6 (ih _ _ _ _ e6) c6
        have c4 := cascade_complete_trans _ _ _ f5 r5 (ih _ _ _ _ e5) c5
        have c3 := cascade_complete_trans _ _ _ f4 r4 (ih _ _ _ _ e4) c4
        have c2 := cascade_complete_trans _ _ _ f3 r3 (ih _ _ _ _ e3) c3
        have c1 := cascade_complete_trans _ _ _ f2 r2 (ih _ _ _ _ e2) c2
        have c0 := cascade_complete_trans _ _ _ f1 r1 (ih _ _ _ _ e1) c1
        intro p q hr hr1 hz0 i j hn hb
        by_cases hc : p = x ∧ q = y
        · rw [hc.1, hc.2] at hn
          unfold is_neighbour at hn
          have hi : i = x - 1 ∨ i = x ∨ i = x + 1 := by omega
          have hj : j = y - 1 ∨ j = y ∨ j = y + 1 := by omega
          rcases hi with rfl | rfl | rfl <;> rcases hj with rfl | rfl | rfl
          · exact (reveals_same _ _ _ r3 _ _).2.2.2 (reveal_tile_fuel_root fuel _ _ _ _ e3 hb)
          · exact (reveals_same _ _ _ r1 _ _).2.2.2 (reveal_tile_fuel_root fuel _ _ _ _ e1 hb)
          · exact (reveals_same _ _ _ r5 _ _).2.2.2 (reveal_tile_fuel_root fuel _ _ _ _ e5 hb)
          · exact (reveals_same _ _ _ f8 _ _).2.2.2 (reveal_tile_fuel_root fuel _ _ _ _ e7 hb)
          · exact absurd ⟨rfl, rfl⟩ hn.2.2.2.2
          · exact reveal_tile_fuel_root fuel _ _ _ _ e8 hb
          · exact (reveals_same _ _ _ r4 _ _).2.2.2 (reveal_tile_fuel_root fuel _ _ _ _ e4 hb)
          · exact (reveals_same _ _ _ r2 _ _).2.2.2 (reveal_tile_fuel_root fuel _ _ _ _ e2 hb)
          · exact (reveals_same _ _ _ r6 _ _).2.2.2 (reveal_tile_fuel_root fuel _ _ _ _ e6 hb)
        · have hsame : set_tile s.field x y { s.field x y with revealed := 1 } p q =
              s.field p q := set_tile_other _ _ _ _ _ _ hc
          refine c0 p q ?_ hr1 ?_ i j hn hb
          · show (set_tile s.field x y { s.field x y with revealed := 1 } p q).revealed = 0
            rw [hsame]; exact hr
          · show (set_tile s.field x y { s.field x y with revealed := 1 } p q).adjacent_mines
              = 0
            rw [hsame]; exact hz0
      · rw [if_neg hz] at h
        simp only [Option.some.injEq] at h
        intro p q hr hr1 hz0 i j hn hb
        exfalso
        rw [← h] at hr1
        change (set_tile s.field x y { s.field x y with revealed := 1 } p q).revealed ≠ 0 at hr1
        by_cases hc : p = x ∧ q = y
        · rw [hc.1, hc.2] at hz0
          rw [set_tile_same] at hz
          exact hz hz0
        · rw [set_tile_other _ _ _ _ _ _ hc] at hr1
          exact hr1 hr
    · rw [if_neg hg] at h
      simp only [Option.some.injEq] at h
      intro p q hr hr1 _ i j _ _
      rw [← h] at hr1
      exact absurd hr hr1

/-- Every tile of the flood-fill region is unrevealed before a returning call of
`reveal_tile` and revealed after it. -/
theorem reveal_tile_fuel_covers (fuel : Nat) (x y : Int) (s s1 : MinesweeperState)
    (h : reveal_tile_fuel fuel x y s = some s1) (i j : Int)
    (hf : flood_fill_region s x y i j) :
    (s.field i j).revealed = 0 ∧ (s1.field i j).revealed ≠ 0 := by
  induction hf with
  | root hb hr => exact ⟨hr, reveal_tile_fuel_root fuel x y s s1 h hb⟩
  | cascade p q i j _ hz hn hb hr ih =>
    exact ⟨hr, reveal_tile_fuel_complete fuel x y s s1 h p q ih.1 ih.2 hz i j hn hb⟩

/-- C22: `flood_fill_region state x y` is the least set of tiles `R` such that `(x, y)` is
in `R` when it is on the field and unrevealed, and every unrevealed neighbour on the field of
a tile of `R` with `adjacent_mines = 0` is in `R`.  `reveal_tile(x, y)` returns, the tiles
that were unrevealed before the call and are revealed after it are exactly the tiles of
that set, each of them differs from before only in `revealed`, which is 1, and no tile
outside the set changes. -/
theorem reveal_tile_reveals_flood_fill_region (x y : Int) (state : MinesweeperState) :
    flood_closed state x y (flood_fill_region state x y) ∧
    (∀ R : Int → Int → Prop, flood_closed state x y R →
      ∀ i j, flood_fill_region state x y i j → R i j) ∧
    ∃ s1, reveal_tile x y state = some s1 ∧
      (∀ i j, ((state.field i j).revealed = 0 ∧ (s1.field i j).revealed ≠ 0) ↔
        flood_fill_region state x y i j) ∧
      (∀ i j, flood_fill_region state x y i j →
        s1.field i j = { state.field i j with revealed := 1 }) ∧
      (∀ i j, ¬ flood_fill_region state x y i j → s1.field i j = state.field i j) := by
  refine ⟨⟨fun h => flood_fill_region.root h.1 h.2,
    fun p q i j hR hz hn hb hr => flood_fill_region.cascade p q i j hR hz hn hb hr⟩, ?_, ?_⟩
  · intro R hR i j hf
    induction hf with
    | root hb hr => exact hR.1 ⟨hb, hr⟩
    | cascade p q i j _ hz hn hb hr ih => exact hR.2 p q i j ih hz hn hb hr
  · obtain ⟨s1, hs1, _⟩ := reveal_tile_spec x y state
    have hsound := reveal_tile_fuel_sound _ x y state s1 hs1
    refine ⟨s1, hs1, ?_, ?_, ?_⟩
    · intro i j
      constructor
      · rintro ⟨hr, hr1⟩
        rcases hsound.tiles i j with e | ⟨_, _, _, hf⟩
        · rw [e] at hr1
          exact absurd hr hr1
        · exact hf
      · exact reveal_tile_fuel_covers _ x y state s1 hs1 i j
    · intro i j hf
      have hc := reveal_tile_fuel_covers _ x y state s1 hs1 i j hf
      rcases hsound.tiles i j with e | ⟨_, _, e, _⟩
      · rw [e] at hc
        exact absurd hc.1 hc.2
      · exact e
    · intro i j hnf
      rcases hsound.tiles i j with e | ⟨_, _, _, hf⟩
      · exact e
      · exact absurd hf hnf

/-! ## `client_queue_pop` on an empty queue -/

/-- C27, failing input: called on the empty queue, `client_queue_pop` returns no value, and
neither does a second `client_queue_pop` after one `client_queue_add`: with
`client_queue_size = 0` the pointer `client_request` is `NULL` when
`client_request->request_sockfd` is read, before the test that would return -1. -/
theorem client_queue_pop_empty_no_result :
    client_queue_pop ClientQueue.empty = none ∧
    ((client_queue_add ClientQueue.empty 7).bind fun r =>
      (client_queue_pop r.1).bind fun r1 => client_queue_pop r1.1) = none ∧
    ((client_queue_add ClientQueue.empty 7).bind fun r => client_queue_pop r.1) =
      some (ClientQueue.empty, 7) := by
  refine ⟨by decide, by decide, by decide⟩

end MinesweeperBSD
